import Mathlib

/-!
# OSU bidirectional bandwidth test (`osu_bibw_modified.c`)

A shallow embedding of `chrono`, `calculate_total` and `main` of
`src/osu_bibw_modified.c`, followed by theorems about them.

Conventions of the embedding.

* The program of one rank is a function from the options, an environment
  `Env` (everything `main` obtains from outside: the return values of the
  OSU/MPI helper functions, the clock, the results of `validate_data`, the
  outcome of the socket calls of `chrono`, the value delivered by `MPI_Bcast`)
  and the rank `myid` to the list of calls it makes (`Event`), its exit
  status and its final variables.
* `size` is a C `int`: `size *= 2` wraps modulo `2^32` (`wrapInt`), so the
  size loop may run forever; `sizeLoop` therefore takes fuel and returns
  `none` when the fuel is used up.
* `double` values are rationals; counts (`window_size`, `iterations`, `skip`,
  `warmup_validation`, `errors`, the results of `validate_data`) are naturals,
  that is non-negative `int`s whose sums stay in range.
* `MPI_CHECK` never fails and `allocate_memory_pt2pt*` succeed. Calls that
  neither change a variable of `main` nor steer it are left out: the PAPI and
  graph hooks, the data-touching kernels under `_ENABLE_CUDA_KERNEL_`, the
  warning of line 168, the tail-latency statistics of lines 470-473,
  `omb_ddt_free`, `fflush` and the final `free` calls.
* A run is observed through projections of its list of calls (`visitedSizes`,
  `accumulations`, `exchangeCounts`, ...), defined after the program.
* A job of two ranks is `jointRun`: the calls of each rank, with the blocking
  calls of the two ranks (`MPI_Barrier`, the exchange of a window,
  `MPI_Bcast`) run against each other; a rank does not get past a blocking
  call that its peer does not make.
-/

namespace OsuBibw

/-- Value of `options.buf_num`. -/
inductive BufNum where
  | SINGLE
  | MULTIPLE
  deriving DecidableEq, Repr

/-- Return value of `process_options`. -/
inductive PoRet where
  | PO_OKAY
  | PO_CUDA_NOT_AVAIL
  | PO_OPENACC_NOT_AVAIL
  | PO_BAD_USAGE
  | PO_HELP_MESSAGE
  | PO_VERSION_MESSAGE
  deriving DecidableEq, Repr

/-- Exit status `EXIT_SUCCESS`. -/
def EXIT_SUCCESS : Nat := 0

/-- Exit status `EXIT_FAILURE`. -/
def EXIT_FAILURE : Nat := 1

/-- The fields of the global `options` that `main` and `calculate_total` read.
`accel_none` stands for `options.accel == NONE`. -/
structure Options where
  window_size : Nat
  buf_num : BufNum
  omb_tail_lat : Bool
  iterations : Nat
  skip : Nat
  iterations_large : Nat
  skip_large : Nat
  min_message_size : Int
  max_message_size : Int
  omb_dtype_itr : Nat
  validate : Bool
  warmup_validation : Nat
  omb_enable_ddt : Bool
  accel_none : Bool
  src : Char
  dst : Char
  MMsrc : Char
  MMdst : Char
  deriving DecidableEq

/-- Outcome of the three system calls of one `chrono` call. -/
structure ChronoEnv where
  socket_ok : Bool
  pton_ok : Bool
  sendto_ok : Bool
  deriving DecidableEq

/-- What one rank obtains from outside `main`. The oracles `wtime`,
`validate_data` and `chrono_env` are indexed by the datatype pass, the message
size and the iteration (`wtime` also by start/end, `validate_data` also by the
window slot); `bcast_in k` is the value the `k`-th `MPI_Bcast` delivers to a
rank other than the root. `LARGE_MESSAGE_SIZE` is a constant of the OSU
headers; `enable_cuda` and `enable_cuda_kernel` are the build flags
`_ENABLE_CUDA_` and `_ENABLE_CUDA_KERNEL_`. -/
structure Env where
  LARGE_MESSAGE_SIZE : Int
  numprocs : Nat
  po_ret : PoRet
  init_accel_fails : Bool
  cleanup_accel_fails : Bool
  lat_arr_null : Bool
  comm_null : Bool
  enable_cuda : Bool
  enable_cuda_kernel : Bool
  mpi_type_size : Nat → Nat
  omb_ddt_assign : Nat → Nat → Nat
  omb_ddt_get_size : Nat → Nat
  measure_kernel_lo_window : Int → ℚ
  wtime : Nat → Int → Nat → Bool → ℚ
  validate_data : Nat → Int → Nat → Nat → Nat
  chrono_env : Nat → Int → Nat → ChronoEnv
  bcast_in : Nat → Nat

/-- The calls and prints of one rank, in program order, and four statements
that are not calls: `num_elements` is the assignment of line 200,
`accumulate` the addition of line 318 (with the elapsed time added and the new
`t_total`), `lat_write` the store of line 330, and `sweep_left` the point
right after the size loop (with the value `size` then has). Indices that the
C call does not receive (`i`, `k`, the pass `p`, the window slot) are carried
along so that properties can name the iteration an event belongs to;
`print_row` also carries the `options.iterations` its byte total was computed
with. -/
inductive Event where
  | stderr_init_accel
  | malloc_s_buf (n : Nat)
  | malloc_r_buf (n : Nat)
  | malloc_lat_arr (n : Nat)
  | stderr_alloc_null
  | mpi_init
  | stderr_comm_null
  | print_po_message (r : PoRet)
  | mpi_finalize
  | stderr_two_processes
  | allocate_memory_pt2pt
  | allocate_memory_pt2pt_size (slot : Nat) (size : Int)
  | print_preamble
  | print_datatype (p : Nat)
  | print_only_header
  | num_elements (size : Int) (n : Nat)
  | omb_ddt_assign (size : Int) (n : Nat)
  | set_buffer_pt2pt (slot : Nat) (size : Int)
  | barrier
  | set_buffer_validation (i slot : Nat) (size : Int) (counter : Nat)
  | wtime_start (i : Nat)
  | irecv (buf count peer tag req : Nat)
  | isend (buf count peer tag req : Nat)
  | waitall_send (n : Nat)
  | waitall_recv (n : Nat)
  | accumulate (i k : Nat) (elapsed t_total : ℚ)
  | chrono_call (elapsed_time : ℚ)
  | chrono_socket
  | chrono_perror (path : Nat)
  | chrono_sendto (value : Int)
  | chrono_close
  | lat_write (idx : Int) (v : ℚ)
  | validate_data (i slot : Nat) (size : Int) (counter result : Nat)
  | print_row (p : Nat) (size : Int) (iterations : Nat) (tmp_total t_total : ℚ)
      (errors : Option Nat) (transmit : Option Nat)
  | free_memory (slot : Nat)
  | bcast (value : Nat)
  | sweep_left (p : Nat) (size : Int)
  | stderr_cleanup_accel
  | print_validation_error (size : Int)
  | exit (status : Nat)
  deriving DecidableEq

/-- The local variables of `main` that live across message sizes, together
with the global `options` (which `main` modifies). `nbcast` counts the
`MPI_Bcast` calls made so far. -/
structure State where
  options : Options
  errors : Nat
  t_lo : ℚ
  t_total : ℚ
  size : Int
  nbcast : Nat

/-- The variables the iteration loop of one size changes. -/
structure IterSt where
  errors : Nat
  t_total : ℚ

/-- What a run of `main` leaves behind. -/
structure Outcome where
  status : Nat
  trace : List Event
  final : State

/-- C `int` arithmetic result brought back into the 32-bit range. -/
def wrapInt (x : Int) : Int := (x + 2147483648) % 4294967296 - 2147483648

/-- The conversion `(int)(x)` of a double, truncating towards zero. -/
def truncToInt (x : ℚ) : Int := if 0 ≤ x then ⌊x⌋ else -⌊-x⌋

/-- The assignment `num_elements = size / mpi_type_size`: `int` division, the
quotient converted to `size_t`. -/
def numElements (size : Int) (mpi_type_size : Nat) : Nat :=
  ((Int.tdiv size (mpi_type_size : Int)) % 18446744073709551616).toNat

/-- Function `chrono(label, elapsed_time)`; `label` is not used by the body.
Every path ends in `return` or at the end of the body. -/
def chrono (c : ChronoEnv) (elapsed_time : ℚ) : List Event :=
  if c.socket_ok = false then
    [Event.chrono_socket, Event.chrono_perror 0]
  else if c.pton_ok = false then
    [Event.chrono_socket, Event.chrono_perror 1, Event.chrono_close]
  else if c.sendto_ok = false then
    [Event.chrono_socket, Event.chrono_sendto (truncToInt (elapsed_time * 1000)),
      Event.chrono_perror 2, Event.chrono_close]
  else
    [Event.chrono_socket, Event.chrono_sendto (truncToInt (elapsed_time * 1000)),
      Event.chrono_close]

/-- Function `calculate_total(t_start, t_end, t_lo, window_size)`. -/
def calculate_total (o : Options) (t_start t_end t_lo : ℚ) (window_size : Nat) : ℚ :=
  if (o.src = 'M' ∧ o.MMsrc = 'D') ∧ (o.dst = 'M' ∧ o.MMdst = 'D') then
    (t_end - t_start) - (2 * t_lo * window_size)
  else if (o.src = 'M' ∧ o.MMsrc = 'D') ∨ (o.dst = 'M' ∧ o.MMdst = 'D') then
    (t_end - t_start) - (t_lo * window_size)
  else
    t_end - t_start

/-- A counted loop `for (k = k0; k < k0 + n; k++)` without `break`: the body
maps the loop variable and the threaded value to the new value and its calls. -/
def forLoop {σ : Type} (body : Nat → σ → σ × List Event) : Nat → Nat → σ → σ × List Event
  | 0, _, s => (s, [])
  | n + 1, k, s =>
    let a := body k s
    let b := forLoop body n (k + 1) a.1
    (b.1, a.2 ++ b.2)

/-- A counted loop whose body may `break`: the body also returns whether it
left the loop. -/
def forLoopBreak {σ : Type} (body : Nat → σ → σ × List Event × Bool) :
    Nat → Nat → σ → σ × List Event
  | 0, _, s => (s, [])
  | n + 1, k, s =>
    let a := body k s
    if a.2.2 = true then (a.1, a.2.1)
    else
      let b := forLoopBreak body n (k + 1) a.1
      (b.1, a.2.1 ++ b.2)

/-- The loop `for (j = 0; j < window_size; j++) MPI_Irecv(...)` (lines 278-288
and 373-383). -/
def postIrecv (o : Options) (num_elements peer tag : Nat) : List Event :=
  (List.range o.window_size).map fun j =>
    if o.buf_num = BufNum.SINGLE then Event.irecv 0 num_elements peer tag j
    else Event.irecv j num_elements peer tag j

/-- The loop `for (j = 0; j < window_size; j++) MPI_Isend(...)` (lines 290-300
and 385-395). -/
def postIsend (o : Options) (num_elements peer tag : Nat) : List Event :=
  (List.range o.window_size).map fun j =>
    if o.buf_num = BufNum.SINGLE then Event.isend 0 num_elements peer tag j
    else Event.isend j num_elements peer tag j

/-- One exchange: the calls of lines 278-306 for `myid == 0` and of lines
373-408 for the other rank. -/
def exchange (o : Options) (myid num_elements : Nat) : List Event :=
  if myid = 0 then
    postIrecv o num_elements 1 10 ++ postIsend o num_elements 1 100 ++
      [Event.waitall_send o.window_size, Event.waitall_recv o.window_size]
  else
    postIrecv o num_elements 0 100 ++ postIsend o num_elements 0 10 ++
      [Event.waitall_recv o.window_size, Event.waitall_send o.window_size]

/-- The per-iteration `tmp_total` of lines 323-328. -/
def iterBytes (o : Options) (size : Int) (transmit : Nat) : ℚ :=
  if o.omb_enable_ddt = true then (transmit : ℚ) / 1000000 * o.window_size * 2
  else (size : ℚ) / 1000000 * o.window_size * 2

/-- The `tmp_total` of a result row, lines 454-460. -/
def rowBytes (o : Options) (size : Int) (transmit : Nat) : ℚ :=
  if o.omb_enable_ddt = true then
    (transmit : ℚ) / 1000000 * o.iterations * o.window_size * 2
  else (size : ℚ) / 1000000 * o.iterations * o.window_size * 2

/-- One pass of the loop over `k` (lines 265-432) in outer iteration `i`. -/
def kPass (o : Options) (e : Env) (myid p : Nat) (size : Int) (num_elements transmit : Nat)
    (t_lo : ℚ) (i k : Nat) (t_total : ℚ) : ℚ × List Event :=
  if myid = 0 then
    if o.skip ≤ i ∧ k = o.warmup_validation then
      let t_start := e.wtime p size i false
      let t_end := e.wtime p size i true
      let t_total1 := t_total + calculate_total o t_start t_end t_lo o.window_size
      (t_total1,
        [Event.wtime_start i] ++ exchange o myid num_elements ++
        [Event.accumulate i k (calculate_total o t_start t_end t_lo o.window_size) t_total1,
          Event.chrono_call t_total1] ++
        chrono (e.chrono_env p size i) t_total1 ++
        (if o.omb_tail_lat = true then
          [Event.lat_write ((i : Int) - (o.skip : Int))
            (iterBytes o size transmit /
              calculate_total o t_start t_end t_lo o.window_size)]
        else []))
    else (t_total, exchange o myid num_elements)
  else (t_total, exchange o myid num_elements)

/-- The calls of lines 250-263: `set_buffer_validation` and the barrier. -/
def setValidation (o : Options) (size : Int) (i : Nat) : List Event :=
  if o.validate = true then
    (if o.buf_num = BufNum.MULTIPLE then
      (List.range o.window_size).map fun l => Event.set_buffer_validation i l size (i + l)
    else [Event.set_buffer_validation i 0 size i]) ++ [Event.barrier]
  else []

/-- The additions `errors += validate_data(...)` of lines 435-445. -/
def validatePass (o : Options) (e : Env) (p : Nat) (size : Int) (i : Nat) (errors : Nat) :
    Nat × List Event :=
  if o.buf_num = BufNum.SINGLE then
    (errors + e.validate_data p size i 0,
      [Event.validate_data i 0 size i (e.validate_data p size i 0)])
  else
    forLoop (fun j err =>
      (err + e.validate_data p size i j,
        [Event.validate_data i j size (i + j) (e.validate_data p size i j)]))
      o.window_size 0 errors

/-- Body of the loop over `i` (lines 247-449); the last component tells
whether the `break` of line 447 was taken. -/
def iterBody (o : Options) (e : Env) (myid p : Nat) (size : Int) (num_elements transmit : Nat)
    (t_lo : ℚ) (i : Nat) (s : IterSt) : IterSt × List Event × Bool :=
  let kl := forLoop (kPass o e myid p size num_elements transmit t_lo i)
    (o.warmup_validation + 1) 0 s.t_total
  if o.skip ≤ i ∧ o.validate = true then
    let v := validatePass o e p size i s.errors
    ({ errors := v.1, t_total := kl.1 }, setValidation o size i ++ kl.2 ++ v.2,
      decide (0 < v.1))
  else
    ({ errors := s.errors, t_total := kl.1 }, setValidation o size i ++ kl.2, false)

/-- The loop `for (i = 0; i < options.iterations + options.skip; i++)` of
line 246, entered with `t_total = 0.0`. -/
def iterLoop (o : Options) (e : Env) (myid p : Nat) (size : Int) (num_elements transmit : Nat)
    (t_lo : ℚ) (errors : Nat) : IterSt × List Event :=
  forLoopBreak (iterBody o e myid p size num_elements transmit t_lo)
    (o.iterations + o.skip) 0 { errors := errors, t_total := 0 }

/-- The assignment of lines 230-233. -/
def largeSwitch (e : Env) (size : Int) (o : Options) : Options :=
  if size > e.LARGE_MESSAGE_SIZE then
    { o with iterations := o.iterations_large, skip := o.skip_large }
  else o

/-- The calls of lines 209-228: allocation (multiple-buffer mode only) and
first touch of the buffers of a size. -/
def sizeAlloc (st : State) : List Event :=
  if st.options.buf_num = BufNum.MULTIPLE then
    ((List.range st.options.window_size).map fun i =>
      Event.allocate_memory_pt2pt_size i st.size) ++
    ((List.range st.options.window_size).map fun i => Event.set_buffer_pt2pt i st.size)
  else [Event.set_buffer_pt2pt 0 st.size]

/-- The value of `t_lo` after lines 234-239. -/
def sizeTlo (e : Env) (st : State) : ℚ :=
  if e.enable_cuda_kernel = true ∧
      ((st.options.src = 'M' ∧ st.options.MMsrc = 'D') ∨
        (st.options.dst = 'M' ∧ st.options.MMdst = 'D')) then
    e.measure_kernel_lo_window st.size
  else st.t_lo

/-- The value of `omb_ddt_transmit_size` after lines 204-207. -/
def sizeTransmit (e : Env) (p num_elements : Nat) : Nat :=
  e.omb_ddt_assign p num_elements * e.mpi_type_size p

/-- The iteration loop of a size (lines 244-450), run with the options as
lines 230-233 leave them and with `num_elements` as line 208 leaves it. -/
def sizeIter (e : Env) (myid p num_elements : Nat) (st : State) : IterSt × List Event :=
  iterLoop (largeSwitch e st.size st.options) e myid p st.size
    (e.omb_ddt_get_size num_elements) (sizeTransmit e p num_elements) (sizeTlo e st) st.errors

/-- The result row of lines 453-482, printed by rank 0. -/
def sizeRow (e : Env) (myid p num_elements : Nat) (st : State) : List Event :=
  if myid = 0 then
    [Event.print_row p st.size (largeSwitch e st.size st.options).iterations
      (rowBytes (largeSwitch e st.size st.options) st.size (sizeTransmit e p num_elements))
      (sizeIter e myid p num_elements st).1.t_total
      (if st.options.validate = true then some (sizeIter e myid p num_elements st).1.errors
        else none)
      (if st.options.omb_enable_ddt = true then some (sizeTransmit e p num_elements)
        else none)]
  else []

/-- The calls of lines 485-489. -/
def sizeFree (st : State) : List Event :=
  if st.options.buf_num = BufNum.MULTIPLE then
    (List.range st.options.window_size).map fun i => Event.free_memory i
  else []

/-- The value of `errors` after lines 491-496: with validation on, a rank
other than the root takes the value the broadcast delivers. -/
def sizeErrors (e : Env) (myid p num_elements : Nat) (st : State) : Nat :=
  if st.options.validate = true then
    if myid = 0 then (sizeIter e myid p num_elements st).1.errors else e.bcast_in st.nbcast
  else (sizeIter e myid p num_elements st).1.errors

/-- Body of the size loop from line 204 on, for a size with
`num_elements != 0`; the last component tells whether the `break` of line 494
was taken. -/
def sizeBody (e : Env) (myid p num_elements : Nat) (st : State) :
    State × List Event × Bool :=
  ({ options := largeSwitch e st.size st.options,
     errors := sizeErrors e myid p num_elements st,
     t_lo := sizeTlo e st,
     t_total := (sizeIter e myid p num_elements st).1.t_total,
     size := st.size,
     nbcast := if st.options.validate = true then st.nbcast + 1 else st.nbcast },
    [Event.omb_ddt_assign st.size num_elements] ++ sizeAlloc st ++ [Event.barrier] ++
      (sizeIter e myid p num_elements st).2 ++ sizeRow e myid p num_elements st ++
      sizeFree st ++
      (if st.options.validate = true then [Event.bcast (sizeErrors e myid p num_elements st)]
        else []),
    decide (st.options.validate = true ∧ sizeErrors e myid p num_elements st ≠ 0))

/-- The step `size *= 2` of the size loop. -/
def nextSize (st : State) : State :=
  { st with size := wrapInt (st.size * 2) }

/-- The initialisation `size = options.min_message_size` of the size loop. -/
def enterSweep (st : State) : State :=
  { st with size := st.options.min_message_size }

/-- The loop `for (...; size <= options.max_message_size; size *= 2)` of
lines 198-497, entered with `st.size` already set; `none` when the fuel is
used up before the loop ends. -/
def sizeLoop (e : Env) (myid p : Nat) : Nat → State → Option (State × List Event)
  | 0, _ => none
  | fuel + 1, st =>
    if st.size ≤ st.options.max_message_size then
      if numElements st.size (e.mpi_type_size p) = 0 then
        (sizeLoop e myid p fuel (nextSize st)).map fun r =>
          (r.1, Event.num_elements st.size 0 :: r.2)
      else
        let b := sizeBody e myid p (numElements st.size (e.mpi_type_size p)) st
        if b.2.2 = true then
          some (b.1, Event.num_elements st.size (numElements st.size (e.mpi_type_size p)) ::
            b.2.1)
        else
          (sizeLoop e myid p fuel (nextSize b.1)).map fun r =>
            (r.1, Event.num_elements st.size (numElements st.size (e.mpi_type_size p)) ::
              (b.2.1 ++ r.2))
    else some (st, [])

/-- The loop over `mpi_type_itr` of lines 187-498: `n` passes remain, `p` is
the current one. -/
def passLoop (e : Env) (myid fuel : Nat) : Nat → Nat → State → Option (State × List Event)
  | 0, _, st => some (st, [])
  | n + 1, p, st =>
    match sizeLoop e myid p fuel (enterSweep st) with
    | none => none
    | some a =>
      match passLoop e myid fuel n (p + 1) a.1 with
      | none => none
      | some b =>
        some (b.1,
          (if myid = 0 then [Event.print_datatype p] else []) ++ [Event.print_only_header] ++
            a.2 ++ [Event.sweep_left p a.1.size] ++ b.2)

/-- The variables of `main` at their declaration; `size` has no initial value
in the source and is taken to be 0. -/
def initState (o : Options) : State :=
  { options := o, errors := 0, t_lo := 0, t_total := 0, size := 0, nbcast := 0 }

/-- The assignment `options.buf_num = MULTIPLE` of lines 165-173. -/
def cudaBufNum (e : Env) (o : Options) : Options :=
  if e.enable_cuda = true ∧ (o.src = 'M' ∨ o.dst = 'M') then
    { o with buf_num := BufNum.MULTIPLE }
  else o

/-- Lines 183-528 of `main`: the sweep and what follows it, after `pre`. -/
def mainSweep (fuel : Nat) (o : Options) (e : Env) (myid : Nat) (pre : List Event) :
    Option Outcome :=
  let o1 := cudaBufNum e o
  let evAlloc := if o1.buf_num = BufNum.SINGLE then [Event.allocate_memory_pt2pt] else []
  match passLoop e myid fuel o1.omb_dtype_itr 0 (initState o1) with
  | none => none
  | some r =>
    let evFree := if r.1.options.buf_num = BufNum.SINGLE then [Event.free_memory 0] else []
    let tr := pre ++ evAlloc ++ [Event.print_preamble] ++ r.2 ++ evFree ++ [Event.mpi_finalize]
    if r.1.options.accel_none = false ∧ e.cleanup_accel_fails = true then
      some { status := EXIT_FAILURE,
             trace := tr ++ [Event.stderr_cleanup_accel, Event.exit EXIT_FAILURE],
             final := r.1 }
    else if r.1.errors ≠ 0 ∧ r.1.options.validate = true ∧ myid = 0 then
      some { status := EXIT_FAILURE,
             trace := tr ++ [Event.print_validation_error r.1.size, Event.exit EXIT_FAILURE],
             final := r.1 }
    else
      some { status := EXIT_SUCCESS, trace := tr ++ [Event.exit EXIT_SUCCESS], final := r.1 }

/-- The calls of lines 95-106: the two pointer tables and the latency series. -/
def earlyMallocs (o : Options) : List Event :=
  (if o.buf_num = BufNum.MULTIPLE then
    [Event.malloc_s_buf o.window_size, Event.malloc_r_buf o.window_size]
  else [Event.malloc_s_buf 1, Event.malloc_r_buf 1]) ++
  (if o.omb_tail_lat = true then [Event.malloc_lat_arr o.iterations] else [])

/-- Function `main` as run by rank `myid`. -/
def main (fuel : Nat) (o : Options) (e : Env) (myid : Nat) : Option Outcome :=
  if e.po_ret = PoRet.PO_OKAY ∧ o.accel_none = false ∧ e.init_accel_fails = true then
    some { status := EXIT_FAILURE,
           trace := [Event.stderr_init_accel, Event.exit EXIT_FAILURE],
           final := initState o }
  else if o.omb_tail_lat = true ∧ e.lat_arr_null = true then
    some { status := EXIT_FAILURE,
           trace := earlyMallocs o ++ [Event.stderr_alloc_null, Event.exit EXIT_FAILURE],
           final := initState o }
  else if e.comm_null = true then
    some { status := EXIT_FAILURE,
           trace := earlyMallocs o ++
             [Event.mpi_init, Event.stderr_comm_null, Event.exit EXIT_FAILURE],
           final := initState o }
  else
    let pre := earlyMallocs o ++ [Event.mpi_init]
    match e.po_ret with
    | PoRet.PO_VERSION_MESSAGE =>
      some { status := EXIT_SUCCESS,
             trace := pre ++
               (if myid = 0 then [Event.print_po_message PoRet.PO_VERSION_MESSAGE] else []) ++
               [Event.mpi_finalize, Event.exit EXIT_SUCCESS],
             final := initState o }
    | PoRet.PO_HELP_MESSAGE =>
      some { status := EXIT_SUCCESS,
             trace := pre ++
               (if myid = 0 then [Event.print_po_message PoRet.PO_HELP_MESSAGE] else []) ++
               [Event.mpi_finalize, Event.exit EXIT_SUCCESS],
             final := initState o }
    | PoRet.PO_OKAY =>
      if e.numprocs ≠ 2 then
        some { status := EXIT_FAILURE,
               trace := pre ++ (if myid = 0 then [Event.stderr_two_processes] else []) ++
                 [Event.mpi_finalize, Event.exit EXIT_FAILURE],
               final := initState o }
      else mainSweep fuel o e myid pre
    | r =>
      some { status := EXIT_FAILURE,
             trace := pre ++ (if myid = 0 then [Event.print_po_message r] else []) ++
               [Event.mpi_finalize, Event.exit EXIT_FAILURE],
             final := initState o }

/-! ## Observations on a list of calls, and the specification's own words -/

/-- Buffer used by window slot `j`, in the words of the specification: buffer
`j` in multiple-buffer mode and buffer 0 in single-buffer mode. -/
def slotBuffer (o : Options) (j : Nat) : Nat :=
  match o.buf_num with
  | BufNum.MULTIPLE => j
  | BufNum.SINGLE => 0

/-- The calls the loop over `i` (lines 246-450) can make. -/
def Event.inIteration : Event → Bool
  | Event.set_buffer_validation _ _ _ _ => true
  | Event.barrier => true
  | Event.wtime_start _ => true
  | Event.irecv _ _ _ _ _ => true
  | Event.isend _ _ _ _ _ => true
  | Event.waitall_send _ => true
  | Event.waitall_recv _ => true
  | Event.accumulate _ _ _ _ => true
  | Event.chrono_call _ => true
  | Event.chrono_socket => true
  | Event.chrono_perror _ => true
  | Event.chrono_sendto _ => true
  | Event.chrono_close => true
  | Event.lat_write _ _ => true
  | Event.validate_data _ _ _ _ _ => true
  | _ => false

/-- The values of `size` at which the size loop evaluated line 200. -/
def visitedSizes (tr : List Event) : List Int :=
  tr.filterMap fun ev =>
    match ev with
    | Event.num_elements s _ => some s
    | _ => none

/-- The pairs (`size`, `num_elements`) computed at line 200. -/
def elementCounts (tr : List Event) : List (Int × Nat) :=
  tr.filterMap fun ev =>
    match ev with
    | Event.num_elements s n => some (s, n)
    | _ => none

/-- The sizes for which the transfer body (line 204 onwards) was entered. -/
def transferSizes (tr : List Event) : List Int :=
  tr.filterMap fun ev =>
    match ev with
    | Event.omb_ddt_assign s _ => some s
    | _ => none

/-- No validation failure is recorded in pass `p`: validation is off, or the
error counter is 0 on entry, every `validate_data` result of the pass is 0 and
a rank other than the root receives 0 from every broadcast. -/
def NoFailure (e : Env) (myid p : Nat) (st : State) : Prop :=
  st.options.validate = false ∨
    (st.errors = 0 ∧ (∀ s i j, e.validate_data p s i j = 0) ∧
      (myid ≠ 0 → ∀ k, e.bcast_in k = 0))

/-- The calls of the size body that most observations ignore: those of the
iteration loop and the buffer management around it. -/
def Event.quiet : Event → Bool
  | Event.allocate_memory_pt2pt_size _ _ => true
  | Event.set_buffer_pt2pt _ _ => true
  | Event.free_memory _ => true
  | ev => ev.inIteration

/-! ## Concrete configurations -/

/-- A small configuration: window 2, two timed iterations, no warm-up, sizes 1
to 4, one datatype pass, host buffers, no validation. -/
def demoOptions : Options :=
  { window_size := 2, buf_num := BufNum.MULTIPLE, omb_tail_lat := false, iterations := 2,
    skip := 0, iterations_large := 1, skip_large := 0, min_message_size := 1,
    max_message_size := 4, omb_dtype_itr := 1, validate := false, warmup_validation := 0,
    omb_enable_ddt := false, accel_none := true, src := 'H', dst := 'H', MMsrc := 'H',
    MMdst := 'H' }

/-- An environment in which nothing fails: two processes, one-byte elements,
threshold 8192, every exchange takes one time unit, `validate_data` returns 0. -/
def demoEnv : Env :=
  { LARGE_MESSAGE_SIZE := 8192, numprocs := 2, po_ret := PoRet.PO_OKAY,
    init_accel_fails := false, cleanup_accel_fails := false, lat_arr_null := false,
    comm_null := false, enable_cuda := false, enable_cuda_kernel := false,
    mpi_type_size := fun _ => 1, omb_ddt_assign := fun _ n => n,
    omb_ddt_get_size := fun n => n, measure_kernel_lo_window := fun _ => 0,
    wtime := fun _ _ _ b => if b = true then 1 else 0,
    validate_data := fun _ _ _ _ => 0,
    chrono_env := fun _ _ _ => { socket_ok := true, pton_ok := true, sendto_ok := true },
    bcast_in := fun _ => 0 }

/-- The environment `demoEnv` with a transport that corrupts every message:
`validate_data` returns 1. -/
def corruptEnv : Env :=
  { demoEnv with validate_data := fun _ _ _ _ => 1 }

/-- The calls of an exchange. -/
def Event.isTransfer : Event → Bool
  | Event.irecv _ _ _ _ _ => true
  | Event.isend _ _ _ _ _ => true
  | Event.waitall_send _ => true
  | Event.waitall_recv _ => true
  | _ => false

/-- The system calls made inside `chrono`. -/
def Event.isTelemetry : Event → Bool
  | Event.chrono_socket => true
  | Event.chrono_perror _ => true
  | Event.chrono_sendto _ => true
  | Event.chrono_close => true
  | _ => false

/-- The calls of the validation pass: lines 250-263 and 434-445. -/
def Event.isValidation : Event → Bool
  | Event.set_buffer_validation _ _ _ _ => true
  | Event.barrier => true
  | Event.validate_data _ _ _ _ _ => true
  | _ => false

/-- The pairs (`i`, `k`) of the passes in which `t_total += ...` (line 318)
was executed. -/
def accumulations (tr : List Event) : List (Nat × Nat) :=
  tr.filterMap fun ev =>
    match ev with
    | Event.accumulate i k _ _ => some (i, k)
    | _ => none

/-- The configuration `demoOptions` with three timed iterations, two warm-up
iterations and one warm-up pass of the inner loop. -/
def timedOptions : Options :=
  { demoOptions with iterations := 3, skip := 2, warmup_validation := 1 }

/-- The calls `main` and the datatype loop make outside the size loop. -/
def Event.isOuter : Event → Bool
  | Event.stderr_init_accel => true
  | Event.malloc_s_buf _ => true
  | Event.malloc_r_buf _ => true
  | Event.malloc_lat_arr _ => true
  | Event.stderr_alloc_null => true
  | Event.mpi_init => true
  | Event.stderr_comm_null => true
  | Event.print_po_message _ => true
  | Event.mpi_finalize => true
  | Event.stderr_two_processes => true
  | Event.allocate_memory_pt2pt => true
  | Event.print_preamble => true
  | Event.print_datatype _ => true
  | Event.print_only_header => true
  | Event.free_memory _ => true
  | Event.stderr_cleanup_accel => true
  | Event.print_validation_error _ => true
  | Event.exit _ => true
  | _ => false

/-- The options `o` after the assignment of lines 231-232. -/
def Options.large (o : Options) : Options :=
  { o with iterations := o.iterations_large, skip := o.skip_large }

/-- The global `options` at some point of the sweep that started from `o`:
either `o` itself or `o` after the assignment of lines 231-232. -/
def Options.derivedFrom (o1 o : Options) : Prop :=
  o1 = o ∨ o1 = o.large

/-- What the count of exchanges per size looks at: the entry into the
transfer body of a size and the completion of the sends of one exchange. -/
inductive Mark where
  | size (s : Int)
  | exchange
  deriving DecidableEq

/-- The mark of a call, if it has one. -/
def Event.mark : Event → Option Mark
  | Event.omb_ddt_assign s _ => some (Mark.size s)
  | Event.waitall_send _ => some Mark.exchange
  | _ => none

/-- Reading the marks from the end: the number of exchanges not yet assigned
to a size, and the sizes processed with the number of exchanges of each. -/
def countMarks : List Mark → Nat × List (Int × Nat)
  | [] => (0, [])
  | Mark.exchange :: ms => ((countMarks ms).1 + 1, (countMarks ms).2)
  | Mark.size s :: ms => (0, (s, (countMarks ms).1) :: (countMarks ms).2)

/-- The sizes whose transfer body was run, in order, each with the number of
exchanges run for it. -/
def exchangeCounts (tr : List Event) : List (Int × Nat) :=
  (countMarks (tr.filterMap Event.mark)).2

/-- The rows printed: datatype pass, size and the value of
`options.iterations` used for the row. -/
def rowIterations (tr : List Event) : List (Nat × Int × Nat) :=
  tr.filterMap fun ev =>
    match ev with
    | Event.print_row p s n _ _ _ _ => some (p, s, n)
    | _ => none

/-- Two datatype passes over the sizes 8192 and 16384 with window 1: two
iterations are configured, one for large messages. -/
def twoPassOptions : Options :=
  { demoOptions with
    window_size := 1
    omb_dtype_itr := 2
    min_message_size := 8192
    max_message_size := 16384
    iterations := 2
    iterations_large := 1 }

/-- Number of exchanges in a list of calls: each exchange waits for its sends
exactly once. -/
def exchangesRun (tr : List Event) : Nat :=
  tr.countP fun ev =>
    match ev with
    | Event.waitall_send _ => true
    | _ => false

/-- The `validate_data` calls: iteration, window slot and counter argument. -/
def validations (tr : List Event) : List (Nat × Nat × Nat) :=
  tr.filterMap fun ev =>
    match ev with
    | Event.validate_data i j _ c _ => some (i, j, c)
    | _ => none

/-- The `set_buffer_validation` calls: iteration, window slot and counter
argument. -/
def validationSetups (tr : List Event) : List (Nat × Nat × Nat) :=
  tr.filterMap fun ev =>
    match ev with
    | Event.set_buffer_validation i j _ c => some (i, j, c)
    | _ => none

/-- The number of buffers validated in one iteration, in the words of the
specification: one in single-buffer mode, one per window slot otherwise. -/
def slotCount (o : Options) : Nat :=
  match o.buf_num with
  | BufNum.SINGLE => 1
  | BufNum.MULTIPLE => o.window_size

/-- The counter of iteration `i` and slot `j`, in the words of the
specification: `i` for the single buffer, `i + j` in multiple-buffer mode. -/
def slotCounter (o : Options) (i j : Nat) : Nat :=
  match o.buf_num with
  | BufNum.SINGLE => i
  | BufNum.MULTIPLE => i + j

/-- The sum of the `validate_data` results of iteration `i` over its slots. -/
def slotSum (o : Options) (v : Nat → Nat → Nat) (i : Nat) : Nat :=
  Finset.sum (Finset.range (slotCount o)) (fun j => v i j)

/-- The sum of the `validate_data` results over the (iteration, slot) pairs
of the timed iterations `skip <= i < m`. -/
def timedSum (o : Options) (v : Nat → Nat → Nat) (m : Nat) : Nat :=
  Finset.sum (Finset.Ico o.skip m) (slotSum o v)

/-- The (iteration, slot, counter) triples of the iterations `i < m` that
satisfy `from <= i`. -/
def slotTriples (o : Options) (start m : Nat) : List (Nat × Nat × Nat) :=
  ((List.range m).filter (fun i => decide (start ≤ i))).flatMap fun i =>
    (List.range (slotCount o)).map fun j => (i, j, slotCounter o i j)

/-- The values passed to or delivered by `MPI_Bcast`, in order. -/
def bcastValues (tr : List Event) : List Nat :=
  tr.filterMap fun ev =>
    match ev with
    | Event.bcast v => some v
    | _ => none

/-- For each datatype pass, the value of `size` with which the size loop was
left. -/
def sweepsLeft (tr : List Event) : List (Nat × Int) :=
  tr.filterMap fun ev =>
    match ev with
    | Event.sweep_left p s => some (p, s)
    | _ => none

/-- The sizes of the `validate_data` calls that returned a non-zero result. -/
def recordedFailures (tr : List Event) : List Int :=
  tr.filterMap fun ev =>
    match ev with
    | Event.validate_data _ _ s _ r => if r = 0 then none else some s
    | _ => none

/-- The control skeleton of a run: the sizes visited, the transfer bodies
entered, the broadcasts and the sizes at which the sweeps were left. -/
def Event.control : Event → Option Event
  | Event.num_elements s n => some (Event.num_elements s n)
  | Event.omb_ddt_assign s n => some (Event.omb_ddt_assign s n)
  | Event.bcast v => some (Event.bcast v)
  | Event.sweep_left p s => some (Event.sweep_left p s)
  | _ => none

/-- The control skeleton of a list of calls. -/
def controlTrace (tr : List Event) : List Event :=
  tr.filterMap Event.control

/-- The environment of rank 1 in a job whose rank 0 makes the calls
`rootTrace`: the job is the one of `e0`, `validate_data` returns what `v1`
says, and the `k`-th `MPI_Bcast` of rank 1 delivers the `k`-th value rank 0
broadcasts. This is what MPI delivers as long as the two ranks make their
blocking calls in the same order; `jointRun` checks that they do and takes the
job as stuck from the first call on which they differ. -/
def responderEnv (e0 : Env) (v1 : Nat → Int → Nat → Nat → Nat) (rootTrace : List Event) :
    Env :=
  { e0 with
    validate_data := v1
    bcast_in := fun k => (bcastValues rootTrace).getD k 0 }

/-- The configuration `demoOptions` with validation on and window 1. -/
def validatingOptions : Options :=
  { demoOptions with
    window_size := 1
    validate := true }

/-- Two states agree on what steers the sweep: the options, `size`, the error
counter, the number of broadcasts made and `t_lo`. -/
def sameControl (s0 s1 : State) : Prop :=
  s0.options = s1.options ∧ s0.size = s1.size ∧ s0.errors = s1.errors ∧
    s0.nbcast = s1.nbcast ∧ s0.t_lo = s1.t_lo

/-- The run gets past the checks of lines 87-163 and enters the sweep: no
set-up failure, options parsed, exactly two processes. -/
def reachesSweep (o : Options) (e : Env) : Prop :=
  ¬ (e.po_ret = PoRet.PO_OKAY ∧ o.accel_none = false ∧ e.init_accel_fails = true) ∧
    ¬ (o.omb_tail_lat = true ∧ e.lat_arr_null = true) ∧ ¬ e.comm_null = true ∧
    e.po_ret = PoRet.PO_OKAY ∧ ¬ e.numprocs ≠ 2

/-- The calls that allocate memory. -/
def Event.isAllocation : Event → Bool
  | Event.malloc_s_buf _ => true
  | Event.malloc_r_buf _ => true
  | Event.malloc_lat_arr _ => true
  | Event.allocate_memory_pt2pt => true
  | Event.allocate_memory_pt2pt_size _ _ => true
  | _ => false

/-- The calls that allocate message buffers: `allocate_memory_pt2pt` and
`allocate_memory_pt2pt_size`. -/
def Event.isBufferAllocation : Event → Bool
  | Event.allocate_memory_pt2pt => true
  | Event.allocate_memory_pt2pt_size _ _ => true
  | _ => false

/-- The environment `demoEnv` with three processes. -/
def threeEnv : Env :=
  { demoEnv with numprocs := 3 }

/-- The configuration `demoOptions` with tail latency on. -/
def tailOptions : Options :=
  { demoOptions with omb_tail_lat := true }

/-- The sizes printed in the `DATA VALIDATION ERROR` line. -/
def reportedSizes (tr : List Event) : List Int :=
  tr.filterMap fun ev =>
    match ev with
    | Event.print_validation_error s => some s
    | _ => none

/-- Validation on, window 1, two datatype passes over the sizes 1, 2 and 4. -/
def twoPassValidating : Options :=
  { demoOptions with
    window_size := 1
    validate := true
    omb_dtype_itr := 2 }

/-- The environment `demoEnv` with a transport that corrupts the messages of
size 4 of the first datatype pass only. -/
def corruptAtFour : Env :=
  { demoEnv with
    validate_data := fun p s _ _ => if p = 0 ∧ s = 4 then 1 else 0 }

/-- A call as the benchmark sees it: the system calls inside `chrono` are
dropped, every other call is kept. -/
def Event.benchmark (ev : Event) : Option Event :=
  if ev.isTelemetry = true then none else some ev

/-- What a run shows apart from the system calls of the telemetry: its exit
status, its final variables (`t_total` and the error counter among them) and
all its other calls (exchanges, validation, accumulated times, printed rows). -/
def benchmarkView (r : Outcome) : Nat × State × List Event :=
  (r.status, r.final, r.trace.filterMap Event.benchmark)

/-- The additions to `t_total` and the `chrono` calls, in order: `false` with
the new `t_total` for an addition, `true` with the argument for a call. -/
def timingCalls (tr : List Event) : List (Bool × ℚ) :=
  tr.filterMap fun ev =>
    match ev with
    | Event.accumulate _ _ _ t => some (false, t)
    | Event.chrono_call t => some (true, t)
    | _ => none

/-- The values of `t_total` after each addition. -/
def accumulatedTotals (tr : List Event) : List ℚ :=
  tr.filterMap fun ev =>
    match ev with
    | Event.accumulate _ _ _ t => some t
    | _ => none

/-- The environment `e` with other outcomes of the telemetry system calls. -/
def withChrono (e : Env) (c : Nat → Int → Nat → ChronoEnv) : Env :=
  { e with chrono_env := c }

/-- The additions to `t_total` and the `chrono` calls. -/
def Event.isTiming : Event → Bool
  | Event.accumulate _ _ _ _ => true
  | Event.chrono_call _ => true
  | _ => false

/-- The buffer management calls of the size body. -/
def Event.isBufferCall : Event → Bool
  | Event.allocate_memory_pt2pt_size _ _ => true
  | Event.set_buffer_pt2pt _ _ => true
  | Event.free_memory _ => true
  | _ => false

/-- In a list of calls every addition to `t_total` is directly followed, among
the additions and `chrono` calls, by a `chrono` call with the new `t_total`,
and there is no other `chrono` call. -/
def chronoFollows (tr : List Event) : Prop :=
  timingCalls tr = (accumulatedTotals tr).flatMap (fun t => [(false, t), (true, t)])

/-- The source buffer is a managed buffer placed on the device: `options.src
== 'M' && options.MMsrc == 'D'`. -/
def Options.deviceSrc (o : Options) : Prop := o.src = 'M' ∧ o.MMsrc = 'D'

/-- The destination buffer is a managed buffer placed on the device:
`options.dst == 'M' && options.MMdst == 'D'`. -/
def Options.deviceDst (o : Options) : Prop := o.dst = 'M' ∧ o.MMdst = 'D'

instance (o : Options) : Decidable o.deviceSrc := by
  unfold Options.deviceSrc; exact inferInstance

instance (o : Options) : Decidable o.deviceDst := by
  unfold Options.deviceDst; exact inferInstance

/-- The configuration `demoOptions` with managed buffers placed on the device
on both sides. -/
def managedOptions : Options :=
  { demoOptions with src := 'M', dst := 'M', MMsrc := 'D', MMdst := 'D' }

/-- The indices at which line 330 stores into `omb_lat_arr`, in program
order. -/
def latWrites (tr : List Event) : List Int :=
  tr.filterMap fun ev =>
    match ev with
    | Event.lat_write idx _ => some idx
    | _ => none

/-- The lengths with which line 104 allocates `omb_lat_arr`, in program
order. -/
def latAllocations (tr : List Event) : List Nat :=
  tr.filterMap fun ev =>
    match ev with
    | Event.malloc_lat_arr n => some n
    | _ => none


/-- The configuration `twoPassOptions` with tail latency on, one warm-up
iteration, and three warm-up iterations for large messages. -/
def tailTwoPass : Options :=
  { twoPassOptions with omb_tail_lat := true, skip := 1, skip_large := 3 }

/-- The configuration `twoPassOptions` with tail latency on, one timed
iteration configured and two for large messages. -/
def tailLargeOptions : Options :=
  { twoPassOptions with omb_tail_lat := true, iterations := 1, iterations_large := 2 }


/-- The calls in which a rank waits for its peer: `MPI_Barrier`, the exchange
of a window (`n` receives of the peer's sends to be waited for) and
`MPI_Bcast`. -/
inductive Sync where
  | barrier
  | exchange (n : Nat)
  | bcast
  deriving DecidableEq

/-- The blocking call a call stands for, if any. An exchange is counted at its
`MPI_Waitall` on the receive requests, which each rank calls once per
exchange. -/
def Event.sync : Event → Option Sync
  | Event.barrier => some Sync.barrier
  | Event.waitall_recv n => some (Sync.exchange n)
  | Event.bcast _ => some Sync.bcast
  | _ => none

/-- The blocking calls of a list of calls, in program order. -/
def syncTrace (tr : List Event) : List Sync :=
  tr.filterMap Event.sync

/-- How the two ranks of a job get on. A blocking call returns on a rank only
when the other rank makes the same call: both are in `MPI_Barrier`, both are
in the exchange of a window of the same size, or both are in `MPI_Bcast`
(every collective is taken as synchronising, which MPI allows). The job
`completes` when the two ranks make the same blocking calls in the same
order. Otherwise it is `stuck`: after the calls `matched`, rank 0 waits in
`rank0` and rank 1 in `rank1` (`none` for a rank that has reached the end of
`main`), and neither call returns. -/
inductive Joint where
  | completes
  | stuck (matched : List Sync) (rank0 rank1 : Option Sync)
  deriving DecidableEq

/-- Running the blocking calls of rank 0 and of rank 1 against each other,
`matched` being the calls both have returned from. -/
def rendezvous : List Sync → List Sync → List Sync → Joint
  | [], [], _ => Joint.completes
  | a :: _, [], matched => Joint.stuck matched (some a) none
  | [], b :: _, matched => Joint.stuck matched none (some b)
  | a :: l0, b :: l1, matched =>
    if a = b then rendezvous l0 l1 (matched ++ [a])
    else Joint.stuck matched (some a) (some b)

/-- A job of two ranks: the run of each rank and how they get on. When the
job is stuck, the calls of a rank after the one it waits in are not made. -/
structure JointRun where
  rank0 : Outcome
  rank1 : Outcome
  joint : Joint

/-- The two ranks of one job run together: rank 0 on `e0`, rank 1 with its own
`validate_data` results `v1` and, in its `k`-th `MPI_Bcast`, the `k`-th value
rank 0 broadcasts; their blocking calls are run against each other by
`rendezvous`. As long as the blocking calls match, the `k`-th `MPI_Bcast` of
rank 1 is the one rank 0 is in with its `k`-th broadcast; from the first call
on which the ranks differ the job is stuck. -/
def jointRun (fuel : Nat) (o : Options) (e0 : Env) (v1 : Nat → Int → Nat → Nat → Nat) :
    Option JointRun :=
  match main fuel o e0 0 with
  | none => none
  | some r0 =>
    match main fuel o (responderEnv e0 v1 r0.trace) 1 with
    | none => none
    | some r1 =>
      some { rank0 := r0, rank1 := r1,
             joint := rendezvous (syncTrace r0.trace) (syncTrace r1.trace) [] }

/-- The configuration `validatingOptions` with one iteration for each size. -/
def singleValidating : Options :=
  { validatingOptions with iterations := 1 }


/-! ## Theorems -/

theorem postIrecv_eq (o : Options) (n peer tag : Nat) :
    postIrecv o n peer tag =
      (List.range o.window_size).map fun j => Event.irecv (slotBuffer o j) n peer tag j := by
  unfold postIrecv slotBuffer
  cases o.buf_num <;> simp

theorem postIsend_eq (o : Options) (n peer tag : Nat) :
    postIsend o n peer tag =
      (List.range o.window_size).map fun j => Event.isend (slotBuffer o j) n peer tag j := by
  unfold postIsend slotBuffer
  cases o.buf_num <;> simp

/-- C1: in one exchange with window size `w` rank 0 posts `w` receives from
peer 1 with tag 10 (request `j` on the buffer of slot `j`), then `w` sends to
peer 1 with tag 100, then waits for the sends and then for the receives;
rank 1 posts `w` receives from peer 0 with tag 100, then `w` sends to peer 0
with tag 10, then waits for the receives and then for the sends. Every send of
one rank has the tag, element count, buffer index and request slot of a
receive the other rank posts for it, the two tags differ, and slot `j` uses
buffer `j` in multiple-buffer mode and buffer 0 in single-buffer mode. -/
theorem exchange_protocol (o : Options) (n : Nat) :
    exchange o 0 n =
        ((List.range o.window_size).map fun j => Event.irecv (slotBuffer o j) n 1 10 j) ++
        ((List.range o.window_size).map fun j => Event.isend (slotBuffer o j) n 1 100 j) ++
        [Event.waitall_send o.window_size, Event.waitall_recv o.window_size] ∧
    exchange o 1 n =
        ((List.range o.window_size).map fun j => Event.irecv (slotBuffer o j) n 0 100 j) ++
        ((List.range o.window_size).map fun j => Event.isend (slotBuffer o j) n 0 10 j) ++
        [Event.waitall_recv o.window_size, Event.waitall_send o.window_size] ∧
    (∀ buf cnt peer tag req, Event.isend buf cnt peer tag req ∈ exchange o 0 n →
        peer = 1 ∧ tag = 100 ∧ cnt = n ∧ Event.irecv buf cnt 0 tag req ∈ exchange o 1 n) ∧
    (∀ buf cnt peer tag req, Event.isend buf cnt peer tag req ∈ exchange o 1 n →
        peer = 0 ∧ tag = 10 ∧ cnt = n ∧ Event.irecv buf cnt 1 tag req ∈ exchange o 0 n) ∧
    (10 : Nat) ≠ 100 ∧
    (∀ j, slotBuffer o j = if o.buf_num = BufNum.MULTIPLE then j else 0) := by
  refine ⟨?_, ?_, ?_, ?_, by decide, ?_⟩
  · simp [exchange, postIrecv_eq, postIsend_eq]
  · simp [exchange, postIrecv_eq, postIsend_eq]
  · intro buf cnt peer tag req h
    simp [exchange, postIrecv_eq, postIsend_eq] at h ⊢
    obtain ⟨j, hj, h1, h2, h3, h4, h5⟩ := h
    subst h1 h2 h3 h4 h5
    exact ⟨rfl, rfl, rfl, j, hj, rfl, rfl, rfl, rfl⟩
  · intro buf cnt peer tag req h
    simp [exchange, postIrecv_eq, postIsend_eq] at h ⊢
    obtain ⟨j, hj, h1, h2, h3, h4, h5⟩ := h
    subst h1 h2 h3 h4 h5
    exact ⟨rfl, rfl, rfl, j, hj, rfl, rfl, rfl, rfl⟩
  · intro j
    unfold slotBuffer
    cases o.buf_num <;> simp

/-! ### The two loop combinators -/

theorem forLoop_mem {σ : Type} (body : Nat → σ → σ × List Event) (P : Event → Prop)
    (h : ∀ k s ev, ev ∈ (body k s).2 → P ev) :
    ∀ n k s ev, ev ∈ (forLoop body n k s).2 → P ev := by
  intro n
  induction n with
  | zero => intro k s ev hev; simp [forLoop] at hev
  | succ n ih =>
    intro k s ev hev
    simp only [forLoop, List.mem_append] at hev
    rcases hev with hev | hev
    · exact h _ _ _ hev
    · exact ih _ _ _ hev

theorem forLoopBreak_mem {σ : Type} (body : Nat → σ → σ × List Event × Bool)
    (P : Event → Prop) (h : ∀ k s ev, ev ∈ (body k s).2.1 → P ev) :
    ∀ n k s ev, ev ∈ (forLoopBreak body n k s).2 → P ev := by
  intro n
  induction n with
  | zero => intro k s ev hev; simp [forLoopBreak] at hev
  | succ n ih =>
    intro k s ev hev
    simp only [forLoopBreak] at hev
    split at hev
    · exact h _ _ _ hev
    · simp only [List.mem_append] at hev
      rcases hev with hev | hev
      · exact h _ _ _ hev
      · exact ih _ _ _ hev

theorem filterMap_nil_of_forall {α : Type} (f : Event → Option α) (P : Event → Prop)
    (hf : ∀ ev, P ev → f ev = none) (l : List Event) (hl : ∀ ev ∈ l, P ev) :
    l.filterMap f = [] := by
  rw [List.filterMap_eq_nil_iff]
  intro ev hev
  exact hf ev (hl ev hev)

/-! ### The calls of the iteration loop -/

theorem exchange_inIteration (o : Options) (myid n : Nat) :
    ∀ ev ∈ exchange o myid n, ev.inIteration = true := by
  intro ev hev
  simp only [exchange, postIrecv, postIsend] at hev
  split at hev <;> simp at hev <;>
    (rcases hev with ⟨j, _, h⟩ | ⟨j, _, h⟩ | h | h) <;>
    first
    | (subst h; rfl)
    | (split at h <;> subst h <;> rfl)

theorem chrono_inIteration (c : ChronoEnv) (t : ℚ) :
    ∀ ev ∈ chrono c t, ev.inIteration = true := by
  intro ev hev
  simp only [chrono] at hev
  split at hev
  · simp at hev; rcases hev with h | h <;> subst h <;> rfl
  · split at hev
    · simp at hev; rcases hev with h | h | h <;> subst h <;> rfl
    · split at hev
      · simp at hev; rcases hev with h | h | h | h <;> subst h <;> rfl
      · simp at hev; rcases hev with h | h | h <;> subst h <;> rfl

theorem kPass_inIteration (o : Options) (e : Env) (myid p : Nat) (size : Int)
    (ne tr : Nat) (t_lo : ℚ) (i k : Nat) (t : ℚ) :
    ∀ ev ∈ (kPass o e myid p size ne tr t_lo i k t).2, ev.inIteration = true := by
  intro ev hev
  simp only [kPass] at hev
  split at hev
  · split at hev
    · simp only [List.mem_append, List.mem_cons, List.mem_singleton, List.not_mem_nil,
        or_false] at hev
      rcases hev with (((h | h) | h | h) | h) | h
      · subst h; rfl
      · exact exchange_inIteration _ _ _ _ h
      · subst h; rfl
      · subst h; rfl
      · exact chrono_inIteration _ _ _ h
      · split at h
        · simp at h; subst h; rfl
        · simp at h
    · exact exchange_inIteration _ _ _ _ hev
  · exact exchange_inIteration _ _ _ _ hev

theorem setValidation_inIteration (o : Options) (size : Int) (i : Nat) :
    ∀ ev ∈ setValidation o size i, ev.inIteration = true := by
  intro ev hev
  simp only [setValidation] at hev
  split at hev
  · split at hev
    · simp at hev
      rcases hev with ⟨l, _, h⟩ | h <;> subst h <;> rfl
    · simp at hev
      rcases hev with h | h <;> subst h <;> rfl
  · simp at hev

theorem validatePass_inIteration (o : Options) (e : Env) (p : Nat) (size : Int)
    (i errors : Nat) :
    ∀ ev ∈ (validatePass o e p size i errors).2, ev.inIteration = true := by
  intro ev hev
  simp only [validatePass] at hev
  split at hev
  · simp at hev; subst hev; rfl
  · refine forLoop_mem _ (fun ev => ev.inIteration = true) ?_ _ _ _ ev hev
    intro k s ev h
    simp at h; subst h; rfl

theorem iterBody_inIteration (o : Options) (e : Env) (myid p : Nat) (size : Int)
    (ne tr : Nat) (t_lo : ℚ) (i : Nat) (s : IterSt) :
    ∀ ev ∈ (iterBody o e myid p size ne tr t_lo i s).2.1, ev.inIteration = true := by
  intro ev hev
  simp only [iterBody] at hev
  split at hev
  · simp only [List.mem_append] at hev
    rcases hev with (h | h) | h
    · exact setValidation_inIteration _ _ _ _ h
    · exact forLoop_mem _ (fun ev => ev.inIteration = true)
        (fun k s ev h => kPass_inIteration _ _ _ _ _ _ _ _ _ _ _ ev h) _ _ _ ev h
    · exact validatePass_inIteration _ _ _ _ _ _ _ h
  · simp only [List.mem_append] at hev
    rcases hev with h | h
    · exact setValidation_inIteration _ _ _ _ h
    · exact forLoop_mem _ (fun ev => ev.inIteration = true)
        (fun k s ev h => kPass_inIteration _ _ _ _ _ _ _ _ _ _ _ ev h) _ _ _ ev h

theorem iterLoop_inIteration (o : Options) (e : Env) (myid p : Nat) (size : Int)
    (ne tr : Nat) (t_lo : ℚ) (errors : Nat) :
    ∀ ev ∈ (iterLoop o e myid p size ne tr t_lo errors).2, ev.inIteration = true := by
  intro ev hev
  exact forLoopBreak_mem _ (fun ev => ev.inIteration = true)
    (fun k s ev h => iterBody_inIteration _ _ _ _ _ _ _ _ _ _ ev h) _ _ _ ev hev

/-! ### The error counter when every `validate_data` result is 0 -/

theorem forLoop_fst_inv {σ : Type} (body : Nat → σ → σ × List Event) (Inv : σ → Prop)
    (h : ∀ k s, Inv s → Inv (body k s).1) :
    ∀ n k s, Inv s → Inv (forLoop body n k s).1 := by
  intro n
  induction n with
  | zero => intro k s hs; simpa [forLoop] using hs
  | succ n ih =>
    intro k s hs
    simp only [forLoop]
    exact ih _ _ (h _ _ hs)

theorem forLoopBreak_fst_inv {σ : Type} (body : Nat → σ → σ × List Event × Bool)
    (Inv : σ → Prop) (h : ∀ k s, Inv s → Inv (body k s).1) :
    ∀ n k s, Inv s → Inv (forLoopBreak body n k s).1 := by
  intro n
  induction n with
  | zero => intro k s hs; simpa [forLoopBreak] using hs
  | succ n ih =>
    intro k s hs
    simp only [forLoopBreak]
    split
    · exact h _ _ hs
    · exact ih _ _ (h _ _ hs)

theorem validatePass_zero (o : Options) (e : Env) (p : Nat) (size : Int) (i errors : Nat)
    (hv : ∀ j, e.validate_data p size i j = 0) :
    (validatePass o e p size i errors).1 = errors := by
  simp only [validatePass]
  split
  · simp [hv]
  · exact forLoop_fst_inv _ (fun x => x = errors) (fun k s hs => by simp [hv, hs]) _ _ _ rfl

theorem iterBody_errors_zero (o : Options) (e : Env) (myid p : Nat) (size : Int)
    (ne tr : Nat) (t_lo : ℚ) (i : Nat) (s : IterSt)
    (hv : ∀ i j, e.validate_data p size i j = 0) :
    (iterBody o e myid p size ne tr t_lo i s).1.errors = s.errors := by
  simp only [iterBody]
  split
  · exact validatePass_zero _ _ _ _ _ _ (hv i)
  · rfl

theorem iterLoop_errors_zero (o : Options) (e : Env) (myid p : Nat) (size : Int)
    (ne tr : Nat) (t_lo : ℚ) (hv : ∀ i j, e.validate_data p size i j = 0) :
    (iterLoop o e myid p size ne tr t_lo 0).1.errors = 0 := by
  refine forLoopBreak_fst_inv _ (fun (s : IterSt) => s.errors = 0) ?_ _ _ _ rfl
  intro k s hs
  rw [iterBody_errors_zero _ _ _ _ _ _ _ _ _ _ hv]
  exact hs

/-! ### The options across the size loop -/

@[simp] theorem largeSwitch_validate (e : Env) (size : Int) (o : Options) :
    (largeSwitch e size o).validate = o.validate := by
  unfold largeSwitch; split <;> rfl

@[simp] theorem largeSwitch_max (e : Env) (size : Int) (o : Options) :
    (largeSwitch e size o).max_message_size = o.max_message_size := by
  unfold largeSwitch; split <;> rfl

@[simp] theorem largeSwitch_min (e : Env) (size : Int) (o : Options) :
    (largeSwitch e size o).min_message_size = o.min_message_size := by
  unfold largeSwitch; split <;> rfl

@[simp] theorem largeSwitch_window (e : Env) (size : Int) (o : Options) :
    (largeSwitch e size o).window_size = o.window_size := by
  unfold largeSwitch; split <;> rfl

@[simp] theorem largeSwitch_buf_num (e : Env) (size : Int) (o : Options) :
    (largeSwitch e size o).buf_num = o.buf_num := by
  unfold largeSwitch; split <;> rfl

@[simp] theorem largeSwitch_ddt (e : Env) (size : Int) (o : Options) :
    (largeSwitch e size o).omb_enable_ddt = o.omb_enable_ddt := by
  unfold largeSwitch; split <;> rfl

@[simp] theorem largeSwitch_dtype_itr (e : Env) (size : Int) (o : Options) :
    (largeSwitch e size o).omb_dtype_itr = o.omb_dtype_itr := by
  unfold largeSwitch; split <;> rfl

@[simp] theorem sizeBody_size (e : Env) (myid p ne : Nat) (st : State) :
    (sizeBody e myid p ne st).1.size = st.size := rfl

@[simp] theorem sizeBody_options (e : Env) (myid p ne : Nat) (st : State) :
    (sizeBody e myid p ne st).1.options = largeSwitch e st.size st.options := rfl

@[simp] theorem sizeBody_errors (e : Env) (myid p ne : Nat) (st : State) :
    (sizeBody e myid p ne st).1.errors = sizeErrors e myid p ne st := rfl

theorem quiet_of_inIteration (ev : Event) (h : ev.inIteration = true) : ev.quiet = true := by
  cases ev <;> simp_all [Event.quiet, Event.inIteration]

theorem sizeAlloc_quiet (st : State) : ∀ ev ∈ sizeAlloc st, ev.quiet = true := by
  intro ev hev
  simp only [sizeAlloc] at hev
  split at hev
  · simp at hev
    rcases hev with ⟨j, _, h⟩ | ⟨j, _, h⟩ <;> subst h <;> rfl
  · simp at hev; subst hev; rfl

theorem sizeFree_quiet (st : State) : ∀ ev ∈ sizeFree st, ev.quiet = true := by
  intro ev hev
  simp only [sizeFree] at hev
  split at hev
  · simp at hev
    rcases hev with ⟨j, _, h⟩
    subst h; rfl
  · simp at hev

theorem sizeIter_quiet (e : Env) (myid p ne : Nat) (st : State) :
    ∀ ev ∈ (sizeIter e myid p ne st).2, ev.quiet = true :=
  fun ev hev => quiet_of_inIteration ev (iterLoop_inIteration _ _ _ _ _ _ _ _ _ ev hev)

/-- What an observation that ignores the quiet calls sees of one size: the
entry into the transfer body, the row and the broadcast. -/
theorem sizeBody_filterMap {α : Type} (f : Event → Option α)
    (hf : ∀ ev, ev.quiet = true → f ev = none) (e : Env) (myid p ne : Nat) (st : State) :
    (sizeBody e myid p ne st).2.1.filterMap f =
      [Event.omb_ddt_assign st.size ne].filterMap f ++
      (sizeRow e myid p ne st).filterMap f ++
      (if st.options.validate = true then [Event.bcast (sizeErrors e myid p ne st)]
        else []).filterMap f := by
  have h1 := filterMap_nil_of_forall f _ hf _ (sizeAlloc_quiet st)
  have h2 := filterMap_nil_of_forall f _ hf _ (sizeFree_quiet st)
  have h3 := filterMap_nil_of_forall f _ hf _ (sizeIter_quiet e myid p ne st)
  have h4 : [Event.barrier].filterMap f = [] :=
    filterMap_nil_of_forall f _ hf _ (by intro ev hev; simp at hev; subst hev; rfl)
  simp only [sizeBody, List.filterMap_append, h1, h2, h3, h4, List.append_nil]

/-! ### The size loop when no validation failure is recorded -/

theorem sizeErrors_noFailure (e : Env) (myid p ne : Nat) (st : State)
    (h0 : st.errors = 0) (hv : ∀ s i j, e.validate_data p s i j = 0)
    (hb : myid ≠ 0 → ∀ k, e.bcast_in k = 0) :
    sizeErrors e myid p ne st = 0 := by
  have herr : (sizeIter e myid p ne st).1.errors = 0 := by
    unfold sizeIter
    rw [h0]
    exact iterLoop_errors_zero _ _ _ _ _ _ _ _ (hv st.size)
  unfold sizeErrors
  split
  · split
    · exact herr
    · rename_i hid
      exact hb hid _
  · exact herr

theorem sizeBody_noFailure (e : Env) (myid p ne : Nat) (st : State)
    (h : NoFailure e myid p st) :
    (sizeBody e myid p ne st).2.2 = false ∧ NoFailure e myid p (sizeBody e myid p ne st).1 := by
  rcases h with h | ⟨h0, hv, hb⟩
  · exact ⟨by simp [sizeBody, h], Or.inl (by simp [h])⟩
  · have := sizeErrors_noFailure e myid p ne st h0 hv hb
    exact ⟨by simp [sizeBody, this], Or.inr ⟨by simp [this], hv, hb⟩⟩

theorem sizeBody_visitedSizes (e : Env) (myid p ne : Nat) (st : State) :
    visitedSizes (sizeBody e myid p ne st).2.1 = [] := by
  unfold visitedSizes
  rw [sizeBody_filterMap _ (by intro ev hev; cases ev <;> simp_all [Event.quiet, Event.inIteration])]
  unfold sizeRow
  split <;> split <;> simp

theorem sizeBody_elementCounts (e : Env) (myid p ne : Nat) (st : State) :
    elementCounts (sizeBody e myid p ne st).2.1 = [] := by
  unfold elementCounts
  rw [sizeBody_filterMap _ (by intro ev hev; cases ev <;> simp_all [Event.quiet, Event.inIteration])]
  unfold sizeRow
  split <;> split <;> simp

theorem sizeBody_transferSizes (e : Env) (myid p ne : Nat) (st : State) :
    transferSizes (sizeBody e myid p ne st).2.1 = [st.size] := by
  unfold transferSizes
  rw [sizeBody_filterMap _ (by intro ev hev; cases ev <;> simp_all [Event.quiet, Event.inIteration])]
  unfold sizeRow
  split <;> split <;> simp

/-! ### Unfolding the size loop -/

theorem sizeLoop_done (e : Env) (myid p fuel : Nat) (st : State)
    (h : ¬ st.size ≤ st.options.max_message_size) :
    sizeLoop e myid p (fuel + 1) st = some (st, []) := by
  simp [sizeLoop, h]

theorem sizeLoop_skip (e : Env) (myid p fuel : Nat) (st : State)
    (h : st.size ≤ st.options.max_message_size)
    (hz : numElements st.size (e.mpi_type_size p) = 0) :
    sizeLoop e myid p (fuel + 1) st =
      (sizeLoop e myid p fuel (nextSize st)).map fun r =>
        (r.1, Event.num_elements st.size 0 :: r.2) := by
  simp [sizeLoop, h, hz]

theorem sizeLoop_break (e : Env) (myid p fuel : Nat) (st : State)
    (h : st.size ≤ st.options.max_message_size)
    (hz : numElements st.size (e.mpi_type_size p) ≠ 0)
    (hb : (sizeBody e myid p (numElements st.size (e.mpi_type_size p)) st).2.2 = true) :
    sizeLoop e myid p (fuel + 1) st =
      some ((sizeBody e myid p (numElements st.size (e.mpi_type_size p)) st).1,
        Event.num_elements st.size (numElements st.size (e.mpi_type_size p)) ::
          (sizeBody e myid p (numElements st.size (e.mpi_type_size p)) st).2.1) := by
  simp [sizeLoop, h, hz, hb]

theorem sizeLoop_next (e : Env) (myid p fuel : Nat) (st : State)
    (h : st.size ≤ st.options.max_message_size)
    (hz : numElements st.size (e.mpi_type_size p) ≠ 0)
    (hb : (sizeBody e myid p (numElements st.size (e.mpi_type_size p)) st).2.2 = false) :
    sizeLoop e myid p (fuel + 1) st =
      (sizeLoop e myid p fuel
        (nextSize (sizeBody e myid p (numElements st.size (e.mpi_type_size p)) st).1)).map
        fun r => (r.1,
          Event.num_elements st.size (numElements st.size (e.mpi_type_size p)) ::
            ((sizeBody e myid p (numElements st.size (e.mpi_type_size p)) st).2.1 ++ r.2)) := by
  simp [sizeLoop, h, hz, hb]

@[simp] theorem nextSize_size (st : State) : (nextSize st).size = wrapInt (st.size * 2) := rfl

@[simp] theorem nextSize_options (st : State) : (nextSize st).options = st.options := rfl

@[simp] theorem nextSize_errors (st : State) : (nextSize st).errors = st.errors := rfl

@[simp] theorem nextSize_nbcast (st : State) : (nextSize st).nbcast = st.nbcast := rfl

@[simp] theorem enterSweep_size (st : State) :
    (enterSweep st).size = st.options.min_message_size := rfl

@[simp] theorem enterSweep_options (st : State) : (enterSweep st).options = st.options := rfl

@[simp] theorem enterSweep_errors (st : State) : (enterSweep st).errors = st.errors := rfl

@[simp] theorem enterSweep_nbcast (st : State) : (enterSweep st).nbcast = st.nbcast := rfl

theorem visitedSizes_append (l1 l2 : List Event) :
    visitedSizes (l1 ++ l2) = visitedSizes l1 ++ visitedSizes l2 := by
  simp [visitedSizes, List.filterMap_append]

theorem elementCounts_append (l1 l2 : List Event) :
    elementCounts (l1 ++ l2) = elementCounts l1 ++ elementCounts l2 := by
  simp [elementCounts, List.filterMap_append]

theorem transferSizes_append (l1 l2 : List Event) :
    transferSizes (l1 ++ l2) = transferSizes l1 ++ transferSizes l2 := by
  simp [transferSizes, List.filterMap_append]

@[simp] theorem visitedSizes_cons_num (s : Int) (n : Nat) (l : List Event) :
    visitedSizes (Event.num_elements s n :: l) = s :: visitedSizes l := rfl

@[simp] theorem elementCounts_cons_num (s : Int) (n : Nat) (l : List Event) :
    elementCounts (Event.num_elements s n :: l) = (s, n) :: elementCounts l := rfl

@[simp] theorem transferSizes_cons_num (s : Int) (n : Nat) (l : List Event) :
    transferSizes (Event.num_elements s n :: l) = transferSizes l := rfl

/-! ### The sizes the loop visits -/

theorem wrapInt_double (s m : Int) (h1 : 1 ≤ s) (h2 : s ≤ m) (h3 : 2 * m ≤ 2147483647) :
    wrapInt (s * 2) = s * 2 := by
  unfold wrapInt
  omega

theorem numElements_eq (s : Int) (w : Nat) (h1 : 0 ≤ s) (h2 : s ≤ 2147483647) :
    numElements s w = (s / (w : Int)).toNat := by
  unfold numElements
  rw [Int.tdiv_eq_ediv h1 (Int.ofNat_nonneg w)]
  have h3 : 0 ≤ s / (w : Int) := Int.ediv_nonneg h1 (Int.ofNat_nonneg w)
  have h4 : s / (w : Int) ≤ s := Int.ediv_le_self _ h1
  rw [Int.emod_eq_of_lt h3 (by omega)]

theorem NoFailure_nextSize (e : Env) (myid p : Nat) (st : State)
    (h : NoFailure e myid p st) : NoFailure e myid p (nextSize st) := h

theorem doubling_range (s : Int) (n : Nat) :
    (List.range (n + 1)).map (fun j => s * 2 ^ j) =
      s :: (List.range n).map (fun j => s * 2 * 2 ^ j) := by
  rw [List.range_succ_eq_map]
  simp [List.map_map, Function.comp_def, pow_succ, mul_assoc, mul_comm]

theorem doubling_iff (s m : Int) (n : Nat) (hle : s ≤ m)
    (hn : ∀ j, s * 2 * 2 ^ j ≤ m ↔ j < n) : ∀ j, s * 2 ^ j ≤ m ↔ j < n + 1 := by
  intro j
  cases j with
  | zero => simp [hle]
  | succ j =>
    have := hn j
    rw [pow_succ, mul_comm (2 ^ j) 2, ← mul_assoc]
    rw [this]; omega

theorem sizeLoop_doubling (e : Env) (myid p : Nat) :
    ∀ fuel k st, NoFailure e myid p st → 1 ≤ st.size →
      2 * st.options.max_message_size ≤ 2147483647 →
      (2 : Int) ^ k ≤ st.size → k ≤ 31 → 32 ≤ fuel + k →
      ∃ r n, sizeLoop e myid p fuel st = some r ∧
        visitedSizes r.2 = (List.range n).map (fun j => st.size * 2 ^ j) ∧
        (∀ j, st.size * 2 ^ j ≤ st.options.max_message_size ↔ j < n) ∧
        elementCounts r.2 =
          (visitedSizes r.2).map (fun s => (s, (s / (e.mpi_type_size p : Int)).toNat)) ∧
        transferSizes r.2 =
          (visitedSizes r.2).filter (fun s => decide (1 ≤ s / (e.mpi_type_size p : Int))) := by
  intro fuel
  induction fuel with
  | zero => intro k st _ _ _ _ hk hf; omega
  | succ fuel ih =>
    intro k st hno h1 hmax hpow hk hf
    by_cases hle : st.size ≤ st.options.max_message_size
    · have hk30 : k < 30 := by
        by_contra hcon
        have : (2 : Int) ^ 30 ≤ 2 ^ k := pow_le_pow_right₀ (by norm_num) (by omega)
        norm_num at this
        omega
      have hwrap := wrapInt_double st.size _ h1 hle hmax
      have hne := numElements_eq st.size (e.mpi_type_size p) (by omega) (by omega)
      have hpow2 : (2 : Int) ^ (k + 1) ≤ st.size * 2 := by rw [pow_succ]; omega
      by_cases hz : numElements st.size (e.mpi_type_size p) = 0
      · obtain ⟨r, n, hr, hvis, hall, hel, htr⟩ :=
          ih (k + 1) (nextSize st) (NoFailure_nextSize _ _ _ _ hno)
            (by simp [hwrap]; omega) hmax (by simpa [hwrap] using hpow2) (by omega) (by omega)
        simp only [nextSize_size, nextSize_options, hwrap] at hvis hall
        refine ⟨(r.1, Event.num_elements st.size 0 :: r.2), n + 1, ?_, ?_,
          doubling_iff _ _ _ hle hall, ?_, ?_⟩
        · rw [sizeLoop_skip _ _ _ _ _ hle hz, hr]; rfl
        · rw [doubling_range, ← hvis]; rfl
        · have hq : (st.size / (e.mpi_type_size p : Int)).toNat = 0 := by rw [← hne]; exact hz
          simp [hel, hq]
        · have hq : ¬ (1 ≤ st.size / (e.mpi_type_size p : Int)) := by
            rw [hne] at hz
            omega
          simp [htr, hq]
      · obtain ⟨hflag, hno2⟩ := sizeBody_noFailure e myid p
          (numElements st.size (e.mpi_type_size p)) st hno
        obtain ⟨r, n, hr, hvis, hall, hel, htr⟩ :=
          ih (k + 1)
            (nextSize (sizeBody e myid p (numElements st.size (e.mpi_type_size p)) st).1)
            (NoFailure_nextSize _ _ _ _ hno2)
            (by simp [hwrap]; omega) (by simpa using hmax) (by simpa [hwrap] using hpow2)
            (by omega) (by omega)
        simp only [nextSize_size, nextSize_options, sizeBody_size, sizeBody_options,
          largeSwitch_max, hwrap] at hvis hall
        refine ⟨(r.1, Event.num_elements st.size (numElements st.size (e.mpi_type_size p)) ::
          ((sizeBody e myid p (numElements st.size (e.mpi_type_size p)) st).2.1 ++ r.2)),
          n + 1, ?_, ?_, doubling_iff _ _ _ hle hall, ?_, ?_⟩
        · rw [sizeLoop_next _ _ _ _ _ hle hz hflag, hr]; rfl
        · rw [doubling_range, ← hvis]
          simp [visitedSizes_append, sizeBody_visitedSizes]
        · simp [visitedSizes_append, sizeBody_visitedSizes, elementCounts_append,
            sizeBody_elementCounts, hel, hne]
        · have hq : 1 ≤ st.size / (e.mpi_type_size p : Int) := by
            rw [hne] at hz
            omega
          simp [visitedSizes_append, sizeBody_visitedSizes, transferSizes_append,
            sizeBody_transferSizes, htr, hq]
    · refine ⟨(st, []), 0, sizeLoop_done _ _ _ _ _ hle, ?_, ?_, ?_, ?_⟩
      · simp [visitedSizes]
      · intro j
        have hj : (1 : Int) ≤ 2 ^ j := one_le_pow₀ (by norm_num)
        have : st.size ≤ st.size * 2 ^ j := by nlinarith
        constructor
        · intro h; omega
        · intro h; omega
      · simp [visitedSizes, elementCounts]
      · simp [visitedSizes, transferSizes]

/-- C2 (as stated, refuted): with validation on and a mismatch recorded at
size 1, the size loop with `min = 1`, `max = 4` and element width 1 is left by
the `break` of line 494 after size 1, so it does not visit `2 = min * 2^1`,
although `2 <= max`. -/
theorem size_loop_stops_on_failure :
    (sizeLoop corruptEnv 0 0 32
        (enterSweep (initState { demoOptions with validate := true }))).map
      (fun r => visitedSizes r.2) = some [1] ∧
    (1 : Int) ≤ demoOptions.min_message_size ∧
    2 * demoOptions.max_message_size ≤ 2147483647 ∧
    1 ≤ corruptEnv.mpi_type_size 0 ∧
    demoOptions.min_message_size * 2 ^ 1 ≤ demoOptions.max_message_size ∧
    demoOptions.min_message_size * 2 ^ 1 ∉ [(1 : Int)] := by
  decide

/-- C2 (amended): for `min >= 1`, `2 * max` representable as an `int` and
element width `w >= 1`, in a sweep in which no validation failure is recorded
the size loop terminates (any fuel of at least 32 suffices) and visits exactly
the values `min * 2^k` that are `<= max`, in increasing order, `max` included
when it is such a value; the element count computed for a visited size `s` is
`s / w`, and the transfer body is entered exactly for the visited sizes with
`s / w >= 1`, that is with `s >= w`. -/
theorem size_loop_visits_doubling (e : Env) (myid p fuel : Nat) (st : State)
    (hmin : 1 ≤ st.options.min_message_size)
    (hmax : 2 * st.options.max_message_size ≤ 2147483647)
    (hw : 1 ≤ e.mpi_type_size p)
    (hno : NoFailure e myid p st)
    (hfuel : 32 ≤ fuel) :
    ∃ r n, sizeLoop e myid p fuel (enterSweep st) = some r ∧
      visitedSizes r.2 =
        (List.range n).map (fun k => st.options.min_message_size * 2 ^ k) ∧
      (∀ k, st.options.min_message_size * 2 ^ k ≤ st.options.max_message_size ↔ k < n) ∧
      elementCounts r.2 =
        (visitedSizes r.2).map (fun s => (s, (s / (e.mpi_type_size p : Int)).toNat)) ∧
      transferSizes r.2 =
        (visitedSizes r.2).filter (fun s => decide (1 ≤ s / (e.mpi_type_size p : Int))) ∧
      transferSizes r.2 =
        (visitedSizes r.2).filter (fun s => decide ((e.mpi_type_size p : Int) ≤ s)) := by
  obtain ⟨r, n, h1, h2, h3, h4, h5⟩ := sizeLoop_doubling e myid p fuel 0 (enterSweep st) hno
    (by simpa using hmin) (by simpa using hmax) (by simpa using hmin) (by omega) (by omega)
  refine ⟨r, n, h1, by simpa using h2, by simpa using h3, h4, h5, ?_⟩
  rw [h5]
  apply List.filter_congr
  intro s _
  have hpos : (0 : Int) < (e.mpi_type_size p : Int) := by omega
  simp only [decide_eq_decide]
  rw [Int.le_ediv_iff_mul_le hpos, one_mul]

/-- Witness for C2: `min = 1`, `max = 4`, element width 1, no validation: the
loop visits and runs the sizes 1, 2 and 4. -/
theorem size_loop_visits_doubling_witness :
    (sizeLoop demoEnv 0 0 32 (enterSweep (initState demoOptions))).map
        (fun r => (visitedSizes r.2, transferSizes r.2)) = some ([1, 2, 4], [1, 2, 4]) ∧
    ∃ r n, sizeLoop demoEnv 0 0 32 (enterSweep (initState demoOptions)) = some r ∧
      visitedSizes r.2 =
        (List.range n).map (fun k => (initState demoOptions).options.min_message_size * 2 ^ k) ∧
      (∀ k, (initState demoOptions).options.min_message_size * 2 ^ k ≤
        (initState demoOptions).options.max_message_size ↔ k < n) ∧
      elementCounts r.2 =
        (visitedSizes r.2).map (fun s => (s, (s / (demoEnv.mpi_type_size 0 : Int)).toNat)) ∧
      transferSizes r.2 =
        (visitedSizes r.2).filter (fun s => decide (1 ≤ s / (demoEnv.mpi_type_size 0 : Int))) ∧
      transferSizes r.2 =
        (visitedSizes r.2).filter (fun s => decide ((demoEnv.mpi_type_size 0 : Int) ≤ s)) :=
  ⟨by decide,
    size_loop_visits_doubling demoEnv 0 0 32 (initState demoOptions) (by decide) (by decide)
      (by decide) (Or.inl rfl) (by decide)⟩

/-! ### A loop that is never left early -/

theorem forLoopBreak_eq_forLoop {σ : Type} (body : Nat → σ → σ × List Event × Bool)
    (Inv : σ → Prop) (h : ∀ k s, Inv s → Inv (body k s).1 ∧ (body k s).2.2 = false) :
    ∀ n k s, Inv s →
      forLoopBreak body n k s = forLoop (fun k s => ((body k s).1, (body k s).2.1)) n k s := by
  intro n
  induction n with
  | zero => intro k s _; rfl
  | succ n ih =>
    intro k s hs
    obtain ⟨h1, h2⟩ := h k s hs
    simp only [forLoopBreak, forLoop, h2, Bool.false_eq_true, if_false]
    rw [ih _ _ h1]

theorem forLoop_filterMap {σ α : Type} (body : Nat → σ → σ × List Event)
    (f : Event → Option α) (g : Nat → List α)
    (h : ∀ k s, (body k s).2.filterMap f = g k) :
    ∀ n k s, (forLoop body n k s).2.filterMap f =
      (List.range n).flatMap (fun j => g (k + j)) := by
  intro n
  induction n with
  | zero => intro k s; rfl
  | succ n ih =>
    intro k s
    simp only [forLoop, List.filterMap_append, h, ih]
    rw [List.range_succ_eq_map, List.flatMap_cons, List.flatMap_map]
    simp [Nat.add_assoc, Nat.add_comm 1]

theorem flatMap_range_last {α : Type} (n : Nat) (a : List α) :
    (List.range (n + 1)).flatMap (fun j => if j = n then a else []) = a := by
  rw [List.range_succ, List.flatMap_append]
  have : (List.range n).flatMap (fun j => if j = n then a else []) = [] := by
    rw [List.flatMap_eq_nil_iff]
    intro j hj
    have := List.mem_range.mp hj
    simp; omega
  simp [this]

theorem flatMap_range_from {α : Type} (a b : Nat) (h : Nat → α) :
    (List.range (b + a)).flatMap (fun i => if a ≤ i then [h i] else []) =
      (List.range b).map (fun t => h (a + t)) := by
  rw [Nat.add_comm, List.range_add, List.flatMap_append]
  have h1 : (List.range a).flatMap (fun i => if a ≤ i then [h i] else []) = [] := by
    rw [List.flatMap_eq_nil_iff]
    intro j hj
    have := List.mem_range.mp hj
    simp; omega
  rw [h1, List.flatMap_map]
  simp only [Nat.le_add_right, if_true, List.nil_append]
  induction (List.range b) with
  | nil => rfl
  | cons x xs ih => simp [List.flatMap_cons, ih]

/-! ### The timed passes of the iteration loop -/

theorem exchange_isTransfer (o : Options) (myid n : Nat) :
    ∀ ev ∈ exchange o myid n, ev.isTransfer = true := by
  intro ev hev
  simp only [exchange, postIrecv, postIsend] at hev
  split at hev <;> simp at hev <;>
    (rcases hev with ⟨j, _, h⟩ | ⟨j, _, h⟩ | h | h) <;>
    first
    | (subst h; rfl)
    | (split at h <;> subst h <;> rfl)

theorem chrono_isTelemetry (c : ChronoEnv) (t : ℚ) :
    ∀ ev ∈ chrono c t, ev.isTelemetry = true := by
  intro ev hev
  simp only [chrono] at hev
  split at hev
  · simp at hev; rcases hev with h | h <;> subst h <;> rfl
  · split at hev
    · simp at hev; rcases hev with h | h | h <;> subst h <;> rfl
    · split at hev
      · simp at hev; rcases hev with h | h | h | h <;> subst h <;> rfl
      · simp at hev; rcases hev with h | h | h <;> subst h <;> rfl

theorem setValidation_isValidation (o : Options) (size : Int) (i : Nat) :
    ∀ ev ∈ setValidation o size i, ev.isValidation = true := by
  intro ev hev
  simp only [setValidation] at hev
  split at hev
  · split at hev
    · simp at hev
      rcases hev with ⟨l, _, h⟩ | h <;> subst h <;> rfl
    · simp at hev
      rcases hev with h | h <;> subst h <;> rfl
  · simp at hev

theorem validatePass_isValidation (o : Options) (e : Env) (p : Nat) (size : Int)
    (i errors : Nat) :
    ∀ ev ∈ (validatePass o e p size i errors).2, ev.isValidation = true := by
  intro ev hev
  simp only [validatePass] at hev
  split at hev
  · simp at hev; subst hev; rfl
  · refine forLoop_mem _ (fun ev => ev.isValidation = true) ?_ _ _ _ ev hev
    intro k s ev h
    simp at h; subst h; rfl

theorem accumulations_append (l1 l2 : List Event) :
    accumulations (l1 ++ l2) = accumulations l1 ++ accumulations l2 := by
  simp [accumulations, List.filterMap_append]

theorem accumulations_nil_of_isTransfer (l : List Event)
    (h : ∀ ev ∈ l, ev.isTransfer = true) : accumulations l = [] :=
  filterMap_nil_of_forall _ _ (by intro ev hev; cases ev <;> simp_all [Event.isTransfer]) l h

theorem accumulations_nil_of_isTelemetry (l : List Event)
    (h : ∀ ev ∈ l, ev.isTelemetry = true) : accumulations l = [] :=
  filterMap_nil_of_forall _ _ (by intro ev hev; cases ev <;> simp_all [Event.isTelemetry]) l h

theorem accumulations_nil_of_isValidation (l : List Event)
    (h : ∀ ev ∈ l, ev.isValidation = true) : accumulations l = [] :=
  filterMap_nil_of_forall _ _ (by intro ev hev; cases ev <;> simp_all [Event.isValidation]) l h

theorem kPass_accumulations (o : Options) (e : Env) (myid p : Nat) (size : Int)
    (ne tr : Nat) (t_lo : ℚ) (i k : Nat) (t : ℚ) :
    accumulations (kPass o e myid p size ne tr t_lo i k t).2 =
      if k = o.warmup_validation then
        (if myid = 0 ∧ o.skip ≤ i then [(i, o.warmup_validation)] else [])
      else [] := by
  have hx := accumulations_nil_of_isTransfer _ (exchange_isTransfer o myid ne)
  simp only [kPass]
  split
  · rename_i h1
    split
    · rename_i h2
      simp only [accumulations_append, hx,
        accumulations_nil_of_isTelemetry _ (chrono_isTelemetry _ _)]
      split <;> simp [accumulations, h1, h2]
    · rename_i h2
      simp only [hx]
      split
      · rename_i h3
        simp only [h3, and_true, true_and, h1] at h2 ⊢
        simp [h2]
      · rfl
  · rename_i h1
    simp [hx, h1]

theorem iterBody_accumulations (o : Options) (e : Env) (myid p : Nat) (size : Int)
    (ne tr : Nat) (t_lo : ℚ) (i : Nat) (s : IterSt) :
    accumulations (iterBody o e myid p size ne tr t_lo i s).2.1 =
      if myid = 0 ∧ o.skip ≤ i then [(i, o.warmup_validation)] else [] := by
  have hset := accumulations_nil_of_isValidation _ (setValidation_isValidation o size i)
  have hval := accumulations_nil_of_isValidation _
    (validatePass_isValidation o e p size i s.errors)
  have hk : accumulations (forLoop (kPass o e myid p size ne tr t_lo i)
      (o.warmup_validation + 1) 0 s.t_total).2 =
      if myid = 0 ∧ o.skip ≤ i then [(i, o.warmup_validation)] else [] := by
    unfold accumulations
    rw [forLoop_filterMap _ _
      (fun k => if k = o.warmup_validation then
        (if myid = 0 ∧ o.skip ≤ i then [(i, o.warmup_validation)] else []) else [])
      (fun k s => kPass_accumulations o e myid p size ne tr t_lo i k s)]
    simp only [Nat.zero_add]
    exact flatMap_range_last _ _
  simp only [iterBody]
  split
  · simp only [accumulations_append, hset, hval, hk]; simp
  · simp only [accumulations_append, hset, hk]; simp

theorem iterBody_noBreak (o : Options) (e : Env) (myid p : Nat) (size : Int)
    (ne tr : Nat) (t_lo : ℚ) (hv : o.validate = false ∨ ∀ i j, e.validate_data p size i j = 0)
    (i : Nat) (s : IterSt) (hs : o.validate = false ∨ s.errors = 0) :
    (o.validate = false ∨ (iterBody o e myid p size ne tr t_lo i s).1.errors = 0) ∧
      (iterBody o e myid p size ne tr t_lo i s).2.2 = false := by
  rcases hv with hv | hv
  · refine ⟨Or.inl hv, ?_⟩
    simp [iterBody, hv]
  · have h1 := iterBody_errors_zero o e myid p size ne tr t_lo i s hv
    rcases hs with hs | hs
    · refine ⟨Or.inl hs, ?_⟩
      simp [iterBody, hs]
    · refine ⟨Or.inr (by rw [h1]; exact hs), ?_⟩
      have h2 := validatePass_zero o e p size i s.errors (hv i)
      simp only [iterBody]
      split
      · rw [h2]; simp [hs]
      · rfl

/-- C3: for every `skip` and every iteration count `n = options.iterations`
in force for a size, when no validation error occurs (validation is off, or
the error counter is 0 and every `validate_data` result is 0) rank 0 executes
`t_total += ...` exactly `n` times in the iteration loop of that size: once for
each outer iteration `i` with `skip <= i < skip + n`, in the pass
`k = warmup_validation` (the last one of the inner loop) and in no other pass,
and never for `i < skip`; the number of additions is `n` whatever `skip` is. -/
theorem timed_accumulations (o : Options) (e : Env) (p : Nat) (size : Int)
    (ne tr : Nat) (t_lo : ℚ) (errors : Nat)
    (hno : o.validate = false ∨ (errors = 0 ∧ ∀ i j, e.validate_data p size i j = 0)) :
    accumulations (iterLoop o e 0 p size ne tr t_lo errors).2 =
        (List.range o.iterations).map (fun t => (o.skip + t, o.warmup_validation)) ∧
      (accumulations (iterLoop o e 0 p size ne tr t_lo errors).2).length = o.iterations ∧
      (∀ i k, (i, k) ∈ accumulations (iterLoop o e 0 p size ne tr t_lo errors).2 ↔
        (o.skip ≤ i ∧ i < o.skip + o.iterations ∧ k = o.warmup_validation)) := by
  have hmain : accumulations (iterLoop o e 0 p size ne tr t_lo errors).2 =
      (List.range o.iterations).map (fun t => (o.skip + t, o.warmup_validation)) := by
    unfold iterLoop
    rw [forLoopBreak_eq_forLoop _ (fun (s : IterSt) => o.validate = false ∨ s.errors = 0)
      (fun k s hs => iterBody_noBreak o e 0 p size ne tr t_lo
        (hno.elim Or.inl (fun h => Or.inr h.2)) k s hs) _ _ _
      (hno.elim Or.inl (fun h => Or.inr h.1))]
    unfold accumulations
    rw [forLoop_filterMap _ _
      (fun i => if o.skip ≤ i then [(i, o.warmup_validation)] else [])
      (fun k s => by
        have := iterBody_accumulations o e 0 p size ne tr t_lo k s
        simpa [accumulations] using this)]
    simp only [Nat.zero_add]
    exact flatMap_range_from o.skip o.iterations (fun i => (i, o.warmup_validation))
  refine ⟨hmain, by rw [hmain]; simp, ?_⟩
  intro i k
  rw [hmain]
  simp only [List.mem_map, List.mem_range, Prod.mk.injEq]
  constructor
  · rintro ⟨t, ht, h1, h2⟩
    omega
  · rintro ⟨h1, h2, h3⟩
    exact ⟨i - o.skip, by omega, by omega, h3.symm⟩

/-- Witness for C3: three timed iterations after two warm-up iterations, with
one warm-up pass of the inner loop. -/
theorem timed_accumulations_witness :
    accumulations (iterLoop timedOptions demoEnv 0 0 1 1 1 0 0).2 =
      [(2, 1), (3, 1), (4, 1)] ∧
    (accumulations (iterLoop timedOptions demoEnv 0 0 1 1 1 0 0).2).length = 3 :=
  ⟨(timed_accumulations timedOptions demoEnv 0 1 1 1 0 0 (Or.inl rfl)).1,
    (timed_accumulations timedOptions demoEnv 0 1 1 1 0 0 (Or.inl rfl)).2.1⟩

/-! ### The options during the sweep -/

theorem largeSwitch_eq (e : Env) (size : Int) (o : Options) :
    largeSwitch e size o = if size > e.LARGE_MESSAGE_SIZE then o.large else o := rfl

theorem Options.large_large (o : Options) : o.large.large = o.large := rfl

theorem derivedFrom_refl (o : Options) : o.derivedFrom o := Or.inl rfl

theorem derivedFrom_largeSwitch (e : Env) (size : Int) (o1 o : Options)
    (h : o1.derivedFrom o) : (largeSwitch e size o1).derivedFrom o := by
  rw [largeSwitch_eq]
  split
  · rcases h with h | h
    · subst h; exact Or.inr rfl
    · subst h; exact Or.inr rfl
  · exact h

/-! ### Properties of every call of a run -/

theorem sizeBody_mem (e : Env) (myid p ne : Nat) (st : State) (ev : Event)
    (h : ev ∈ (sizeBody e myid p ne st).2.1) :
    ev = Event.omb_ddt_assign st.size ne ∨ ev ∈ sizeAlloc st ∨ ev = Event.barrier ∨
      ev ∈ (sizeIter e myid p ne st).2 ∨ ev ∈ sizeRow e myid p ne st ∨ ev ∈ sizeFree st ∨
      (st.options.validate = true ∧ ev = Event.bcast (sizeErrors e myid p ne st)) := by
  simp only [sizeBody, List.mem_append, List.mem_singleton] at h
  by_cases hv : st.options.validate = true
  · simp only [hv, if_true, List.mem_singleton] at h
    simp only [hv, true_and]
    tauto
  · simp only [hv, if_false, List.not_mem_nil, or_false] at h
    simp only [hv, false_and, or_false]
    tauto

theorem sizeLoop_events (e : Env) (myid p : Nat) (o : Options) (Q : Event → Prop)
    (hbody : ∀ st, st.options.derivedFrom o →
      ∀ ev ∈ (sizeBody e myid p (numElements st.size (e.mpi_type_size p)) st).2.1, Q ev)
    (hnum : ∀ s n, Q (Event.num_elements s n)) :
    ∀ fuel st r, st.options.derivedFrom o → sizeLoop e myid p fuel st = some r →
      r.1.options.derivedFrom o ∧ ∀ ev ∈ r.2, Q ev := by
  intro fuel
  induction fuel with
  | zero => intro st r _ h; simp [sizeLoop] at h
  | succ fuel ih =>
    intro st r hst h
    by_cases hle : st.size ≤ st.options.max_message_size
    · by_cases hz : numElements st.size (e.mpi_type_size p) = 0
      · rw [sizeLoop_skip _ _ _ _ _ hle hz] at h
        cases hr : sizeLoop e myid p fuel (nextSize st) with
        | none => simp [hr] at h
        | some r1 =>
          simp only [hr, Option.map_some', Option.some.injEq] at h
          subst h
          obtain ⟨h1, h2⟩ := ih (nextSize st) r1 hst hr
          refine ⟨h1, ?_⟩
          intro ev hev
          simp only [List.mem_cons] at hev
          rcases hev with hev | hev
          · subst hev; exact hnum _ _
          · exact h2 ev hev
      · have hb := hbody st hst
        have hd : (sizeBody e myid p (numElements st.size (e.mpi_type_size p)) st).1.options.derivedFrom o := by
          rw [sizeBody_options]; exact derivedFrom_largeSwitch _ _ _ _ hst
        by_cases hf : (sizeBody e myid p (numElements st.size (e.mpi_type_size p)) st).2.2 = true
        · rw [sizeLoop_break _ _ _ _ _ hle hz hf] at h
          simp only [Option.some.injEq] at h
          subst h
          refine ⟨hd, ?_⟩
          intro ev hev
          simp only [List.mem_cons] at hev
          rcases hev with hev | hev
          · subst hev; exact hnum _ _
          · exact hb ev hev
        · have hf2 : (sizeBody e myid p (numElements st.size (e.mpi_type_size p)) st).2.2 = false := by
            simpa using hf
          rw [sizeLoop_next _ _ _ _ _ hle hz hf2] at h
          cases hr : sizeLoop e myid p fuel
              (nextSize (sizeBody e myid p (numElements st.size (e.mpi_type_size p)) st).1) with
          | none => simp [hr] at h
          | some r1 =>
            simp only [hr, Option.map_some', Option.some.injEq] at h
            subst h
            obtain ⟨h1, h2⟩ := ih _ r1 (by simpa using hd) hr
            refine ⟨h1, ?_⟩
            intro ev hev
            simp only [List.mem_cons, List.mem_append] at hev
            rcases hev with hev | hev | hev
            · subst hev; exact hnum _ _
            · exact hb ev hev
            · exact h2 ev hev
    · rw [sizeLoop_done _ _ _ _ _ hle] at h
      simp only [Option.some.injEq] at h
      subst h
      exact ⟨hst, by simp⟩

theorem passLoop_events (e : Env) (myid fuel : Nat) (o : Options) (Q : Event → Prop)
    (hbody : ∀ p st, st.options.derivedFrom o →
      ∀ ev ∈ (sizeBody e myid p (numElements st.size (e.mpi_type_size p)) st).2.1, Q ev)
    (hnum : ∀ s n, Q (Event.num_elements s n))
    (hsweep : ∀ p s, Q (Event.sweep_left p s))
    (houter : ∀ ev, ev.isOuter = true → Q ev) :
    ∀ n p st r, st.options.derivedFrom o → passLoop e myid fuel n p st = some r →
      r.1.options.derivedFrom o ∧ ∀ ev ∈ r.2, Q ev := by
  intro n
  induction n with
  | zero =>
    intro p st r hst h
    simp only [passLoop, Option.some.injEq] at h
    subst h
    exact ⟨hst, by simp⟩
  | succ n ih =>
    intro p st r hst h
    simp only [passLoop] at h
    cases ha : sizeLoop e myid p fuel (enterSweep st) with
    | none => simp [ha] at h
    | some a =>
      simp only [ha] at h
      cases hb : passLoop e myid fuel n (p + 1) a.1 with
      | none => simp [hb] at h
      | some b =>
        simp only [hb, Option.some.injEq] at h
        subst h
        obtain ⟨h1, h2⟩ := sizeLoop_events e myid p o Q (hbody p) hnum fuel _ a
          (by simpa using hst) ha
        obtain ⟨h3, h4⟩ := ih (p + 1) a.1 b h1 hb
        refine ⟨h3, ?_⟩
        intro ev hev
        simp only [List.mem_append, List.mem_singleton] at hev
        rcases hev with (((hev | hev) | hev) | hev) | hev
        · split at hev
          · simp at hev; subst hev; exact houter _ rfl
          · simp at hev
        · subst hev; exact houter _ rfl
        · exact h2 ev hev
        · subst hev; exact hsweep _ _
        · exact h4 ev hev

theorem earlyMallocs_isOuter (o : Options) : ∀ ev ∈ earlyMallocs o, ev.isOuter = true := by
  intro ev hev
  simp only [earlyMallocs, List.mem_append] at hev
  rcases hev with hev | hev
  · split at hev <;> simp at hev <;> rcases hev with h | h <;> subst h <;> rfl
  · split at hev
    · simp at hev; subst hev; rfl
    · simp at hev

theorem cudaBufNum_eq (e : Env) (o : Options) :
    cudaBufNum e o = o ∨ cudaBufNum e o = { o with buf_num := BufNum.MULTIPLE } := by
  unfold cudaBufNum
  split
  · exact Or.inr rfl
  · exact Or.inl rfl

theorem mainSweep_events (fuel : Nat) (o : Options) (e : Env) (myid : Nat)
    (pre : List Event) (Q : Event → Prop)
    (hbody : ∀ p st, st.options.derivedFrom (cudaBufNum e o) →
      ∀ ev ∈ (sizeBody e myid p (numElements st.size (e.mpi_type_size p)) st).2.1, Q ev)
    (hnum : ∀ s n, Q (Event.num_elements s n))
    (hsweep : ∀ p s, Q (Event.sweep_left p s))
    (houter : ∀ ev, ev.isOuter = true → Q ev)
    (hpre : ∀ ev ∈ pre, Q ev) (r : Outcome)
    (h : mainSweep fuel o e myid pre = some r) : ∀ ev ∈ r.trace, Q ev := by
  simp only [mainSweep] at h
  cases hp : passLoop e myid fuel (cudaBufNum e o).omb_dtype_itr 0
      (initState (cudaBufNum e o)) with
  | none => simp [hp] at h
  | some pr =>
    simp only [hp] at h
    obtain ⟨_, h2⟩ := passLoop_events e myid fuel (cudaBufNum e o) Q hbody hnum hsweep houter
      _ _ _ pr (derivedFrom_refl _) hp
    have hcommon : ∀ ev ∈ pre ++
        (if (cudaBufNum e o).buf_num = BufNum.SINGLE then [Event.allocate_memory_pt2pt]
          else []) ++ [Event.print_preamble] ++ pr.2 ++
        (if pr.1.options.buf_num = BufNum.SINGLE then [Event.free_memory 0] else []) ++
        [Event.mpi_finalize], Q ev := by
      intro ev hev
      simp only [List.mem_append, List.mem_singleton] at hev
      rcases hev with ((((hev | hev) | hev) | hev) | hev) | hev
      · exact hpre ev hev
      · split at hev
        · simp at hev; subst hev; exact houter _ rfl
        · simp at hev
      · subst hev; exact houter _ rfl
      · exact h2 ev hev
      · split at hev
        · simp at hev; subst hev; exact houter _ rfl
        · simp at hev
      · subst hev; exact houter _ rfl
    split at h
    · simp only [Option.some.injEq] at h
      subst h
      intro ev hev
      simp only [List.mem_append, List.mem_cons, List.mem_singleton, List.not_mem_nil,
        or_false] at hev
      rcases hev with hev | hev | hev
      · exact hcommon ev (by simpa only [List.mem_append, List.mem_singleton] using hev)
      · subst hev; exact houter _ rfl
      · subst hev; exact houter _ rfl
    · split at h
      · simp only [Option.some.injEq] at h
        subst h
        intro ev hev
        simp only [List.mem_append, List.mem_cons, List.mem_singleton, List.not_mem_nil,
          or_false] at hev
        rcases hev with hev | hev | hev
        · exact hcommon ev (by simpa only [List.mem_append, List.mem_singleton] using hev)
        · subst hev; exact houter _ rfl
        · subst hev; exact houter _ rfl
      · simp only [Option.some.injEq] at h
        subst h
        intro ev hev
        simp only [List.mem_append, List.mem_cons, List.mem_singleton, List.not_mem_nil,
          or_false] at hev
        rcases hev with hev | hev
        · exact hcommon ev (by simpa only [List.mem_append, List.mem_singleton] using hev)
        · subst hev; exact houter _ rfl

theorem main_cases (fuel : Nat) (o : Options) (e : Env) (myid : Nat) (r : Outcome)
    (h : main fuel o e myid = some r) :
    (∀ ev ∈ r.trace, ev.isOuter = true) ∨
      (e.po_ret = PoRet.PO_OKAY ∧ e.numprocs = 2 ∧
        mainSweep fuel o e myid (earlyMallocs o ++ [Event.mpi_init]) = some r) := by
  have hm := earlyMallocs_isOuter o
  unfold main at h
  split at h
  · left
    simp only [Option.some.injEq] at h; subst h
    intro ev hev; simp at hev
    rcases hev with h | h <;> subst h <;> rfl
  · split at h
    · left
      simp only [Option.some.injEq] at h; subst h
      intro ev hev; simp only [List.mem_append, List.mem_cons, List.mem_singleton,
        List.not_mem_nil, or_false] at hev
      rcases hev with h | h | h
      · exact hm ev h
      · subst h; rfl
      · subst h; rfl
    · split at h
      · left
        simp only [Option.some.injEq] at h; subst h
        intro ev hev; simp only [List.mem_append, List.mem_cons, List.mem_singleton,
          List.not_mem_nil, or_false] at hev
        rcases hev with h | h | h | h
        · exact hm ev h
        · subst h; rfl
        · subst h; rfl
        · subst h; rfl
      · simp only at h
        split at h
        · left
          simp only [Option.some.injEq] at h; subst h
          intro ev hev; simp only [List.mem_append, List.mem_cons, List.mem_singleton,
            List.not_mem_nil, or_false] at hev
          rcases hev with ((h | h) | h) | h | h
          · exact hm ev h
          · subst h; rfl
          · split at h
            · simp at h; subst h; rfl
            · simp at h
          · subst h; rfl
          · subst h; rfl
        · left
          simp only [Option.some.injEq] at h; subst h
          intro ev hev; simp only [List.mem_append, List.mem_cons, List.mem_singleton,
            List.not_mem_nil, or_false] at hev
          rcases hev with ((h | h) | h) | h | h
          · exact hm ev h
          · subst h; rfl
          · split at h
            · simp at h; subst h; rfl
            · simp at h
          · subst h; rfl
          · subst h; rfl
        · rename_i hpo
          split at h
          · left
            simp only [Option.some.injEq] at h; subst h
            intro ev hev; simp only [List.mem_append, List.mem_cons, List.mem_singleton,
              List.not_mem_nil, or_false] at hev
            rcases hev with ((h | h) | h) | h | h
            · exact hm ev h
            · subst h; rfl
            · split at h
              · simp at h; subst h; rfl
              · simp at h
            · subst h; rfl
            · subst h; rfl
          · rename_i hn
            right
            exact ⟨hpo, by simpa using hn, h⟩
        · left
          simp only [Option.some.injEq] at h; subst h
          intro ev hev; simp only [List.mem_append, List.mem_cons, List.mem_singleton,
            List.not_mem_nil, or_false] at hev
          rcases hev with ((h | h) | h) | h | h
          · exact hm ev h
          · subst h; rfl
          · split at h
            · simp at h; subst h; rfl
            · simp at h
          · subst h; rfl
          · subst h; rfl

theorem main_events (fuel : Nat) (o : Options) (e : Env) (myid : Nat) (Q : Event → Prop)
    (hbody : ∀ p st, st.options.derivedFrom (cudaBufNum e o) →
      ∀ ev ∈ (sizeBody e myid p (numElements st.size (e.mpi_type_size p)) st).2.1, Q ev)
    (hnum : ∀ s n, Q (Event.num_elements s n))
    (hsweep : ∀ p s, Q (Event.sweep_left p s))
    (houter : ∀ ev, ev.isOuter = true → Q ev) (r : Outcome)
    (h : main fuel o e myid = some r) : ∀ ev ∈ r.trace, Q ev := by
  rcases main_cases fuel o e myid r h with h1 | ⟨_, _, h1⟩
  · exact fun ev hev => houter ev (h1 ev hev)
  · refine mainSweep_events fuel o e myid _ Q hbody hnum hsweep houter ?_ r h1
    intro ev hev
    simp only [List.mem_append, List.mem_singleton] at hev
    rcases hev with hev | hev
    · exact houter ev (earlyMallocs_isOuter o ev hev)
    · subst hev; exact houter _ rfl

/-! ### The result rows -/

theorem derivedFrom_fields (o1 o : Options) (h : o1.derivedFrom o) :
    o1.window_size = o.window_size ∧ o1.omb_enable_ddt = o.omb_enable_ddt ∧
      o1.buf_num = o.buf_num ∧ o1.validate = o.validate ∧
      o1.omb_tail_lat = o.omb_tail_lat ∧ o1.iterations_large = o.iterations_large ∧
      o1.skip_large = o.skip_large ∧
      (o1.iterations = o.iterations ∧ o1.skip = o.skip ∨
        o1.iterations = o.iterations_large ∧ o1.skip = o.skip_large) := by
  rcases h with h | h <;> subst h <;> simp [Options.large]

theorem cudaBufNum_fields (e : Env) (o : Options) :
    (cudaBufNum e o).window_size = o.window_size ∧
      (cudaBufNum e o).omb_enable_ddt = o.omb_enable_ddt ∧
      (cudaBufNum e o).validate = o.validate ∧
      (cudaBufNum e o).omb_tail_lat = o.omb_tail_lat ∧
      (cudaBufNum e o).iterations = o.iterations ∧ (cudaBufNum e o).skip = o.skip ∧
      (cudaBufNum e o).iterations_large = o.iterations_large ∧
      (cudaBufNum e o).skip_large = o.skip_large ∧
      (cudaBufNum e o).omb_dtype_itr = o.omb_dtype_itr ∧
      (cudaBufNum e o).min_message_size = o.min_message_size ∧
      (cudaBufNum e o).max_message_size = o.max_message_size := by
  unfold cudaBufNum
  split <;> simp

/-- C5 (the code at the failing input): with threshold 8192, two datatype
passes over the sizes 8192 and 16384, two configured iterations and one
large-message iteration, the first pass runs two exchanges at size 8192 and
one at 16384, and the second pass runs only one exchange at size 8192, which
does not exceed the threshold: `options.iterations` was overwritten at size
16384 of the first pass and is 1 from then on. -/
theorem large_counts_persist :
    (main 32 twoPassOptions demoEnv 0).map
        (fun r => (exchangeCounts r.trace, rowIterations r.trace,
          r.final.options.iterations)) =
      some ([(8192, 2), (16384, 1), (8192, 1), (16384, 1)],
        [(0, 8192, 2), (0, 16384, 1), (1, 8192, 1), (1, 16384, 1)], 1) ∧
    ¬ ((8192 : Int) > demoEnv.LARGE_MESSAGE_SIZE) ∧
    twoPassOptions.iterations = 2 := by
  decide

/-! ### One iteration with validation -/

theorem forLoop_fst_sum (d : Nat → Nat) (g : Nat → Nat → List Event) :
    ∀ n k err, (forLoop (fun j err => (err + d j, g j err)) n k err).1 =
      err + Finset.sum (Finset.range n) (fun t => d (k + t)) := by
  intro n
  induction n with
  | zero => intro k err; simp [forLoop]
  | succ n ih =>
    intro k err
    simp only [forLoop]
    rw [ih, Finset.sum_range_succ']
    simp only [Nat.add_zero]
    have : ∀ t, d (k + 1 + t) = d (k + (t + 1)) := by intro t; congr 1; omega
    simp only [this]
    omega

theorem validatePass_fst (o : Options) (e : Env) (p : Nat) (size : Int) (i errors : Nat) :
    (validatePass o e p size i errors).1 = errors + slotSum o (e.validate_data p size) i := by
  unfold validatePass slotSum slotCount
  cases h : o.buf_num with
  | SINGLE => simp
  | MULTIPLE =>
    simp only [reduceCtorEq, if_false]
    rw [forLoop_fst_sum (fun j => e.validate_data p size i j)]
    simp

theorem validatePass_validations (o : Options) (e : Env) (p : Nat) (size : Int)
    (i errors : Nat) :
    validations (validatePass o e p size i errors).2 =
      (List.range (slotCount o)).map fun j => (i, j, slotCounter o i j) := by
  unfold validatePass slotCount slotCounter validations
  cases h : o.buf_num with
  | SINGLE => simp [List.range_succ]
  | MULTIPLE =>
    simp only [reduceCtorEq, if_false]
    rw [forLoop_filterMap _ _ (fun j => [(i, j, i + j)]) (by intro k s; rfl)]
    simp only [Nat.zero_add]
    induction (List.range o.window_size) with
    | nil => rfl
    | cons x xs ih => simp [List.flatMap_cons, ih]

theorem setValidation_setups (o : Options) (size : Int) (i : Nat) (h : o.validate = true) :
    validationSetups (setValidation o size i) =
      (List.range (slotCount o)).map fun j => (i, j, slotCounter o i j) := by
  unfold setValidation slotCount slotCounter validationSetups
  cases hb : o.buf_num with
  | SINGLE => simp [h, List.range_succ]
  | MULTIPLE =>
    simp only [h, List.filterMap_append, List.filterMap_map, Function.comp_def, if_true]
    simp only [List.filterMap_cons, List.filterMap_nil, List.append_nil]
    induction (List.range o.window_size) with
    | nil => rfl
    | cons x xs ih => simp [List.filterMap_cons, ih]

theorem exchangesRun_append (l1 l2 : List Event) :
    exchangesRun (l1 ++ l2) = exchangesRun l1 + exchangesRun l2 := by
  simp [exchangesRun, List.countP_append]

theorem exchangesRun_zero (l : List Event) (P : Event → Prop)
    (hP : ∀ ev, P ev → ∀ n, ev ≠ Event.waitall_send n) (h : ∀ ev ∈ l, P ev) :
    exchangesRun l = 0 := by
  unfold exchangesRun
  rw [List.countP_eq_zero]
  intro ev hev
  have := hP ev (h ev hev)
  cases ev <;> first | exact absurd rfl (this _) | simp

theorem exchange_exchangesRun (o : Options) (myid n : Nat) :
    exchangesRun (exchange o myid n) = 1 := by
  have h1 : ∀ peer tag, exchangesRun (postIrecv o n peer tag) = 0 := by
    intro peer tag
    refine exchangesRun_zero _ (fun ev => ∃ a b c d f, ev = Event.irecv a b c d f) ?_ ?_
    · rintro ev ⟨a, b, c, d, f, rfl⟩ n; simp
    · intro ev hev
      simp only [postIrecv, List.mem_map] at hev
      obtain ⟨j, _, h⟩ := hev
      split at h <;> exact ⟨_, _, _, _, _, h.symm⟩
  have h2 : ∀ peer tag, exchangesRun (postIsend o n peer tag) = 0 := by
    intro peer tag
    refine exchangesRun_zero _ (fun ev => ∃ a b c d f, ev = Event.isend a b c d f) ?_ ?_
    · rintro ev ⟨a, b, c, d, f, rfl⟩ n; simp
    · intro ev hev
      simp only [postIsend, List.mem_map] at hev
      obtain ⟨j, _, h⟩ := hev
      split at h <;> exact ⟨_, _, _, _, _, h.symm⟩
  unfold exchange
  split <;> simp only [exchangesRun_append, h1, h2] <;> simp [exchangesRun]

theorem forLoop_exchangesRun {σ : Type} (body : Nat → σ → σ × List Event) (c : Nat)
    (h : ∀ k s, exchangesRun (body k s).2 = c) :
    ∀ n k s, exchangesRun (forLoop body n k s).2 = n * c := by
  intro n
  induction n with
  | zero => intro k s; simp [forLoop, exchangesRun]
  | succ n ih =>
    intro k s
    simp only [forLoop, exchangesRun_append, h, ih]
    rw [Nat.succ_mul, Nat.add_comm]

theorem exchangesRun_zero_of_isTelemetry (l : List Event)
    (h : ∀ ev ∈ l, ev.isTelemetry = true) : exchangesRun l = 0 :=
  exchangesRun_zero l (fun ev => ev.isTelemetry = true)
    (by intro ev hev n heq; subst heq; simp [Event.isTelemetry] at hev) h

theorem exchangesRun_zero_of_isValidation (l : List Event)
    (h : ∀ ev ∈ l, ev.isValidation = true) : exchangesRun l = 0 :=
  exchangesRun_zero l (fun ev => ev.isValidation = true)
    (by intro ev hev n heq; subst heq; simp [Event.isValidation] at hev) h

theorem kPass_exchangesRun (o : Options) (e : Env) (myid p : Nat) (size : Int)
    (ne tr : Nat) (t_lo : ℚ) (i k : Nat) (t : ℚ) :
    exchangesRun (kPass o e myid p size ne tr t_lo i k t).2 = 1 := by
  have hx := exchange_exchangesRun o myid ne
  simp only [kPass]
  split
  · split
    · simp only [exchangesRun_append, hx,
        exchangesRun_zero_of_isTelemetry _ (chrono_isTelemetry _ _)]
      split <;> simp [exchangesRun]
    · exact hx
  · exact hx

theorem iterBody_exchangesRun (o : Options) (e : Env) (myid p : Nat) (size : Int)
    (ne tr : Nat) (t_lo : ℚ) (i : Nat) (s : IterSt) :
    exchangesRun (iterBody o e myid p size ne tr t_lo i s).2.1 = o.warmup_validation + 1 := by
  have hset := exchangesRun_zero_of_isValidation _ (setValidation_isValidation o size i)
  have hval := exchangesRun_zero_of_isValidation _
    (validatePass_isValidation o e p size i s.errors)
  have hk := forLoop_exchangesRun (kPass o e myid p size ne tr t_lo i) 1
    (fun k s => kPass_exchangesRun o e myid p size ne tr t_lo i k s)
    (o.warmup_validation + 1) 0 s.t_total
  simp only [iterBody]
  split
  · simp only [exchangesRun_append, hset, hval, hk]; omega
  · simp only [exchangesRun_append, hset, hk]; omega

theorem validations_append (l1 l2 : List Event) :
    validations (l1 ++ l2) = validations l1 ++ validations l2 := by
  simp [validations, List.filterMap_append]

theorem validationSetups_append (l1 l2 : List Event) :
    validationSetups (l1 ++ l2) = validationSetups l1 ++ validationSetups l2 := by
  simp [validationSetups, List.filterMap_append]

theorem not_isValidation_of_isTransfer (ev : Event) (h : ev.isTransfer = true) :
    ev.isValidation = false := by
  cases ev <;> first | rfl | simp [Event.isTransfer] at h

theorem not_isValidation_of_isTelemetry (ev : Event) (h : ev.isTelemetry = true) :
    ev.isValidation = false := by
  cases ev <;> first | rfl | simp [Event.isTelemetry] at h

theorem validations_nil_of_not_isValidation (l : List Event)
    (h : ∀ ev ∈ l, ev.isValidation = false) : validations l = [] :=
  filterMap_nil_of_forall _ (fun ev => ev.isValidation = false)
    (by intro ev hev; cases ev <;> first | rfl | simp [Event.isValidation] at hev) l h

theorem validationSetups_nil_of_not_isValidation (l : List Event)
    (h : ∀ ev ∈ l, ev.isValidation = false) : validationSetups l = [] :=
  filterMap_nil_of_forall _ (fun ev => ev.isValidation = false)
    (by intro ev hev; cases ev <;> first | rfl | simp [Event.isValidation] at hev) l h

theorem kLoop_no_validation (o : Options) (e : Env) (myid p : Nat) (size : Int)
    (ne tr : Nat) (t_lo : ℚ) (i n k : Nat) (t : ℚ) :
    validations (forLoop (kPass o e myid p size ne tr t_lo i) n k t).2 = [] ∧
      validationSetups (forLoop (kPass o e myid p size ne tr t_lo i) n k t).2 = [] := by
  have hall : ∀ ev ∈ (forLoop (kPass o e myid p size ne tr t_lo i) n k t).2,
      ev.inIteration = true ∧ ev.isValidation = false := by
    refine forLoop_mem _ (fun ev => ev.inIteration = true ∧ ev.isValidation = false) ?_ _ _ _
    intro k s ev hev
    refine ⟨kPass_inIteration _ _ _ _ _ _ _ _ _ _ _ ev hev, ?_⟩
    simp only [kPass] at hev
    have hx : ∀ ev ∈ exchange o myid ne, ev.isValidation = false :=
      fun ev h => not_isValidation_of_isTransfer ev (exchange_isTransfer o myid ne ev h)
    split at hev
    · split at hev
      · simp only [List.mem_append, List.mem_cons, List.mem_singleton, List.not_mem_nil,
          or_false] at hev
        rcases hev with (((h | h) | h | h) | h) | h
        · subst h; rfl
        · exact hx _ h
        · subst h; rfl
        · subst h; rfl
        · exact not_isValidation_of_isTelemetry ev (chrono_isTelemetry _ _ _ h)
        · split at h
          · simp at h; subst h; rfl
          · simp at h
      · exact hx _ hev
    · exact hx _ hev
  exact ⟨validations_nil_of_not_isValidation _ (fun ev h => (hall ev h).2),
    validationSetups_nil_of_not_isValidation _ (fun ev h => (hall ev h).2)⟩

theorem setValidation_validations (o : Options) (size : Int) (i : Nat) :
    validations (setValidation o size i) = [] := by
  unfold setValidation validations
  split
  · split <;> simp [List.filterMap_append, List.filterMap_map, Function.comp_def]
  · rfl

theorem validatePass_setups (o : Options) (e : Env) (p : Nat) (size : Int) (i errors : Nat) :
    validationSetups (validatePass o e p size i errors).2 = [] := by
  unfold validatePass validationSetups
  split
  · rfl
  · rw [forLoop_filterMap _ _ (fun _ => []) (by intro k s; rfl)]
    simp

/-- What one iteration with validation on does. -/
theorem iterBody_validate (o : Options) (e : Env) (myid p : Nat) (size : Int)
    (ne tr : Nat) (t_lo : ℚ) (i : Nat) (s : IterSt) (hval : o.validate = true) :
    (iterBody o e myid p size ne tr t_lo i s).1.errors =
        s.errors + (if o.skip ≤ i then slotSum o (e.validate_data p size) i else 0) ∧
      (iterBody o e myid p size ne tr t_lo i s).2.2 =
        decide (o.skip ≤ i ∧ 0 < s.errors + slotSum o (e.validate_data p size) i) ∧
      validations (iterBody o e myid p size ne tr t_lo i s).2.1 =
        (if o.skip ≤ i then (List.range (slotCount o)).map fun j => (i, j, slotCounter o i j)
          else []) ∧
      validationSetups (iterBody o e myid p size ne tr t_lo i s).2.1 =
        (List.range (slotCount o)).map fun j => (i, j, slotCounter o i j) := by
  obtain ⟨hk1, hk2⟩ := kLoop_no_validation o e myid p size ne tr t_lo i
    (o.warmup_validation + 1) 0 s.t_total
  have hs1 := setValidation_validations o size i
  have hs2 := setValidation_setups o size i hval
  have hv0 := validatePass_fst o e p size i s.errors
  have hv1 := validatePass_validations o e p size i s.errors
  have hv2 := validatePass_setups o e p size i s.errors
  simp only [iterBody, hval, and_true]
  split
  · rename_i h
    simp only [validations_append, validationSetups_append, hk1, hk2, hs1, hs2, hv0, hv1, hv2,
      h, if_true, true_and, List.append_nil, List.nil_append]
    try simp
  · rename_i h
    simp only [validations_append, validationSetups_append, hk1, hk2, hs1, hs2, h, if_false,
      false_and, List.append_nil, List.nil_append]
    try simp

/-! ### The iteration loop with validation -/

theorem flatMap_filter_range_succ {α : Type} (P : Nat → Bool) (T : Nat → List α) (m : Nat) :
    ((List.range (m + 1)).filter P).flatMap T =
      (if P 0 = true then T 0 else []) ++
        ((List.range m).filter (fun t => P (t + 1))).flatMap (fun t => T (t + 1)) := by
  rw [List.range_succ_eq_map, List.filter_cons]
  have h : (List.filter P (List.map Nat.succ (List.range m))).flatMap T =
      ((List.range m).filter (fun t => P (t + 1))).flatMap (fun t => T (t + 1)) := by
    rw [List.filter_map, List.flatMap_map]
    rfl
  split
  · simp [List.flatMap_cons, h]
  · simp [h]

theorem sum_range_ite_eq_Ico (g : Nat → Nat) (a m : Nat) :
    Finset.sum (Finset.range m) (fun t => if a ≤ t then g t else 0) =
      Finset.sum (Finset.Ico a m) g := by
  rw [← Finset.sum_filter]
  congr 1
  ext x
  simp only [Finset.mem_filter, Finset.mem_range, Finset.mem_Ico]
  omega

theorem iterLoop_validate_aux (o : Options) (e : Env) (myid p : Nat) (size : Int)
    (ne tr : Nat) (t_lo : ℚ) (hval : o.validate = true) :
    ∀ n k s, ∃ m, m ≤ n ∧
      exchangesRun (forLoopBreak (iterBody o e myid p size ne tr t_lo) n k s).2 =
        m * (o.warmup_validation + 1) ∧
      (forLoopBreak (iterBody o e myid p size ne tr t_lo) n k s).1.errors =
        s.errors + Finset.sum (Finset.range m) (fun t =>
          if o.skip ≤ k + t then slotSum o (e.validate_data p size) (k + t) else 0) ∧
      (m < n → (0 < m ∧ o.skip ≤ k + m - 1) ∧
        0 < (forLoopBreak (iterBody o e myid p size ne tr t_lo) n k s).1.errors) ∧
      (∀ m1, 0 < m1 → m1 < m → ¬ (o.skip ≤ k + m1 - 1 ∧
        0 < s.errors + Finset.sum (Finset.range m1) (fun t =>
          if o.skip ≤ k + t then slotSum o (e.validate_data p size) (k + t) else 0))) ∧
      validations (forLoopBreak (iterBody o e myid p size ne tr t_lo) n k s).2 =
        ((List.range m).filter (fun t => decide (o.skip ≤ k + t))).flatMap (fun t =>
          (List.range (slotCount o)).map fun j => (k + t, j, slotCounter o (k + t) j)) ∧
      validationSetups (forLoopBreak (iterBody o e myid p size ne tr t_lo) n k s).2 =
        (List.range m).flatMap (fun t =>
          (List.range (slotCount o)).map fun j => (k + t, j, slotCounter o (k + t) j)) := by
  intro n
  induction n with
  | zero =>
    intro k s
    exact ⟨0, le_refl _, by simp [forLoopBreak, exchangesRun], by simp [forLoopBreak],
      by omega, by omega, by simp [forLoopBreak, validations],
      by simp [forLoopBreak, validationSetups]⟩
  | succ n ih =>
    intro k s
    obtain ⟨he, hf, hv, hs⟩ := iterBody_validate o e myid p size ne tr t_lo k s hval
    have hx := iterBody_exchangesRun o e myid p size ne tr t_lo k s
    by_cases hflag : (iterBody o e myid p size ne tr t_lo k s).2.2 = true
    · have hcond := hflag
      rw [hf, decide_eq_true_eq] at hcond
      refine ⟨1, by omega, ?_, ?_, ?_, ?_, ?_, ?_⟩
      · simp only [forLoopBreak, hflag, if_true, hx]; omega
      · simp only [forLoopBreak, hflag, if_true, he]; simp
      · intro _
        simp only [forLoopBreak, hflag, if_true, he, hcond.1, if_true]
        exact ⟨⟨by omega, by simpa using hcond.1⟩, hcond.2⟩
      · intro m1 h1 h2; omega
      · simp only [forLoopBreak, hflag, if_true, hv, hcond.1]
        simp [List.range_succ, hcond.1]
      · simp only [forLoopBreak, hflag, if_true, hs]
        simp [List.range_succ]
    · have hflag2 : (iterBody o e myid p size ne tr t_lo k s).2.2 = false := by
        simpa using hflag
      have hncond : ¬ (o.skip ≤ k ∧ 0 < s.errors + slotSum o (e.validate_data p size) k) := by
        rw [hf] at hflag2
        simpa using hflag2
      obtain ⟨m, hm, i1, i2, i3, i4, i5, i6⟩ :=
        ih (k + 1) (iterBody o e myid p size ne tr t_lo k s).1
      have hshift : ∀ t, k + 1 + t = k + (t + 1) := by intro t; omega
      have hsum : ∀ m1, s.errors + Finset.sum (Finset.range (m1 + 1)) (fun t =>
            if o.skip ≤ k + t then slotSum o (e.validate_data p size) (k + t) else 0) =
          (iterBody o e myid p size ne tr t_lo k s).1.errors +
            Finset.sum (Finset.range m1) (fun t =>
              if o.skip ≤ k + 1 + t then slotSum o (e.validate_data p size) (k + 1 + t)
              else 0) := by
        intro m1
        rw [Finset.sum_range_succ', he]
        simp only [hshift, Nat.add_zero]
        omega
      refine ⟨m + 1, by omega, ?_, ?_, ?_, ?_, ?_, ?_⟩
      · simp only [forLoopBreak, hflag2, Bool.false_eq_true, if_false, exchangesRun_append,
          hx, i1]
        rw [Nat.succ_mul]; omega
      · simp only [forLoopBreak, hflag2, Bool.false_eq_true, if_false, i2]
        rw [hsum]
      · intro hlt
        simp only [forLoopBreak, hflag2, Bool.false_eq_true, if_false]
        obtain ⟨⟨a, b⟩, c⟩ := i3 (by omega)
        exact ⟨⟨by omega, by omega⟩, c⟩
      · intro m1 h1 h2
        rcases Nat.eq_or_lt_of_le (Nat.succ_le_of_lt h1) with h3 | h3
        · subst h3
          simp only [Finset.sum_range_one, Nat.add_zero, Nat.add_sub_cancel]
          intro hc
          apply hncond
          refine ⟨hc.1, ?_⟩
          have := hc.2
          simp only [hc.1, if_true] at this
          exact this
        · have := i4 (m1 - 1) (by omega) (by omega)
          intro hc
          apply this
          have h5 : m1 = (m1 - 1) + 1 := by omega
          rw [h5, hsum] at hc
          refine ⟨by omega, hc.2⟩
      · simp only [forLoopBreak, hflag2, Bool.false_eq_true, if_false, validations_append,
          hv, i5]
        rw [flatMap_filter_range_succ]
        simp only [Nat.add_zero, decide_eq_true_eq, hshift]
      · simp only [forLoopBreak, hflag2, Bool.false_eq_true, if_false,
          validationSetups_append, hs, i6]
        rw [List.range_succ_eq_map, List.flatMap_cons, List.flatMap_map]
        simp only [Nat.add_zero, hshift]

/-- C6: with validation on, in the iteration loop of a size entered with the
error counter at `errors`, `validate_data` is called only in iterations
`i >= skip`, on slot 0 with counter `i` in single-buffer mode and on every
slot `j` with counter `i + j` in multiple-buffer mode, and each such call has
the iteration, slot and counter of a `set_buffer_validation` call of the same
iteration. The loop runs `m` outer iterations, where either `m` is the full
count `iterations + skip`, or iteration `m - 1` is a timed one after which the
counter is positive; the counter is not positive after any earlier timed
iteration, so the loop stops right after the first timed iteration at which
it is positive and no exchange follows (`m * (warmup_validation + 1)`
exchanges are run in all). The counter then is its entry value plus the sum
of the `validate_data` results over the slots of the timed iterations
`skip <= i < m`; entered at 0 it equals that sum, and if moreover every
result is 0 it stays 0 and all `iterations + skip` iterations run. -/
theorem validation_stops_loop (o : Options) (e : Env) (myid p : Nat) (size : Int)
    (ne tr : Nat) (t_lo : ℚ) (errors : Nat) (hval : o.validate = true) :
    ∃ m, m ≤ o.iterations + o.skip ∧
      exchangesRun (iterLoop o e myid p size ne tr t_lo errors).2 =
        m * (o.warmup_validation + 1) ∧
      (iterLoop o e myid p size ne tr t_lo errors).1.errors =
        errors + timedSum o (e.validate_data p size) m ∧
      (m < o.iterations + o.skip →
        o.skip < m ∧ 0 < (iterLoop o e myid p size ne tr t_lo errors).1.errors) ∧
      (∀ i, o.skip ≤ i → i + 1 < m →
        errors + timedSum o (e.validate_data p size) (i + 1) = 0) ∧
      validations (iterLoop o e myid p size ne tr t_lo errors).2 = slotTriples o o.skip m ∧
      validationSetups (iterLoop o e myid p size ne tr t_lo errors).2 = slotTriples o 0 m ∧
      (∀ x ∈ validations (iterLoop o e myid p size ne tr t_lo errors).2,
        o.skip ≤ x.1 ∧ x.2.2 = slotCounter o x.1 x.2.1 ∧
        x ∈ validationSetups (iterLoop o e myid p size ne tr t_lo errors).2) ∧
      (errors = 0 → (iterLoop o e myid p size ne tr t_lo errors).1.errors =
        timedSum o (e.validate_data p size) m) ∧
      (errors = 0 → (∀ i j, e.validate_data p size i j = 0) →
        m = o.iterations + o.skip ∧
        (iterLoop o e myid p size ne tr t_lo errors).1.errors = 0) := by
  obtain ⟨m, hm, h1, h2, h3, h4, h5, h6⟩ := iterLoop_validate_aux o e myid p size ne tr t_lo
    hval (o.iterations + o.skip) 0 { errors := errors, t_total := 0 }
  simp only [Nat.zero_add, sum_range_ite_eq_Ico] at h2 h3 h4 h5 h6
  have h2a : (iterLoop o e myid p size ne tr t_lo errors).1.errors =
      errors + timedSum o (e.validate_data p size) m := h2
  have h5a : validations (iterLoop o e myid p size ne tr t_lo errors).2 =
      slotTriples o o.skip m := h5
  have h6a : validationSetups (iterLoop o e myid p size ne tr t_lo errors).2 =
      slotTriples o 0 m := by
    rw [show validationSetups (iterLoop o e myid p size ne tr t_lo errors).2 = _ from h6]
    simp [slotTriples]
  refine ⟨m, hm, h1, h2a, ?_, ?_, h5a, h6a, ?_, ?_, ?_⟩
  · intro hlt
    obtain ⟨⟨a, b⟩, c⟩ := h3 hlt
    exact ⟨by omega, c⟩
  · intro i hi him
    have := h4 (i + 1) (by omega) him
    simp only [Nat.add_sub_cancel, hi, true_and, not_lt, Nat.le_zero] at this
    exact this
  · intro x hx
    rw [h6a]
    rw [h5a] at hx
    simp only [slotTriples, List.mem_flatMap, List.mem_filter, List.mem_range, List.mem_map,
      decide_eq_true_eq] at hx ⊢
    obtain ⟨i, ⟨hi1, hi2⟩, j, hj, rfl⟩ := hx
    exact ⟨hi2, rfl, i, ⟨hi1, Nat.zero_le _⟩, j, hj, rfl⟩
  · intro h0
    rw [h2a, h0, Nat.zero_add]
  · intro h0 hz
    have hsum : ∀ m, timedSum o (e.validate_data p size) m = 0 := by
      intro m
      unfold timedSum slotSum
      simp [hz]
    have herr : (iterLoop o e myid p size ne tr t_lo errors).1.errors = 0 := by
      rw [h2a, h0, hsum]
    refine ⟨?_, herr⟩
    by_contra hne
    have := (h3 (by omega)).2
    rw [show (forLoopBreak (iterBody o e myid p size ne tr t_lo) (o.iterations + o.skip) 0
      { errors := errors, t_total := 0 }).1.errors =
        (iterLoop o e myid p size ne tr t_lo errors).1.errors from rfl, herr] at this
    omega

/-- Witness for C6: `corruptEnv` reports one mismatch per slot, the window has
two slots, two warm-up iterations precede the timed ones: the loop stops after
iteration 2, the first timed one, with error count 2. -/
theorem validation_stops_loop_witness :
    (iterLoop { timedOptions with validate := true } corruptEnv 0 0 1 1 1 0 0).1.errors = 2 ∧
    exchangesRun (iterLoop { timedOptions with validate := true } corruptEnv 0 0 1 1 1 0 0).2
      = 6 ∧
    validations (iterLoop { timedOptions with validate := true } corruptEnv 0 0 1 1 1 0 0).2
      = [(2, 0, 2), (2, 1, 3)] ∧
    ∃ m, m ≤ 3 + 2 ∧
      (iterLoop { timedOptions with validate := true } corruptEnv 0 0 1 1 1 0 0).1.errors =
        0 + timedSum { timedOptions with validate := true } (corruptEnv.validate_data 0 1) m :=
  ⟨by decide, by decide, by decide,
    (validation_stops_loop { timedOptions with validate := true } corruptEnv 0 0 1 1 1 0 0
      rfl).elim fun m hm => ⟨m, hm.1, hm.2.2.1⟩⟩

/-! ### Two runs side by side -/

theorem forLoop_sim {σ τ α : Type} (body0 : Nat → σ → σ × List Event)
    (body1 : Nat → τ → τ × List Event) (R : σ → τ → Prop) (f : Event → Option α)
    (h : ∀ k s0 s1, R s0 s1 → R (body0 k s0).1 (body1 k s1).1 ∧
      (body0 k s0).2.filterMap f = (body1 k s1).2.filterMap f) :
    ∀ n k s0 s1, R s0 s1 → R (forLoop body0 n k s0).1 (forLoop body1 n k s1).1 ∧
      (forLoop body0 n k s0).2.filterMap f = (forLoop body1 n k s1).2.filterMap f := by
  intro n
  induction n with
  | zero => intro k s0 s1 hr; exact ⟨hr, rfl⟩
  | succ n ih =>
    intro k s0 s1 hr
    obtain ⟨h1, h2⟩ := h k s0 s1 hr
    obtain ⟨h3, h4⟩ := ih (k + 1) _ _ h1
    exact ⟨h3, by simp only [forLoop, List.filterMap_append, h2, h4]⟩

theorem forLoopBreak_sim {σ τ α : Type} (body0 : Nat → σ → σ × List Event × Bool)
    (body1 : Nat → τ → τ × List Event × Bool) (R : σ → τ → Prop) (f : Event → Option α)
    (h : ∀ k s0 s1, R s0 s1 → R (body0 k s0).1 (body1 k s1).1 ∧
      (body0 k s0).2.2 = (body1 k s1).2.2 ∧
      (body0 k s0).2.1.filterMap f = (body1 k s1).2.1.filterMap f) :
    ∀ n k s0 s1, R s0 s1 →
      R (forLoopBreak body0 n k s0).1 (forLoopBreak body1 n k s1).1 ∧
      (forLoopBreak body0 n k s0).2.filterMap f =
        (forLoopBreak body1 n k s1).2.filterMap f := by
  intro n
  induction n with
  | zero => intro k s0 s1 hr; exact ⟨hr, rfl⟩
  | succ n ih =>
    intro k s0 s1 hr
    obtain ⟨h1, h2, h3⟩ := h k s0 s1 hr
    obtain ⟨h4, h5⟩ := ih (k + 1) _ _ h1
    simp only [forLoopBreak, ← h2]
    split
    · exact ⟨h1, h3⟩
    · exact ⟨h4, by simp only [List.filterMap_append, h3, h5]⟩

/-! ### The exchanges of the two ranks -/

theorem exchange_marks (o : Options) (myid n : Nat) :
    (exchange o myid n).filterMap Event.mark = [Mark.exchange] := by
  have h1 : ∀ peer tag, (postIrecv o n peer tag).filterMap Event.mark = [] := by
    intro peer tag
    refine filterMap_nil_of_forall _ (fun ev => ∃ a b c d f, ev = Event.irecv a b c d f) ?_ _ ?_
    · rintro ev ⟨a, b, c, d, f, rfl⟩; rfl
    · intro ev hev
      simp only [postIrecv, List.mem_map] at hev
      obtain ⟨j, _, h⟩ := hev
      split at h <;> exact ⟨_, _, _, _, _, h.symm⟩
  have h2 : ∀ peer tag, (postIsend o n peer tag).filterMap Event.mark = [] := by
    intro peer tag
    refine filterMap_nil_of_forall _ (fun ev => ∃ a b c d f, ev = Event.isend a b c d f) ?_ _ ?_
    · rintro ev ⟨a, b, c, d, f, rfl⟩; rfl
    · intro ev hev
      simp only [postIsend, List.mem_map] at hev
      obtain ⟨j, _, h⟩ := hev
      split at h <;> exact ⟨_, _, _, _, _, h.symm⟩
  unfold exchange
  split <;> simp only [List.filterMap_append, h1, h2] <;> rfl

theorem marks_nil_of_isTelemetry (l : List Event) (h : ∀ ev ∈ l, ev.isTelemetry = true) :
    l.filterMap Event.mark = [] :=
  filterMap_nil_of_forall _ (fun ev => ev.isTelemetry = true)
    (by intro ev hev; cases ev <;> first | rfl | simp [Event.isTelemetry] at hev) l h

theorem marks_nil_of_isValidation (l : List Event) (h : ∀ ev ∈ l, ev.isValidation = true) :
    l.filterMap Event.mark = [] :=
  filterMap_nil_of_forall _ (fun ev => ev.isValidation = true)
    (by intro ev hev; cases ev <;> first | rfl | simp [Event.isValidation] at hev) l h

theorem kPass_marks (o : Options) (e : Env) (myid p : Nat) (size : Int)
    (ne tr : Nat) (t_lo : ℚ) (i k : Nat) (t : ℚ) :
    (kPass o e myid p size ne tr t_lo i k t).2.filterMap Event.mark = [Mark.exchange] := by
  have hx := exchange_marks o myid ne
  simp only [kPass]
  split
  · split
    · simp only [List.filterMap_append, hx,
        marks_nil_of_isTelemetry _ (chrono_isTelemetry _ _)]
      split <;> rfl
    · exact hx
  · exact hx

theorem iterBody_marks (o : Options) (e : Env) (myid p : Nat) (size : Int)
    (ne tr : Nat) (t_lo : ℚ) (i : Nat) (s : IterSt) :
    (iterBody o e myid p size ne tr t_lo i s).2.1.filterMap Event.mark =
      (List.range (o.warmup_validation + 1)).flatMap (fun _ => [Mark.exchange]) := by
  have hset := marks_nil_of_isValidation _ (setValidation_isValidation o size i)
  have hval := marks_nil_of_isValidation _ (validatePass_isValidation o e p size i s.errors)
  have hk := forLoop_filterMap (kPass o e myid p size ne tr t_lo i) Event.mark
    (fun _ => [Mark.exchange])
    (fun k s => kPass_marks o e myid p size ne tr t_lo i k s)
    (o.warmup_validation + 1) 0 s.t_total
  simp only [iterBody]
  split
  · simp only [List.filterMap_append, hset, hval, hk, List.nil_append, List.append_nil]
  · simp only [List.filterMap_append, hset, hk, List.nil_append]

theorem iterBody_errors_flag (o : Options) (e : Env) (myid p : Nat) (size : Int)
    (ne tr : Nat) (t_lo : ℚ) (i : Nat) (s : IterSt) :
    (iterBody o e myid p size ne tr t_lo i s).1.errors =
        (if o.skip ≤ i ∧ o.validate = true then
          s.errors + slotSum o (e.validate_data p size) i else s.errors) ∧
      (iterBody o e myid p size ne tr t_lo i s).2.2 =
        decide ((o.skip ≤ i ∧ o.validate = true) ∧
          0 < s.errors + slotSum o (e.validate_data p size) i) := by
  have hv0 := validatePass_fst o e p size i s.errors
  simp only [iterBody]
  split
  · rename_i h
    simp [hv0, h]
  · rename_i h
    simp [h]

/-- The two ranks run the iteration loop of a size in step when they see the
same `validate_data` results and enter with the same error counter. -/
theorem iterLoop_ranks (o : Options) (e0 e1 : Env) (id0 id1 p : Nat) (size : Int)
    (ne tr : Nat) (t0 t1 : ℚ) (errors : Nat) (hv : e1.validate_data = e0.validate_data) :
    (iterLoop o e0 id0 p size ne tr t0 errors).1.errors =
        (iterLoop o e1 id1 p size ne tr t1 errors).1.errors ∧
      (iterLoop o e0 id0 p size ne tr t0 errors).2.filterMap Event.mark =
        (iterLoop o e1 id1 p size ne tr t1 errors).2.filterMap Event.mark := by
  refine forLoopBreak_sim _ _ (fun (s0 s1 : IterSt) => s0.errors = s1.errors) Event.mark ?_
    _ _ _ _ rfl
  intro k s0 s1 hr
  obtain ⟨a0, b0⟩ := iterBody_errors_flag o e0 id0 p size ne tr t0 k s0
  obtain ⟨a1, b1⟩ := iterBody_errors_flag o e1 id1 p size ne tr t1 k s1
  refine ⟨?_, ?_, ?_⟩
  · show (iterBody o e0 id0 p size ne tr t0 k s0).1.errors =
      (iterBody o e1 id1 p size ne tr t1 k s1).1.errors
    rw [a0, a1, hr, hv]
  · rw [b0, b1, hr, hv]
  · rw [iterBody_marks, iterBody_marks]

theorem iterLoop_errors_novalidate (o : Options) (e : Env) (myid p : Nat) (size : Int)
    (ne tr : Nat) (t_lo : ℚ) (errors : Nat) (h : o.validate = false) :
    (iterLoop o e myid p size ne tr t_lo errors).1.errors = errors := by
  refine forLoopBreak_fst_inv _ (fun (s : IterSt) => s.errors = errors) ?_ _ _ _ rfl
  intro k s hs
  show (iterBody o e myid p size ne tr t_lo k s).1.errors = errors
  rw [(iterBody_errors_flag o e myid p size ne tr t_lo k s).1]
  simp [h, hs]

/-! ### One size on the two ranks -/

theorem sizeAlloc_marks (st : State) : (sizeAlloc st).filterMap Event.mark = [] := by
  refine filterMap_nil_of_forall _ (fun ev => ev.quiet = true ∧ ev.inIteration = false) ?_ _ ?_
  · rintro ev ⟨h1, h2⟩
    cases ev <;> first | rfl | simp [Event.quiet, Event.inIteration] at h1 h2
  · intro ev hev
    refine ⟨sizeAlloc_quiet st ev hev, ?_⟩
    simp only [sizeAlloc] at hev
    split at hev
    · simp at hev
      rcases hev with ⟨j, _, h⟩ | ⟨j, _, h⟩ <;> subst h <;> rfl
    · simp at hev; subst hev; rfl

theorem sizeFree_marks (st : State) : (sizeFree st).filterMap Event.mark = [] := by
  unfold sizeFree
  split
  · refine filterMap_nil_of_forall _ (fun ev => ∃ j, ev = Event.free_memory j) ?_ _ ?_
    · rintro ev ⟨j, rfl⟩; rfl
    · intro ev hev
      simp only [List.mem_map] at hev
      obtain ⟨j, _, h⟩ := hev
      exact ⟨j, h.symm⟩
  · rfl

theorem sizeRow_marks (e : Env) (myid p ne : Nat) (st : State) :
    (sizeRow e myid p ne st).filterMap Event.mark = [] := by
  unfold sizeRow
  split <;> rfl

theorem sizeBody_marks (e : Env) (myid p ne : Nat) (st : State) :
    (sizeBody e myid p ne st).2.1.filterMap Event.mark =
      Mark.size st.size :: (sizeIter e myid p ne st).2.filterMap Event.mark := by
  simp only [sizeBody, List.filterMap_append, sizeAlloc_marks, sizeFree_marks, sizeRow_marks]
  split <;> simp [Event.mark]

theorem sizeBody_control (e : Env) (myid p ne : Nat) (st : State) :
    controlTrace (sizeBody e myid p ne st).2.1 =
      Event.omb_ddt_assign st.size ne ::
        (if st.options.validate = true then [Event.bcast (sizeErrors e myid p ne st)]
          else []) := by
  unfold controlTrace
  rw [sizeBody_filterMap _
    (by intro ev hev; cases ev <;> first | rfl | simp [Event.quiet, Event.inIteration] at hev)]
  unfold sizeRow
  split <;> split <;> simp [Event.control]

theorem sizeBody_bcastValues (e : Env) (myid p ne : Nat) (st : State) :
    bcastValues (sizeBody e myid p ne st).2.1 =
      if st.options.validate = true then [sizeErrors e myid p ne st] else [] := by
  unfold bcastValues
  rw [sizeBody_filterMap _
    (by intro ev hev; cases ev <;> first | rfl | simp [Event.quiet, Event.inIteration] at hev)]
  unfold sizeRow
  split <;> split <;> simp

theorem sizeErrors_root (e : Env) (p ne : Nat) (st : State) :
    sizeErrors e 0 p ne st = (sizeIter e 0 p ne st).1.errors := by
  unfold sizeErrors
  split <;> simp

theorem sizeBody_pair (e0 : Env) (v1 : Nat → Int → Nat → Nat → Nat) (T : List Event)
    (p ne : Nat) (st0 st1 : State) (hs : sameControl st0 st1)
    (hb : st0.options.validate = true →
      (responderEnv e0 v1 T).bcast_in st0.nbcast = sizeErrors e0 0 p ne st0) :
    sameControl (sizeBody e0 0 p ne st0).1 (sizeBody (responderEnv e0 v1 T) 1 p ne st1).1 ∧
      (sizeBody (responderEnv e0 v1 T) 1 p ne st1).2.2 = (sizeBody e0 0 p ne st0).2.2 ∧
      controlTrace (sizeBody (responderEnv e0 v1 T) 1 p ne st1).2.1 =
        controlTrace (sizeBody e0 0 p ne st0).2.1 ∧
      (v1 = e0.validate_data →
        (sizeBody (responderEnv e0 v1 T) 1 p ne st1).2.1.filterMap Event.mark =
          (sizeBody e0 0 p ne st0).2.1.filterMap Event.mark) := by
  obtain ⟨h1, h2, h3, h4, h5⟩ := hs
  have herr : sizeErrors (responderEnv e0 v1 T) 1 p ne st1 = sizeErrors e0 0 p ne st0 := by
    by_cases hval : st0.options.validate = true
    · have hb2 := hb hval
      rw [h4] at hb2
      rw [← hb2]
      unfold sizeErrors
      rw [← h1]
      simp [hval]
    · have hval2 : st0.options.validate = false := by simpa using hval
      have hl0 : (largeSwitch e0 st0.size st0.options).validate = false := by simp [hval2]
      have hl1 : (largeSwitch (responderEnv e0 v1 T) st1.size st1.options).validate = false := by
        rw [← h1]; simp [hval2]
      unfold sizeErrors sizeIter
      rw [← h1, hval2]
      simp only [Bool.false_eq_true, if_false]
      rw [iterLoop_errors_novalidate _ _ _ _ _ _ _ _ _ hl0,
        iterLoop_errors_novalidate _ _ _ _ _ _ _ _ _ (by rw [h1]; exact hl1), h3]
  have hopt : largeSwitch (responderEnv e0 v1 T) st1.size st1.options =
      largeSwitch e0 st0.size st0.options := by
    rw [← h1, ← h2]; rfl
  have htlo : sizeTlo (responderEnv e0 v1 T) st1 = sizeTlo e0 st0 := by
    unfold sizeTlo
    rw [← h1, ← h2, ← h5]; rfl
  refine ⟨⟨?_, ?_, ?_, ?_, ?_⟩, ?_, ?_, ?_⟩
  · simp only [sizeBody_options]; exact hopt.symm
  · simp only [sizeBody_size]; exact h2
  · simp only [sizeBody_errors]; exact herr.symm
  · simp only [sizeBody]; rw [h1, h4]
  · simp only [sizeBody]; exact htlo.symm
  · simp only [sizeBody]; rw [herr, h1]
  · rw [sizeBody_control, sizeBody_control, herr, h1, h2]
  · intro hv
    rw [sizeBody_marks, sizeBody_marks, h2]
    congr 1
    unfold sizeIter
    rw [hopt, htlo, ← h2, ← h3]
    exact ((iterLoop_ranks _ e0 (responderEnv e0 v1 T) 0 1 p st0.size _ _ _ _ st0.errors
      (by rw [← hv]; rfl)).2).symm

/-! ### The size loop on the two ranks -/

theorem sameControl_nextSize (s0 s1 : State) (h : sameControl s0 s1) :
    sameControl (nextSize s0) (nextSize s1) := by
  obtain ⟨h1, h2, h3, h4, h5⟩ := h
  exact ⟨h1, by simp [h2], h3, h4, h5⟩

theorem sameControl_enterSweep (s0 s1 : State) (h : sameControl s0 s1) :
    sameControl (enterSweep s0) (enterSweep s1) := by
  obtain ⟨h1, h2, h3, h4, h5⟩ := h
  exact ⟨h1, by simp [h1], h3, h4, h5⟩

theorem bcastValues_append (l1 l2 : List Event) :
    bcastValues (l1 ++ l2) = bcastValues l1 ++ bcastValues l2 := by
  simp [bcastValues, List.filterMap_append]

theorem controlTrace_append (l1 l2 : List Event) :
    controlTrace (l1 ++ l2) = controlTrace l1 ++ controlTrace l2 := by
  simp [controlTrace, List.filterMap_append]

@[simp] theorem bcastValues_cons_num (s : Int) (n : Nat) (l : List Event) :
    bcastValues (Event.num_elements s n :: l) = bcastValues l := rfl

@[simp] theorem controlTrace_cons_num (s : Int) (n : Nat) (l : List Event) :
    controlTrace (Event.num_elements s n :: l) =
      Event.num_elements s n :: controlTrace l := rfl

@[simp] theorem marks_cons_num (s : Int) (n : Nat) (l : List Event) :
    (Event.num_elements s n :: l).filterMap Event.mark = l.filterMap Event.mark := rfl

theorem sizeBody_nbcast (e : Env) (myid p ne : Nat) (st : State) :
    (sizeBody e myid p ne st).1.nbcast =
      st.nbcast + (bcastValues (sizeBody e myid p ne st).2.1).length := by
  rw [sizeBody_bcastValues]
  simp only [sizeBody]
  split <;> simp

theorem sizeLoop_pair (A : List Event → List Event → Prop) (hnil : A [] [])
    (happ : ∀ a1 a0 b1 b0, A a1 a0 → A b1 b0 → A (a1 ++ b1) (a0 ++ b0))
    (hsame : ∀ ev, A [ev] [ev]) (e0 : Env)
    (v1 : Nat → Int → Nat → Nat → Nat) (T : List Event) (p : Nat)
    (hbody : ∀ ne st0 st1, sameControl st0 st1 →
      (st0.options.validate = true →
        (responderEnv e0 v1 T).bcast_in st0.nbcast = sizeErrors e0 0 p ne st0) →
      A (sizeBody (responderEnv e0 v1 T) 1 p ne st1).2.1 (sizeBody e0 0 p ne st0).2.1) :
    ∀ fuel st0 st1 r0, sameControl st0 st1 → sizeLoop e0 0 p fuel st0 = some r0 →
      (∀ j, j < (bcastValues r0.2).length →
        (responderEnv e0 v1 T).bcast_in (st0.nbcast + j) = (bcastValues r0.2).getD j 0) →
      ∃ r1, sizeLoop (responderEnv e0 v1 T) 1 p fuel st1 = some r1 ∧
        sameControl r0.1 r1.1 ∧ controlTrace r1.2 = controlTrace r0.2 ∧
        A r1.2 r0.2 ∧
        r0.1.nbcast = st0.nbcast + (bcastValues r0.2).length := by
  intro fuel
  induction fuel with
  | zero => intro st0 st1 r0 _ h; simp [sizeLoop] at h
  | succ fuel ih =>
    intro st0 st1 r0 hs h hb
    have hs' := hs
    obtain ⟨h1, h2, h3, h4, h5⟩ := hs'
    have hty : (responderEnv e0 v1 T).mpi_type_size p = e0.mpi_type_size p := rfl
    by_cases hle : st0.size ≤ st0.options.max_message_size
    · have hle1 : st1.size ≤ st1.options.max_message_size := by rw [← h1, ← h2]; exact hle
      by_cases hz : numElements st0.size (e0.mpi_type_size p) = 0
      · have hz1 : numElements st1.size ((responderEnv e0 v1 T).mpi_type_size p) = 0 := by
          rw [hty, ← h2]; exact hz
        rw [sizeLoop_skip _ _ _ _ _ hle hz] at h
        cases hr : sizeLoop e0 0 p fuel (nextSize st0) with
        | none => simp [hr] at h
        | some a0 =>
          simp only [hr, Option.map_some', Option.some.injEq] at h
          subst h
          obtain ⟨a1, g1, g2, g3, g4, g5⟩ := ih (nextSize st0) (nextSize st1) a0
            (sameControl_nextSize _ _ hs) hr (by simpa using hb)
          refine ⟨(a1.1, Event.num_elements st1.size 0 :: a1.2), ?_, g2, ?_, ?_, ?_⟩
          · rw [sizeLoop_skip _ _ _ _ _ hle1 hz1, g1]; rfl
          · simp [g3, h2]
          · show A ([Event.num_elements st1.size 0] ++ a1.2)
              ([Event.num_elements st0.size 0] ++ a0.2)
            rw [← h2]
            exact happ _ _ _ _ (hsame _) g4
          · simpa using g5
      · have hz1 : numElements st1.size ((responderEnv e0 v1 T).mpi_type_size p) ≠ 0 := by
          rw [hty, ← h2]; exact hz
        have hne : numElements st1.size ((responderEnv e0 v1 T).mpi_type_size p) =
            numElements st0.size (e0.mpi_type_size p) := by rw [hty, ← h2]
        have hbv := sizeBody_bcastValues e0 0 p (numElements st0.size (e0.mpi_type_size p)) st0
        have hnb := sizeBody_nbcast e0 0 p (numElements st0.size (e0.mpi_type_size p)) st0
        by_cases hf : (sizeBody e0 0 p (numElements st0.size (e0.mpi_type_size p)) st0).2.2 = true
        · rw [sizeLoop_break _ _ _ _ _ hle hz hf] at h
          simp only [Option.some.injEq] at h
          subst h
          have hb0 : st0.options.validate = true →
              (responderEnv e0 v1 T).bcast_in st0.nbcast =
                sizeErrors e0 0 p (numElements st0.size (e0.mpi_type_size p)) st0 := by
            intro hval
            have := hb 0 (by simp [hbv, hval])
            simpa [hbv, hval] using this
          obtain ⟨q1, q2, q3, _⟩ := sizeBody_pair e0 v1 T p
            (numElements st0.size (e0.mpi_type_size p)) st0 st1 hs hb0
          refine ⟨((sizeBody (responderEnv e0 v1 T) 1 p
              (numElements st1.size ((responderEnv e0 v1 T).mpi_type_size p)) st1).1,
            Event.num_elements st1.size
              (numElements st1.size ((responderEnv e0 v1 T).mpi_type_size p)) ::
              (sizeBody (responderEnv e0 v1 T) 1 p
                (numElements st1.size ((responderEnv e0 v1 T).mpi_type_size p)) st1).2.1),
            ?_, ?_, ?_, ?_, ?_⟩
          · rw [sizeLoop_break _ _ _ _ _ hle1 hz1 (by rw [hne, q2]; exact hf)]
          · rw [hne]; exact q1
          · simp only [controlTrace_cons_num]; rw [hne, q3, h2]
          · rw [hne]
            show A ([Event.num_elements st1.size
                (numElements st0.size (e0.mpi_type_size p))] ++
                (sizeBody (responderEnv e0 v1 T) 1 p
                  (numElements st0.size (e0.mpi_type_size p)) st1).2.1)
              ([Event.num_elements st0.size
                (numElements st0.size (e0.mpi_type_size p))] ++
                (sizeBody e0 0 p (numElements st0.size (e0.mpi_type_size p)) st0).2.1)
            rw [← h2]
            exact happ _ _ _ _ (hsame _) (hbody _ _ _ hs hb0)
          · simpa using hnb
        · have hf2 : (sizeBody e0 0 p (numElements st0.size (e0.mpi_type_size p)) st0).2.2
              = false := by simpa using hf
          rw [sizeLoop_next _ _ _ _ _ hle hz hf2] at h
          cases hr : sizeLoop e0 0 p fuel
              (nextSize (sizeBody e0 0 p (numElements st0.size (e0.mpi_type_size p)) st0).1) with
          | none => simp [hr] at h
          | some a0 =>
            simp only [hr, Option.map_some', Option.some.injEq] at h
            subst h
            simp only [bcastValues_cons_num, bcastValues_append, List.length_append] at hb
            have hb0 : st0.options.validate = true →
                (responderEnv e0 v1 T).bcast_in st0.nbcast =
                  sizeErrors e0 0 p (numElements st0.size (e0.mpi_type_size p)) st0 := by
              intro hval
              have := hb 0 (by simp [hbv, hval])
              simpa [hbv, hval] using this
            obtain ⟨q1, q2, q3, _⟩ := sizeBody_pair e0 v1 T p
              (numElements st0.size (e0.mpi_type_size p)) st0 st1 hs hb0
            have hrest : ∀ j, j < (bcastValues a0.2).length →
                (responderEnv e0 v1 T).bcast_in
                  ((nextSize (sizeBody e0 0 p
                    (numElements st0.size (e0.mpi_type_size p)) st0).1).nbcast + j) =
                  (bcastValues a0.2).getD j 0 := by
              intro j hj
              have := hb ((bcastValues (sizeBody e0 0 p
                (numElements st0.size (e0.mpi_type_size p)) st0).2.1).length + j) (by omega)
              rw [List.getD_append_right _ _ _ _ (by omega)] at this
              simp only [Nat.add_sub_cancel_left] at this
              rw [← this, nextSize_nbcast, hnb, Nat.add_assoc]
            obtain ⟨a1, g1, g2, g3, g4, g5⟩ := ih _ _ a0 (sameControl_nextSize _ _ q1) hr hrest
            refine ⟨(a1.1, Event.num_elements st1.size
                (numElements st1.size ((responderEnv e0 v1 T).mpi_type_size p)) ::
                ((sizeBody (responderEnv e0 v1 T) 1 p
                  (numElements st1.size ((responderEnv e0 v1 T).mpi_type_size p)) st1).2.1 ++
                  a1.2)), ?_, g2, ?_, ?_, ?_⟩
            · rw [sizeLoop_next _ _ _ _ _ hle1 hz1 (by rw [hne, q2]; exact hf2), hne, g1]; rfl
            · simp only [controlTrace_cons_num, controlTrace_append]; rw [hne, q3, g3, h2]
            · rw [hne]
              show A ([Event.num_elements st1.size
                  (numElements st0.size (e0.mpi_type_size p))] ++
                  ((sizeBody (responderEnv e0 v1 T) 1 p
                    (numElements st0.size (e0.mpi_type_size p)) st1).2.1 ++ a1.2))
                ([Event.num_elements st0.size
                  (numElements st0.size (e0.mpi_type_size p))] ++
                  ((sizeBody e0 0 p (numElements st0.size (e0.mpi_type_size p)) st0).2.1 ++
                    a0.2))
              rw [← h2]
              exact happ _ _ _ _ (hsame _) (happ _ _ _ _ (hbody _ _ _ hs hb0) g4)
            · simp only [bcastValues_cons_num, bcastValues_append, List.length_append]
              rw [g5, nextSize_nbcast, hnb]; omega
    · have hle1 : ¬ st1.size ≤ st1.options.max_message_size := by rw [← h1, ← h2]; exact hle
      rw [sizeLoop_done _ _ _ _ _ hle] at h
      simp only [Option.some.injEq] at h
      subst h
      exact ⟨(st1, []), sizeLoop_done _ _ _ _ _ hle1, hs, rfl, hnil, by simp [bcastValues]⟩

/-! ### The runs of `main` on the two ranks -/

theorem main_of_reachesSweep (fuel : Nat) (o : Options) (e : Env) (myid : Nat)
    (h : reachesSweep o e) :
    main fuel o e myid = mainSweep fuel o e myid (earlyMallocs o ++ [Event.mpi_init]) := by
  obtain ⟨c1, c2, c3, c4, c5⟩ := h
  unfold main
  rw [if_neg c1, if_neg c2, if_neg c3]
  simp only [c4]
  rw [if_neg c5]

theorem main_of_not_reachesSweep (fuel : Nat) (o : Options) (e : Env) (myid : Nat)
    (h : ¬ reachesSweep o e) :
    ∃ r, main fuel o e myid = some r ∧ (∀ ev ∈ r.trace, ev.isOuter = true) ∧
      r.final = initState o := by
  have hm := earlyMallocs_isOuter o
  unfold main
  split
  · refine ⟨_, rfl, ?_, rfl⟩
    intro ev hev; simp at hev
    rcases hev with h | h <;> subst h <;> rfl
  · rename_i c1
    split
    · refine ⟨_, rfl, ?_, rfl⟩
      intro ev hev; simp only [List.mem_append, List.mem_cons, List.mem_singleton,
        List.not_mem_nil, or_false] at hev
      rcases hev with h | h | h
      · exact hm ev h
      · subst h; rfl
      · subst h; rfl
    · rename_i c2
      split
      · refine ⟨_, rfl, ?_, rfl⟩
        intro ev hev; simp only [List.mem_append, List.mem_cons, List.mem_singleton,
          List.not_mem_nil, or_false] at hev
        rcases hev with h | h | h | h
        · exact hm ev h
        · subst h; rfl
        · subst h; rfl
        · subst h; rfl
      · rename_i c3
        have hpre : ∀ (l : List Event) (a b : Event), a.isOuter = true → b.isOuter = true →
            (∀ ev ∈ l, ev.isOuter = true) →
            ∀ ev ∈ (earlyMallocs o ++ [Event.mpi_init]) ++ l ++ [a, b], ev.isOuter = true := by
          intro l a b ha hb hl ev hev
          simp only [List.mem_append, List.mem_cons, List.mem_singleton,
            List.not_mem_nil, or_false] at hev
          rcases hev with ((h | h) | h) | h | h
          · exact hm ev h
          · subst h; rfl
          · exact hl ev h
          · subst h; exact ha
          · subst h; exact hb
        have hone : ∀ (a : Event), a.isOuter = true →
            ∀ ev ∈ (if myid = 0 then [a] else []), ev.isOuter = true := by
          intro a ha ev hev
          split at hev
          · simp at hev; subst hev; exact ha
          · simp at hev
        simp only
        split
        · exact ⟨_, rfl, hpre _ _ _ rfl rfl (hone _ rfl), rfl⟩
        · exact ⟨_, rfl, hpre _ _ _ rfl rfl (hone _ rfl), rfl⟩
        · rename_i hpo
          split
          · exact ⟨_, rfl, hpre _ _ _ rfl rfl (hone _ rfl), rfl⟩
          · rename_i hn
            exact absurd ⟨c1, c2, c3, hpo, hn⟩ h
        · exact ⟨_, rfl, hpre _ _ _ rfl rfl (hone _ rfl), rfl⟩

theorem mainSweep_filterMap {α : Type} (f : Event → Option α)
    (hf : ∀ ev, ev.isOuter = true → f ev = none) (fuel : Nat) (o : Options) (e : Env)
    (myid : Nat) (pre : List Event) (hpre : ∀ ev ∈ pre, ev.isOuter = true) (r : Outcome)
    (h : mainSweep fuel o e myid pre = some r) :
    ∃ pr, passLoop e myid fuel (cudaBufNum e o).omb_dtype_itr 0
        (initState (cudaBufNum e o)) = some pr ∧
      r.trace.filterMap f = pr.2.filterMap f ∧ r.final = pr.1 := by
  simp only [mainSweep] at h
  cases hp : passLoop e myid fuel (cudaBufNum e o).omb_dtype_itr 0
      (initState (cudaBufNum e o)) with
  | none => simp [hp] at h
  | some pr =>
    simp only [hp] at h
    refine ⟨pr, rfl, ?_⟩
    have h0 : pre.filterMap f = [] := filterMap_nil_of_forall f _ hf _ hpre
    have h1 : (if (cudaBufNum e o).buf_num = BufNum.SINGLE then [Event.allocate_memory_pt2pt]
        else []).filterMap f = [] := by
      split
      · simp [hf _ (show Event.allocate_memory_pt2pt.isOuter = true from rfl)]
      · rfl
    have h2 : (if pr.1.options.buf_num = BufNum.SINGLE then [Event.free_memory 0]
        else []).filterMap f = [] := by
      split
      · simp [hf _ (show (Event.free_memory 0).isOuter = true from rfl)]
      · rfl
    have h3 : f Event.print_preamble = none := hf _ rfl
    have h4 : f Event.mpi_finalize = none := hf _ rfl
    have h5 : ∀ s, f (Event.exit s) = none := fun s => hf _ rfl
    have h6 : f Event.stderr_cleanup_accel = none := hf _ rfl
    have h7 : ∀ s, f (Event.print_validation_error s) = none := fun s => hf _ rfl
    split at h
    · simp only [Option.some.injEq] at h; subst h
      simp [List.filterMap_append, h0, h1, h2, h3, h4, h5, h6]
    · split at h
      · simp only [Option.some.injEq] at h; subst h
        simp [List.filterMap_append, h0, h1, h2, h3, h4, h5, h7]
      · simp only [Option.some.injEq] at h; subst h
        simp [List.filterMap_append, h0, h1, h2, h3, h4, h5]

theorem mainSweep_isSome (fuel : Nat) (o : Options) (e : Env) (myid : Nat)
    (pre : List Event) (pr : State × List Event)
    (h : passLoop e myid fuel (cudaBufNum e o).omb_dtype_itr 0
      (initState (cudaBufNum e o)) = some pr) :
    ∃ r, mainSweep fuel o e myid pre = some r := by
  simp only [mainSweep, h]
  split
  · exact ⟨_, rfl⟩
  · split <;> exact ⟨_, rfl⟩

theorem passLoop_pair (A : List Event → List Event → Prop) (hnil : A [] [])
    (happ : ∀ a1 a0 b1 b0, A a1 a0 → A b1 b0 → A (a1 ++ b1) (a0 ++ b0))
    (hsame : ∀ ev, A [ev] [ev]) (e0 : Env)
    (v1 : Nat → Int → Nat → Nat → Nat) (T : List Event) (fuel : Nat)
    (hbody : ∀ p ne st0 st1, sameControl st0 st1 →
      (st0.options.validate = true →
        (responderEnv e0 v1 T).bcast_in st0.nbcast = sizeErrors e0 0 p ne st0) →
      A (sizeBody (responderEnv e0 v1 T) 1 p ne st1).2.1 (sizeBody e0 0 p ne st0).2.1)
    (hdatatype : ∀ p, A [] [Event.print_datatype p]) :
    ∀ n p st0 st1 r0, sameControl st0 st1 → passLoop e0 0 fuel n p st0 = some r0 →
      (∀ j, j < (bcastValues r0.2).length →
        (responderEnv e0 v1 T).bcast_in (st0.nbcast + j) = (bcastValues r0.2).getD j 0) →
      ∃ r1, passLoop (responderEnv e0 v1 T) 1 fuel n p st1 = some r1 ∧
        sameControl r0.1 r1.1 ∧ controlTrace r1.2 = controlTrace r0.2 ∧
        A r1.2 r0.2 ∧
        r0.1.nbcast = st0.nbcast + (bcastValues r0.2).length := by
  intro n
  induction n with
  | zero =>
    intro p st0 st1 r0 hs h _
    simp only [passLoop, Option.some.injEq] at h
    subst h
    exact ⟨(st1, []), rfl, hs, rfl, hnil, by simp [bcastValues]⟩
  | succ n ih =>
    intro p st0 st1 r0 hs h hb
    simp only [passLoop] at h
    cases ha : sizeLoop e0 0 p fuel (enterSweep st0) with
    | none => simp [ha] at h
    | some a0 =>
      simp only [ha] at h
      cases hr : passLoop e0 0 fuel n (p + 1) a0.1 with
      | none => simp [hr] at h
      | some b0 =>
        simp only [hr, Option.some.injEq] at h
        subst h
        have z1 : ∀ (c : Prop) [Decidable c],
            bcastValues (if c then [Event.print_datatype p] else []) = [] := by
          intro c _; split <;> rfl
        have z2 : bcastValues [Event.print_only_header] = [] := rfl
        have z3 : ∀ s, bcastValues [Event.sweep_left p s] = [] := fun _ => rfl
        simp only [bcastValues_append, z1, z2, z3, List.nil_append, List.append_nil,
          List.length_append] at hb
        obtain ⟨a1, f1, f2, f3, f4, f5⟩ := sizeLoop_pair A hnil happ hsame e0 v1 T p (hbody p)
          fuel (enterSweep st0)
          (enterSweep st1) a0 (sameControl_enterSweep _ _ hs) ha (by
            intro j hj
            have := hb j (by omega)
            rw [List.getD_append _ _ _ _ hj] at this
            simpa using this)
        obtain ⟨b1, g1, g2, g3, g4, g5⟩ := ih (p + 1) a0.1 a1.1 b0 f2 hr (by
          intro j hj
          have := hb ((bcastValues a0.2).length + j) (by omega)
          rw [List.getD_append_right _ _ _ _ (by omega)] at this
          simp only [Nat.add_sub_cancel_left] at this
          rw [← this, f5, enterSweep_nbcast, Nat.add_assoc])
        refine ⟨(b1.1, (if (1 : Nat) = 0 then [Event.print_datatype p] else []) ++
            [Event.print_only_header] ++ a1.2 ++ [Event.sweep_left p a1.1.size] ++ b1.2),
          ?_, g2, ?_, ?_, ?_⟩
        · simp only [passLoop, f1, g1]
        · simp only [controlTrace_append, f3, g3, f2.2.1]
          simp [controlTrace, Event.control]
        · rw [← f2.2.1]
          exact happ _ _ _ _ (happ _ _ _ _ (happ _ _ _ _ (happ _ _ _ _ (hdatatype p)
            (hsame _)) f4) (hsame _)) g4
        · simp only [bcastValues_append, z1, z2, z3, List.nil_append, List.append_nil,
            List.length_append]
          rw [g5, f5, enterSweep_nbcast]; omega

/-- C8 (as stated, refuted): with three processes rank 0 has already made the
three `malloc` calls of lines 95-106 (the two pointer tables and the latency
series) when it reaches the participant check and exits. -/
theorem wrong_peer_count_after_malloc :
    (main 32 tailOptions threeEnv 0).map (fun r => (r.status, r.trace)) =
      some (EXIT_FAILURE,
        [Event.malloc_s_buf 2, Event.malloc_r_buf 2, Event.malloc_lat_arr 2, Event.mpi_init,
          Event.stderr_two_processes, Event.mpi_finalize, Event.exit EXIT_FAILURE]) ∧
    (Event.malloc_s_buf 2).isAllocation = true ∧
    (Event.malloc_lat_arr 2).isAllocation = true := by
  refine ⟨rfl, rfl, rfl⟩

/-- C8 (amended): when the options are parsed successfully and the number of
processes is not 2, `main` returns with `EXIT_FAILURE` without allocating any
message buffer (`allocate_memory_pt2pt`, `allocate_memory_pt2pt_size`) and
without posting any send or receive, and only rank 0 prints the message that
the test requires exactly two processes. When no set-up step fails, the calls
made are exactly: the `malloc` calls of lines 95-106, the MPI start-up, the
message on rank 0, `omb_mpi_finalize` and `exit(EXIT_FAILURE)`. -/
theorem wrong_peer_count_exits (fuel : Nat) (o : Options) (e : Env) (myid : Nat)
    (hpo : e.po_ret = PoRet.PO_OKAY) (hn : e.numprocs ≠ 2) :
    ∃ r, main fuel o e myid = some r ∧ r.status = EXIT_FAILURE ∧
      (∀ ev ∈ r.trace, ev.isBufferAllocation = false ∧ ev.isTransfer = false) ∧
      (Event.stderr_two_processes ∈ r.trace → myid = 0) ∧
      (¬ (o.accel_none = false ∧ e.init_accel_fails = true) →
        ¬ (o.omb_tail_lat = true ∧ e.lat_arr_null = true) → e.comm_null = false →
        r.trace = earlyMallocs o ++ [Event.mpi_init] ++
          (if myid = 0 then [Event.stderr_two_processes] else []) ++
          [Event.mpi_finalize, Event.exit EXIT_FAILURE]) := by
  have hnr : ¬ reachesSweep o e := fun h => h.2.2.2.2 hn
  obtain ⟨r, h1, h2, _⟩ := main_of_not_reachesSweep fuel o e myid hnr
  have hm := earlyMallocs_isOuter o
  have hno : ∀ ev ∈ earlyMallocs o, ev ≠ Event.stderr_two_processes ∧
      ev ≠ Event.allocate_memory_pt2pt := by
    intro ev hev
    simp only [earlyMallocs, List.mem_append] at hev
    rcases hev with hev | hev
    · split at hev <;> simp at hev <;> rcases hev with h | h <;> subst h <;> simp
    · split at hev
      · simp at hev; subst hev; simp
      · simp at hev
  refine ⟨r, h1, ?_, ?_, ?_, ?_⟩
  · unfold main at h1
    split at h1
    · simp only [Option.some.injEq] at h1; subst h1; rfl
    · split at h1
      · simp only [Option.some.injEq] at h1; subst h1; rfl
      · split at h1
        · simp only [Option.some.injEq] at h1; subst h1; rfl
        · simp only [hpo, hn, ne_eq, not_false_eq_true, if_true, Option.some.injEq] at h1
          subst h1; rfl
  · intro ev hev
    have hout := h2 ev hev
    refine ⟨?_, by cases ev <;> first | rfl | simp [Event.isOuter] at hout⟩
    unfold main at h1
    have hmal : ∀ ev ∈ earlyMallocs o, ev.isBufferAllocation = false := by
      intro ev hev
      have a := (hno ev hev).2
      have b := hm ev hev
      cases ev <;> first | rfl | exact absurd rfl a | simp [Event.isOuter] at b
    split at h1
    · simp only [Option.some.injEq] at h1; subst h1
      simp at hev; rcases hev with h | h <;> subst h <;> rfl
    · split at h1
      · simp only [Option.some.injEq] at h1; subst h1
        simp only [List.mem_append, List.mem_cons, List.mem_singleton, List.not_mem_nil,
          or_false] at hev
        rcases hev with h | h | h
        · exact hmal ev h
        · subst h; rfl
        · subst h; rfl
      · split at h1
        · simp only [Option.some.injEq] at h1; subst h1
          simp only [List.mem_append, List.mem_cons, List.mem_singleton, List.not_mem_nil,
            or_false] at hev
          rcases hev with h | h | h | h
          · exact hmal ev h
          · subst h; rfl
          · subst h; rfl
          · subst h; rfl
        · simp only [hpo, hn, ne_eq, not_false_eq_true, if_true, Option.some.injEq] at h1
          subst h1
          simp only [List.mem_append, List.mem_cons, List.mem_singleton, List.not_mem_nil,
            or_false] at hev
          rcases hev with ((h | h) | h) | h | h
          · exact hmal ev h
          · subst h; rfl
          · split at h
            · simp at h; subst h; rfl
            · simp at h
          · subst h; rfl
          · subst h; rfl
  · intro hev
    unfold main at h1
    split at h1
    · simp only [Option.some.injEq] at h1; subst h1
      simp at hev
    · split at h1
      · simp only [Option.some.injEq] at h1; subst h1
        simp only [List.mem_append, List.mem_cons, List.mem_singleton, List.not_mem_nil,
          or_false] at hev
        rcases hev with h | h | h
        · exact absurd rfl (hno _ h).1
        · simp at h
        · simp at h
      · split at h1
        · simp only [Option.some.injEq] at h1; subst h1
          simp only [List.mem_append, List.mem_cons, List.mem_singleton, List.not_mem_nil,
            or_false] at hev
          rcases hev with h | h | h | h
          · exact absurd rfl (hno _ h).1
          · simp at h
          · simp at h
          · simp at h
        · simp only [hpo, hn, ne_eq, not_false_eq_true, if_true, Option.some.injEq] at h1
          subst h1
          simp only [List.mem_append, List.mem_cons, List.mem_singleton, List.not_mem_nil,
            or_false] at hev
          rcases hev with ((h | h) | h) | h | h
          · exact absurd rfl (hno _ h).1
          · simp at h
          · split at h
            · assumption
            · simp at h
          · simp at h
          · simp at h
  · intro c1 c2 c3
    unfold main at h1
    rw [if_neg (fun h => c1 h.2), if_neg c2, if_neg (by simp [c3])] at h1
    simp only [hpo, hn, ne_eq, not_false_eq_true, if_true, Option.some.injEq] at h1
    subst h1; rfl

/-- Witness for C8: three processes, options parsed, nothing else fails. -/
theorem wrong_peer_count_exits_witness :
    ∃ r, main 32 tailOptions threeEnv 1 = some r ∧ r.status = EXIT_FAILURE ∧
      (∀ ev ∈ r.trace, ev.isBufferAllocation = false ∧ ev.isTransfer = false) ∧
      (Event.stderr_two_processes ∈ r.trace → (1 : Nat) = 0) :=
  (wrong_peer_count_exits 32 tailOptions threeEnv 1 rfl (by decide)).elim
    fun r h => ⟨r, h.1, h.2.1, h.2.2.1, h.2.2.2.1⟩

/-- C9 (the code at the failing input): two datatype passes over the sizes 1,
2 and 4 with validation on, and mismatches at size 4 of the first pass only.
The first pass leaves its sweep at size 4. The second pass starts again at
size 1 with the counter still positive, stops after one exchange and leaves
its sweep at size 1. Rank 0 exits with `EXIT_FAILURE` and the
`DATA VALIDATION ERROR` line names size 1, at which no mismatch was recorded,
instead of size 4. -/
theorem validation_error_names_last_size :
    (main 32 twoPassValidating corruptAtFour 0).map
        (fun r => (r.status, recordedFailures r.trace, reportedSizes r.trace)) =
      some (EXIT_FAILURE, [4], [1]) ∧
    (main 32 twoPassValidating corruptAtFour 0).map
        (fun r => (sweepsLeft r.trace, exchangeCounts r.trace)) =
      some ([(0, 4), (1, 1)], [(1, 2), (2, 2), (4, 1), (1, 1)]) := by
  decide

/-! ### Runs that differ in the outcome of the telemetry calls -/

theorem benchmark_nil_of_isTelemetry (l : List Event) (h : ∀ ev ∈ l, ev.isTelemetry = true) :
    l.filterMap Event.benchmark = [] :=
  filterMap_nil_of_forall _ (fun ev => ev.isTelemetry = true)
    (by intro ev hev; simp [Event.benchmark, hev]) l h

theorem kPass_withChrono (o : Options) (e : Env) (c : Nat → Int → Nat → ChronoEnv)
    (myid p : Nat) (size : Int) (ne tr : Nat) (t_lo : ℚ) (i k : Nat) (t : ℚ) :
    (kPass o (withChrono e c) myid p size ne tr t_lo i k t).1 =
        (kPass o e myid p size ne tr t_lo i k t).1 ∧
      (kPass o (withChrono e c) myid p size ne tr t_lo i k t).2.filterMap Event.benchmark =
        (kPass o e myid p size ne tr t_lo i k t).2.filterMap Event.benchmark := by
  simp only [kPass]
  split
  · split
    · refine ⟨rfl, ?_⟩
      simp only [List.filterMap_append,
        benchmark_nil_of_isTelemetry _ (chrono_isTelemetry _ _)]
      rfl
    · exact ⟨rfl, rfl⟩
  · exact ⟨rfl, rfl⟩

theorem iterBody_withChrono (o : Options) (e : Env) (c : Nat → Int → Nat → ChronoEnv)
    (myid p : Nat) (size : Int) (ne tr : Nat) (t_lo : ℚ) (i : Nat) (s : IterSt) :
    (iterBody o (withChrono e c) myid p size ne tr t_lo i s).1 =
        (iterBody o e myid p size ne tr t_lo i s).1 ∧
      (iterBody o (withChrono e c) myid p size ne tr t_lo i s).2.2 =
        (iterBody o e myid p size ne tr t_lo i s).2.2 ∧
      (iterBody o (withChrono e c) myid p size ne tr t_lo i s).2.1.filterMap Event.benchmark =
        (iterBody o e myid p size ne tr t_lo i s).2.1.filterMap Event.benchmark := by
  obtain ⟨h1, h2⟩ := forLoop_sim (kPass o (withChrono e c) myid p size ne tr t_lo i)
    (kPass o e myid p size ne tr t_lo i) (fun a b => a = b) Event.benchmark
    (by
      intro k s0 s1 hs
      subst hs
      exact kPass_withChrono o e c myid p size ne tr t_lo i k s0)
    (o.warmup_validation + 1) 0 s.t_total s.t_total rfl
  have h3 : validatePass o (withChrono e c) p size i s.errors =
      validatePass o e p size i s.errors := rfl
  simp only [iterBody, h3]
  split
  · refine ⟨by rw [h1], rfl, ?_⟩
    simp only [List.filterMap_append, h2]
  · refine ⟨by rw [h1], rfl, ?_⟩
    simp only [List.filterMap_append, h2]

theorem iterLoop_withChrono (o : Options) (e : Env) (c : Nat → Int → Nat → ChronoEnv)
    (myid p : Nat) (size : Int) (ne tr : Nat) (t_lo : ℚ) (errors : Nat) :
    (iterLoop o (withChrono e c) myid p size ne tr t_lo errors).1 =
        (iterLoop o e myid p size ne tr t_lo errors).1 ∧
      (iterLoop o (withChrono e c) myid p size ne tr t_lo errors).2.filterMap Event.benchmark =
        (iterLoop o e myid p size ne tr t_lo errors).2.filterMap Event.benchmark := by
  refine forLoopBreak_sim _ _ (fun (a b : IterSt) => a = b) Event.benchmark ?_ _ _ _ _ rfl
  intro k s0 s1 hs
  subst hs
  exact iterBody_withChrono o e c myid p size ne tr t_lo k s0

theorem sizeBody_withChrono (e : Env) (c : Nat → Int → Nat → ChronoEnv)
    (myid p ne : Nat) (st : State) :
    (sizeBody (withChrono e c) myid p ne st).1 = (sizeBody e myid p ne st).1 ∧
      (sizeBody (withChrono e c) myid p ne st).2.2 = (sizeBody e myid p ne st).2.2 ∧
      (sizeBody (withChrono e c) myid p ne st).2.1.filterMap Event.benchmark =
        (sizeBody e myid p ne st).2.1.filterMap Event.benchmark := by
  have hi : (sizeIter (withChrono e c) myid p ne st).1 = (sizeIter e myid p ne st).1 ∧
      (sizeIter (withChrono e c) myid p ne st).2.filterMap Event.benchmark =
        (sizeIter e myid p ne st).2.filterMap Event.benchmark :=
    iterLoop_withChrono _ e c myid p st.size _ _ _ st.errors
  have herr : sizeErrors (withChrono e c) myid p ne st = sizeErrors e myid p ne st := by
    unfold sizeErrors
    rw [hi.1]; rfl
  have hrow : sizeRow (withChrono e c) myid p ne st = sizeRow e myid p ne st := by
    unfold sizeRow
    rw [hi.1]; rfl
  have hl : largeSwitch (withChrono e c) st.size st.options =
      largeSwitch e st.size st.options := rfl
  have ht : sizeTlo (withChrono e c) st = sizeTlo e st := rfl
  refine ⟨?_, ?_, ?_⟩
  · simp only [sizeBody, herr, hi.1, hl, ht]
  · simp only [sizeBody, herr]
  · simp only [sizeBody, List.filterMap_append, herr, hrow, hi.2]

theorem sizeLoop_withChrono (e : Env) (c : Nat → Int → Nat → ChronoEnv) (myid p : Nat) :
    ∀ fuel st,
      (sizeLoop (withChrono e c) myid p fuel st).map
          (fun r => (r.1, r.2.filterMap Event.benchmark)) =
        (sizeLoop e myid p fuel st).map (fun r => (r.1, r.2.filterMap Event.benchmark)) := by
  intro fuel
  induction fuel with
  | zero => intro st; rfl
  | succ fuel ih =>
    intro st
    have hty : (withChrono e c).mpi_type_size p = e.mpi_type_size p := rfl
    by_cases hle : st.size ≤ st.options.max_message_size
    · by_cases hz : numElements st.size (e.mpi_type_size p) = 0
      · rw [sizeLoop_skip _ _ _ _ _ hle (by rw [hty]; exact hz), sizeLoop_skip _ _ _ _ _ hle hz]
        have := ih (nextSize st)
        cases h1 : sizeLoop (withChrono e c) myid p fuel (nextSize st) <;>
          cases h2 : sizeLoop e myid p fuel (nextSize st) <;>
          simp only [h1, h2, Option.map_some', Option.map_none', Option.some.injEq,
            reduceCtorEq] at this ⊢
        obtain ⟨a, b⟩ := Prod.mk.inj this
        simp [a, b, Event.benchmark, Event.isTelemetry]
      · obtain ⟨q1, q2, q3⟩ := sizeBody_withChrono e c myid p
          (numElements st.size (e.mpi_type_size p)) st
        by_cases hf : (sizeBody e myid p (numElements st.size (e.mpi_type_size p)) st).2.2
            = true
        · rw [sizeLoop_break _ _ _ _ _ hle (by rw [hty]; exact hz) (by rw [hty, q2]; exact hf),
            sizeLoop_break _ _ _ _ _ hle hz hf]
          simp only [Option.map_some', Option.some.injEq, hty, q1, List.filterMap_cons, q3]
        · have hf2 : (sizeBody e myid p (numElements st.size (e.mpi_type_size p)) st).2.2
              = false := by simpa using hf
          rw [sizeLoop_next _ _ _ _ _ hle (by rw [hty]; exact hz) (by rw [hty, q2]; exact hf2),
            sizeLoop_next _ _ _ _ _ hle hz hf2]
          have := ih (nextSize (sizeBody e myid p
            (numElements st.size (e.mpi_type_size p)) st).1)
          simp only [hty, q1]
          cases h1 : sizeLoop (withChrono e c) myid p fuel (nextSize (sizeBody e myid p
              (numElements st.size (e.mpi_type_size p)) st).1) <;>
            cases h2 : sizeLoop e myid p fuel (nextSize (sizeBody e myid p
              (numElements st.size (e.mpi_type_size p)) st).1) <;>
            simp only [h1, h2, Option.map_some', Option.map_none', Option.some.injEq,
              reduceCtorEq] at this ⊢
          obtain ⟨a, b⟩ := Prod.mk.inj this
          simp [a, b, q3, Event.benchmark, Event.isTelemetry]
    · rw [sizeLoop_done _ _ _ _ _ hle, sizeLoop_done _ _ _ _ _ hle]

theorem passLoop_withChrono (e : Env) (c : Nat → Int → Nat → ChronoEnv) (myid fuel : Nat) :
    ∀ n p st,
      (passLoop (withChrono e c) myid fuel n p st).map
          (fun r => (r.1, r.2.filterMap Event.benchmark)) =
        (passLoop e myid fuel n p st).map (fun r => (r.1, r.2.filterMap Event.benchmark)) := by
  intro n
  induction n with
  | zero => intro p st; rfl
  | succ n ih =>
    intro p st
    have hs := sizeLoop_withChrono e c myid p fuel (enterSweep st)
    simp only [passLoop]
    cases h1 : sizeLoop (withChrono e c) myid p fuel (enterSweep st) <;>
      cases h2 : sizeLoop e myid p fuel (enterSweep st) <;>
      simp only [h1, h2, Option.map_some', Option.map_none', Option.some.injEq,
        reduceCtorEq] at hs ⊢
    rename_i a1 a0
    obtain ⟨x, y⟩ := Prod.mk.inj hs
    have hp := ih (p + 1) a0.1
    rw [x]
    cases h3 : passLoop (withChrono e c) myid fuel n (p + 1) a0.1 <;>
      cases h4 : passLoop e myid fuel n (p + 1) a0.1 <;>
      simp only [h3, h4, Option.map_some', Option.map_none', Option.some.injEq,
        reduceCtorEq] at hp ⊢
    obtain ⟨u, v⟩ := Prod.mk.inj hp
    simp only [List.filterMap_append, u, v, y, x]

/-! ### Properties of a run that are closed under concatenation -/

theorem closed_of_forall (C : List Event → Prop) (hnil : C [])
    (happ : ∀ l1 l2, C l1 → C l2 → C (l1 ++ l2)) (P : Event → Prop)
    (hone : ∀ ev, P ev → C [ev]) : ∀ l : List Event, (∀ ev ∈ l, P ev) → C l := by
  intro l
  induction l with
  | nil => intro _; exact hnil
  | cons a l ih =>
    intro h
    have h1 : C [a] := hone a (h a (List.mem_cons_self _ _))
    have h2 : C l := ih (fun ev hev => h ev (List.mem_cons_of_mem _ hev))
    exact happ [a] l h1 h2

theorem sizeLoop_closed (C : List Event → Prop) (hnil : C [])
    (happ : ∀ l1 l2, C l1 → C l2 → C (l1 ++ l2)) (e : Env) (myid p : Nat)
    (hbody : ∀ ne st, C (sizeBody e myid p ne st).2.1)
    (hnum : ∀ s n, C [Event.num_elements s n]) :
    ∀ fuel st r, sizeLoop e myid p fuel st = some r → C r.2 := by
  intro fuel
  induction fuel with
  | zero => intro st r h; simp [sizeLoop] at h
  | succ fuel ih =>
    intro st r h
    by_cases hle : st.size ≤ st.options.max_message_size
    · by_cases hz : numElements st.size (e.mpi_type_size p) = 0
      · rw [sizeLoop_skip _ _ _ _ _ hle hz] at h
        cases hr : sizeLoop e myid p fuel (nextSize st) with
        | none => simp [hr] at h
        | some r1 =>
          simp only [hr, Option.map_some', Option.some.injEq] at h
          subst h
          exact happ [_] _ (hnum _ _) (ih _ r1 hr)
      · by_cases hf : (sizeBody e myid p (numElements st.size (e.mpi_type_size p)) st).2.2
            = true
        · rw [sizeLoop_break _ _ _ _ _ hle hz hf] at h
          simp only [Option.some.injEq] at h
          subst h
          exact happ [_] _ (hnum _ _) (hbody _ _)
        · have hf2 : (sizeBody e myid p (numElements st.size (e.mpi_type_size p)) st).2.2
              = false := by simpa using hf
          rw [sizeLoop_next _ _ _ _ _ hle hz hf2] at h
          cases hr : sizeLoop e myid p fuel
              (nextSize (sizeBody e myid p (numElements st.size (e.mpi_type_size p)) st).1) with
          | none => simp [hr] at h
          | some r1 =>
            simp only [hr, Option.map_some', Option.some.injEq] at h
            subst h
            exact happ [_] _ (hnum _ _) (happ _ _ (hbody _ _) (ih _ r1 hr))
    · rw [sizeLoop_done _ _ _ _ _ hle] at h
      simp only [Option.some.injEq] at h
      subst h
      exact hnil

theorem passLoop_closed (C : List Event → Prop) (hnil : C [])
    (happ : ∀ l1 l2, C l1 → C l2 → C (l1 ++ l2)) (e : Env) (myid fuel : Nat)
    (hbody : ∀ p ne st, C (sizeBody e myid p ne st).2.1)
    (hnum : ∀ s n, C [Event.num_elements s n])
    (hsweep : ∀ p s, C [Event.sweep_left p s])
    (houter : ∀ ev, ev.isOuter = true → C [ev]) :
    ∀ n p st r, passLoop e myid fuel n p st = some r → C r.2 := by
  intro n
  induction n with
  | zero =>
    intro p st r h
    simp only [passLoop, Option.some.injEq] at h
    subst h
    exact hnil
  | succ n ih =>
    intro p st r h
    simp only [passLoop] at h
    cases ha : sizeLoop e myid p fuel (enterSweep st) with
    | none => simp [ha] at h
    | some a =>
      simp only [ha] at h
      cases hb : passLoop e myid fuel n (p + 1) a.1 with
      | none => simp [hb] at h
      | some b =>
        simp only [hb, Option.some.injEq] at h
        subst h
        have h1 : C (if myid = 0 then [Event.print_datatype p] else []) := by
          split
          · exact houter _ rfl
          · exact hnil
        exact happ _ _ (happ _ _ (happ _ _ (happ _ _ h1 (houter _ rfl))
          (sizeLoop_closed C hnil happ e myid p (hbody p) hnum fuel _ a ha)) (hsweep _ _))
          (ih _ _ b hb)

theorem main_closed (C : List Event → Prop) (hnil : C [])
    (happ : ∀ l1 l2, C l1 → C l2 → C (l1 ++ l2)) (fuel : Nat) (o : Options) (e : Env)
    (myid : Nat) (hbody : ∀ p ne st, C (sizeBody e myid p ne st).2.1)
    (hnum : ∀ s n, C [Event.num_elements s n])
    (hsweep : ∀ p s, C [Event.sweep_left p s])
    (houter : ∀ ev, ev.isOuter = true → C [ev]) (r : Outcome)
    (h : main fuel o e myid = some r) : C r.trace := by
  have hout := closed_of_forall C hnil happ (fun ev => ev.isOuter = true) houter
  by_cases hreach : reachesSweep o e
  · rw [main_of_reachesSweep _ _ _ _ hreach] at h
    simp only [mainSweep] at h
    cases hp : passLoop e myid fuel (cudaBufNum e o).omb_dtype_itr 0
        (initState (cudaBufNum e o)) with
    | none => simp [hp] at h
    | some pr =>
      simp only [hp] at h
      have hpre : C (earlyMallocs o ++ [Event.mpi_init]) :=
        happ _ _ (hout _ (earlyMallocs_isOuter o)) (houter _ rfl)
      have h1 : C (if (cudaBufNum e o).buf_num = BufNum.SINGLE then
          [Event.allocate_memory_pt2pt] else []) := by
        split
        · exact houter _ rfl
        · exact hnil
      have h2 : C (if pr.1.options.buf_num = BufNum.SINGLE then [Event.free_memory 0]
          else []) := by
        split
        · exact houter _ rfl
        · exact hnil
      have hcommon := happ _ _ (happ _ _ (happ _ _ (happ _ _ (happ _ _ hpre h1)
        (houter Event.print_preamble rfl))
        (passLoop_closed C hnil happ e myid fuel hbody hnum hsweep houter _ _ _ pr hp)) h2)
        (houter Event.mpi_finalize rfl)
      split at h
      · simp only [Option.some.injEq] at h; subst h
        exact happ _ _ hcommon (happ [_] [_] (houter _ rfl) (houter _ rfl))
      · split at h
        · simp only [Option.some.injEq] at h; subst h
          exact happ _ _ hcommon (happ [_] [_] (houter _ rfl) (houter _ rfl))
        · simp only [Option.some.injEq] at h; subst h
          exact happ _ _ hcommon (houter _ rfl)
  · obtain ⟨r1, a1, a2, _⟩ := main_of_not_reachesSweep fuel o e myid hreach
    rw [h] at a1
    simp only [Option.some.injEq] at a1
    subst a1
    exact hout _ a2

theorem mainSweep_withChrono (fuel : Nat) (o : Options) (e : Env)
    (c : Nat → Int → Nat → ChronoEnv) (myid : Nat) (pre : List Event) :
    (mainSweep fuel o (withChrono e c) myid pre).map benchmarkView =
      (mainSweep fuel o e myid pre).map benchmarkView := by
  have hp := passLoop_withChrono e c myid fuel (cudaBufNum e o).omb_dtype_itr 0
    (initState (cudaBufNum e o))
  have hc : cudaBufNum (withChrono e c) o = cudaBufNum e o := rfl
  have hf : (withChrono e c).cleanup_accel_fails = e.cleanup_accel_fails := rfl
  simp only [mainSweep, hc, hf]
  cases h1 : passLoop (withChrono e c) myid fuel (cudaBufNum e o).omb_dtype_itr 0
      (initState (cudaBufNum e o)) <;>
    cases h2 : passLoop e myid fuel (cudaBufNum e o).omb_dtype_itr 0
      (initState (cudaBufNum e o)) <;>
    simp only [h1, h2, Option.map_some', Option.map_none', Option.some.injEq,
      reduceCtorEq] at hp ⊢
  rename_i a1 a0
  obtain ⟨x, y⟩ := Prod.mk.inj hp
  rw [x]
  split
  · simp only [Option.map_some', benchmarkView, List.filterMap_append, y]
  · split
    · simp only [Option.map_some', benchmarkView, List.filterMap_append, y]
    · simp only [Option.map_some', benchmarkView, List.filterMap_append, y]

theorem main_withChrono (fuel : Nat) (o : Options) (e : Env)
    (c : Nat → Int → Nat → ChronoEnv) (myid : Nat) :
    (main fuel o (withChrono e c) myid).map benchmarkView =
      (main fuel o e myid).map benchmarkView := by
  by_cases hreach : reachesSweep o e
  · have hreach1 : reachesSweep o (withChrono e c) := hreach
    rw [main_of_reachesSweep _ _ _ _ hreach, main_of_reachesSweep _ _ _ _ hreach1]
    exact mainSweep_withChrono fuel o e c myid _
  · have h : main fuel o (withChrono e c) myid = main fuel o e myid := by
      unfold main
      simp only [show (withChrono e c).po_ret = e.po_ret from rfl,
        show (withChrono e c).init_accel_fails = e.init_accel_fails from rfl,
        show (withChrono e c).lat_arr_null = e.lat_arr_null from rfl,
        show (withChrono e c).comm_null = e.comm_null from rfl,
        show (withChrono e c).numprocs = e.numprocs from rfl]
      split
      · rfl
      · rename_i c1
        split
        · rfl
        · rename_i c2
          split
          · rfl
          · rename_i c3
            split
            · rfl
            · rfl
            · rename_i hpo
              split
              · rfl
              · rename_i hn
                exact absurd ⟨c1, c2, c3, hpo, hn⟩ hreach
            · rfl
    rw [h]

/-! ### The `chrono` calls of a run -/

theorem forLoop_closed {σ : Type} (C : List Event → Prop) (hnil : C [])
    (happ : ∀ l1 l2, C l1 → C l2 → C (l1 ++ l2)) (body : Nat → σ → σ × List Event)
    (h : ∀ k s, C (body k s).2) : ∀ n k s, C (forLoop body n k s).2 := by
  intro n
  induction n with
  | zero => intro k s; exact hnil
  | succ n ih => intro k s; exact happ _ _ (h k s) (ih _ _)

theorem forLoopBreak_closed {σ : Type} (C : List Event → Prop) (hnil : C [])
    (happ : ∀ l1 l2, C l1 → C l2 → C (l1 ++ l2)) (body : Nat → σ → σ × List Event × Bool)
    (h : ∀ k s, C (body k s).2.1) : ∀ n k s, C (forLoopBreak body n k s).2 := by
  intro n
  induction n with
  | zero => intro k s; exact hnil
  | succ n ih =>
    intro k s
    simp only [forLoopBreak]
    split
    · exact h k s
    · exact happ _ _ (h k s) (ih _ _)

theorem chronoFollows_nil : chronoFollows [] := rfl

theorem chronoFollows_append (l1 l2 : List Event) (h1 : chronoFollows l1)
    (h2 : chronoFollows l2) : chronoFollows (l1 ++ l2) := by
  unfold chronoFollows at h1 h2 ⊢
  simp only [timingCalls, accumulatedTotals, List.filterMap_append, List.flatMap_append] at h1 h2 ⊢
  rw [h1, h2]

theorem chronoFollows_of_not_isTiming (l : List Event) (h : ∀ ev ∈ l, ev.isTiming = false) :
    chronoFollows l := by
  have h1 : timingCalls l = [] :=
    filterMap_nil_of_forall _ (fun ev => ev.isTiming = false)
      (by intro ev hev; cases ev <;> first | rfl | simp [Event.isTiming] at hev) l h
  have h2 : accumulatedTotals l = [] :=
    filterMap_nil_of_forall _ (fun ev => ev.isTiming = false)
      (by intro ev hev; cases ev <;> first | rfl | simp [Event.isTiming] at hev) l h
  unfold chronoFollows
  rw [h1, h2]; rfl

theorem not_isTiming_of_isTransfer (ev : Event) (h : ev.isTransfer = true) :
    ev.isTiming = false := by
  cases ev <;> first | rfl | simp [Event.isTransfer] at h

theorem not_isTiming_of_isTelemetry (ev : Event) (h : ev.isTelemetry = true) :
    ev.isTiming = false := by
  cases ev <;> first | rfl | simp [Event.isTelemetry] at h

theorem not_isTiming_of_isValidation (ev : Event) (h : ev.isValidation = true) :
    ev.isTiming = false := by
  cases ev <;> first | rfl | simp [Event.isValidation] at h

theorem not_isTiming_of_isBufferCall (ev : Event) (h : ev.isBufferCall = true) :
    ev.isTiming = false := by
  cases ev <;> first | rfl | simp [Event.isBufferCall] at h

theorem not_isTiming_of_isOuter (ev : Event) (h : ev.isOuter = true) :
    ev.isTiming = false := by
  cases ev <;> first | rfl | simp [Event.isOuter] at h

theorem not_isTelemetry_of_isTransfer (ev : Event) (h : ev.isTransfer = true) :
    ev.isTelemetry = false := by
  cases ev <;> first | rfl | simp [Event.isTransfer] at h

theorem not_isTelemetry_of_isValidation (ev : Event) (h : ev.isValidation = true) :
    ev.isTelemetry = false := by
  cases ev <;> first | rfl | simp [Event.isValidation] at h

theorem not_isTelemetry_of_isBufferCall (ev : Event) (h : ev.isBufferCall = true) :
    ev.isTelemetry = false := by
  cases ev <;> first | rfl | simp [Event.isBufferCall] at h

theorem not_isTelemetry_of_isOuter (ev : Event) (h : ev.isOuter = true) :
    ev.isTelemetry = false := by
  cases ev <;> first | rfl | simp [Event.isOuter] at h

theorem sizeAlloc_isBufferCall (st : State) : ∀ ev ∈ sizeAlloc st, ev.isBufferCall = true := by
  intro ev hev
  simp only [sizeAlloc] at hev
  split at hev
  · simp at hev
    rcases hev with ⟨j, _, h⟩ | ⟨j, _, h⟩ <;> subst h <;> rfl
  · simp at hev; subst hev; rfl

theorem sizeFree_isBufferCall (st : State) : ∀ ev ∈ sizeFree st, ev.isBufferCall = true := by
  intro ev hev
  simp only [sizeFree] at hev
  split at hev
  · simp at hev
    rcases hev with ⟨j, _, h⟩
    subst h; rfl
  · simp at hev

theorem kPass_chronoFollows (o : Options) (e : Env) (myid p : Nat) (size : Int)
    (ne tr : Nat) (t_lo : ℚ) (i k : Nat) (t : ℚ) :
    chronoFollows (kPass o e myid p size ne tr t_lo i k t).2 := by
  have hx : chronoFollows (exchange o myid ne) :=
    chronoFollows_of_not_isTiming _
      (fun ev h => not_isTiming_of_isTransfer ev (exchange_isTransfer o myid ne ev h))
  simp only [kPass]
  split
  · split
    · refine chronoFollows_append _ _ (chronoFollows_append _ _ (chronoFollows_append _ _
        (chronoFollows_append _ _ ?_ hx) ?_) ?_) ?_
      · exact chronoFollows_of_not_isTiming _ (by intro ev h; simp at h; subst h; rfl)
      · rfl
      · exact chronoFollows_of_not_isTiming _
          (fun ev h => not_isTiming_of_isTelemetry ev (chrono_isTelemetry _ _ ev h))
      · split
        · exact chronoFollows_of_not_isTiming _ (by intro ev h; simp at h; subst h; rfl)
        · exact chronoFollows_nil
    · exact hx
  · exact hx

theorem iterLoop_chronoFollows (o : Options) (e : Env) (myid p : Nat) (size : Int)
    (ne tr : Nat) (t_lo : ℚ) (errors : Nat) :
    chronoFollows (iterLoop o e myid p size ne tr t_lo errors).2 := by
  refine forLoopBreak_closed chronoFollows chronoFollows_nil chronoFollows_append _ ?_ _ _ _
  intro k s
  have hset : chronoFollows (setValidation o size k) :=
    chronoFollows_of_not_isTiming _
      (fun ev h => not_isTiming_of_isValidation ev (setValidation_isValidation o size k ev h))
  have hval : chronoFollows (validatePass o e p size k s.errors).2 :=
    chronoFollows_of_not_isTiming _
      (fun ev h => not_isTiming_of_isValidation ev
        (validatePass_isValidation o e p size k s.errors ev h))
  have hk := forLoop_closed chronoFollows chronoFollows_nil chronoFollows_append
    (kPass o e myid p size ne tr t_lo k)
    (fun k1 s1 => kPass_chronoFollows o e myid p size ne tr t_lo k k1 s1)
    (o.warmup_validation + 1) 0 s.t_total
  simp only [iterBody]
  split
  · exact chronoFollows_append _ _ (chronoFollows_append _ _ hset hk) hval
  · exact chronoFollows_append _ _ hset hk

theorem sizeBody_chronoFollows (e : Env) (myid p ne : Nat) (st : State) :
    chronoFollows (sizeBody e myid p ne st).2.1 := by
  have h1 : chronoFollows (sizeAlloc st) := chronoFollows_of_not_isTiming _
    (fun ev h => not_isTiming_of_isBufferCall ev (sizeAlloc_isBufferCall st ev h))
  have h2 : chronoFollows (sizeFree st) := chronoFollows_of_not_isTiming _
    (fun ev h => not_isTiming_of_isBufferCall ev (sizeFree_isBufferCall st ev h))
  have h3 : chronoFollows (sizeIter e myid p ne st).2 := iterLoop_chronoFollows _ _ _ _ _ _ _ _ _
  have h4 : chronoFollows (sizeRow e myid p ne st) := by
    unfold sizeRow
    split
    · rfl
    · rfl
  simp only [sizeBody]
  refine chronoFollows_append _ _ (chronoFollows_append _ _ (chronoFollows_append _ _
    (chronoFollows_append _ _ (chronoFollows_append _ _ (chronoFollows_append _ _ ?_ h1) ?_)
    h3) h4) h2) ?_
  · rfl
  · rfl
  · split <;> rfl

theorem main_chronoFollows (fuel : Nat) (o : Options) (e : Env) (myid : Nat) (r : Outcome)
    (h : main fuel o e myid = some r) : chronoFollows r.trace :=
  main_closed chronoFollows chronoFollows_nil chronoFollows_append fuel o e myid
    (sizeBody_chronoFollows e myid) (fun _ _ => rfl) (fun _ _ => rfl)
    (fun ev hev => chronoFollows_of_not_isTiming _
      (by intro x hx; simp at hx; subst hx; exact not_isTiming_of_isOuter _ hev)) r h

theorem iterLoop_responder (o : Options) (e : Env) (myid p : Nat) (size : Int)
    (ne tr : Nat) (t_lo : ℚ) (errors : Nat) (hid : myid ≠ 0) :
    ∀ ev ∈ (iterLoop o e myid p size ne tr t_lo errors).2,
      ev.isTransfer = true ∨ ev.isValidation = true := by
  refine forLoopBreak_mem _ (fun ev => ev.isTransfer = true ∨ ev.isValidation = true) ?_ _ _ _
  intro k s ev hev
  have hk : ∀ ev ∈ (forLoop (kPass o e myid p size ne tr t_lo k)
      (o.warmup_validation + 1) 0 s.t_total).2, ev.isTransfer = true := by
    refine forLoop_mem _ (fun ev => ev.isTransfer = true) ?_ _ _ _
    intro k1 s1 ev1 h1
    simp only [kPass, hid, if_false] at h1
    exact exchange_isTransfer _ _ _ _ h1
  simp only [iterBody] at hev
  split at hev
  · simp only [List.mem_append] at hev
    rcases hev with (h | h) | h
    · exact Or.inr (setValidation_isValidation _ _ _ _ h)
    · exact Or.inl (hk ev h)
    · exact Or.inr (validatePass_isValidation _ _ _ _ _ _ _ h)
  · simp only [List.mem_append] at hev
    rcases hev with h | h
    · exact Or.inr (setValidation_isValidation _ _ _ _ h)
    · exact Or.inl (hk ev h)

theorem main_responder (fuel : Nat) (o : Options) (e : Env) (myid : Nat) (hid : myid ≠ 0)
    (r : Outcome) (h : main fuel o e myid = some r) :
    ∀ ev ∈ r.trace, ev.isTelemetry = false ∧ ev.isTiming = false := by
  refine main_events fuel o e myid (fun ev => ev.isTelemetry = false ∧ ev.isTiming = false)
    ?_ (fun _ _ => ⟨rfl, rfl⟩) (fun _ _ => ⟨rfl, rfl⟩)
    (fun ev hev => ⟨not_isTelemetry_of_isOuter ev hev, not_isTiming_of_isOuter ev hev⟩) r h
  intro p st _ ev hev
  rcases sizeBody_mem e myid p _ st ev hev with h | h | h | h | h | h | ⟨_, h⟩
  · subst h; exact ⟨rfl, rfl⟩
  · have := sizeAlloc_isBufferCall st ev h
    exact ⟨not_isTelemetry_of_isBufferCall ev this, not_isTiming_of_isBufferCall ev this⟩
  · subst h; exact ⟨rfl, rfl⟩
  · rcases iterLoop_responder _ _ _ _ _ _ _ _ _ hid ev h with h1 | h1
    · exact ⟨not_isTelemetry_of_isTransfer ev h1, not_isTiming_of_isTransfer ev h1⟩
    · exact ⟨not_isTelemetry_of_isValidation ev h1, not_isTiming_of_isValidation ev h1⟩
  · simp only [sizeRow, hid, if_false] at h
    simp at h
  · have := sizeFree_isBufferCall st ev h
    exact ⟨not_isTelemetry_of_isBufferCall ev this, not_isTiming_of_isBufferCall ev this⟩
  · subst h; exact ⟨rfl, rfl⟩

/-- C10: `chrono` is called only by rank 0 (a run of another rank contains no
`chrono` call and none of its system calls), and in every run each addition to
`t_total` is directly followed by one `chrono` call whose argument is the
`t_total` just updated, with no other `chrono` call: in a timed pass rank 0
adds the elapsed time, then calls `chrono` with the sum, then goes on. On each
of its failure paths (socket creation, address conversion, send) `chrono` makes
only its own system calls and returns to its caller. Two runs that differ only
in the outcomes of these system calls have the same exit status, the same
final variables (`t_total` and the error counter among them) and the same
calls apart from the system calls of `chrono` (the same exchanges, additions
and printed rows). -/
theorem telemetry_is_swallowed (fuel : Nat) (o : Options) (e : Env) (myid : Nat)
    (c : Nat → Int → Nat → ChronoEnv) :
    (main fuel o (withChrono e c) myid).map benchmarkView =
        (main fuel o e myid).map benchmarkView ∧
    (∀ r, main fuel o e myid = some r →
      chronoFollows r.trace ∧
      (myid ≠ 0 → ∀ ev ∈ r.trace, ev.isTelemetry = false ∧ ev.isTiming = false)) ∧
    (∀ (ce : ChronoEnv) (t : ℚ),
      (∀ ev ∈ chrono ce t, ev.isTelemetry = true) ∧
      (ce.socket_ok = false → chrono ce t = [Event.chrono_socket, Event.chrono_perror 0]) ∧
      (ce.socket_ok = true → ce.pton_ok = false →
        chrono ce t = [Event.chrono_socket, Event.chrono_perror 1, Event.chrono_close]) ∧
      (ce.socket_ok = true → ce.pton_ok = true → ce.sendto_ok = false →
        chrono ce t = [Event.chrono_socket, Event.chrono_sendto (truncToInt (t * 1000)),
          Event.chrono_perror 2, Event.chrono_close])) ∧
    (∀ p size ne tr t_lo i t, o.skip ≤ i →
      kPass o e 0 p size ne tr t_lo i o.warmup_validation t =
        (t + calculate_total o (e.wtime p size i false) (e.wtime p size i true) t_lo
            o.window_size,
          [Event.wtime_start i] ++ exchange o 0 ne ++
          [Event.accumulate i o.warmup_validation
              (calculate_total o (e.wtime p size i false) (e.wtime p size i true) t_lo
                o.window_size)
              (t + calculate_total o (e.wtime p size i false) (e.wtime p size i true) t_lo
                o.window_size),
            Event.chrono_call
              (t + calculate_total o (e.wtime p size i false) (e.wtime p size i true) t_lo
                o.window_size)] ++
          chrono (e.chrono_env p size i)
            (t + calculate_total o (e.wtime p size i false) (e.wtime p size i true) t_lo
              o.window_size) ++
          (if o.omb_tail_lat = true then
            [Event.lat_write ((i : Int) - (o.skip : Int))
              (iterBytes o size tr /
                calculate_total o (e.wtime p size i false) (e.wtime p size i true) t_lo
                  o.window_size)]
          else []))) := by
  refine ⟨main_withChrono fuel o e c myid, ?_, ?_, ?_⟩
  · intro r h
    exact ⟨main_chronoFollows fuel o e myid r h, fun hid => main_responder fuel o e myid hid r h⟩
  · intro ce t
    refine ⟨chrono_isTelemetry ce t, ?_, ?_, ?_⟩
    · intro h; simp [chrono, h]
    · intro h1 h2; simp [chrono, h1, h2]
    · intro h1 h2 h3; simp [chrono, h1, h2, h3]
  · intro p size ne tr t_lo i t hi
    simp [kPass, hi]

/-- Witness for C10: a run of rank 0 in which every telemetry call fails at
socket creation has the same benchmark view as the run in which all succeed,
and its additions and `chrono` calls alternate. -/
theorem telemetry_is_swallowed_witness :
    (main 32 demoOptions (withChrono demoEnv (fun _ _ _ =>
        { socket_ok := false, pton_ok := true, sendto_ok := true })) 0).map benchmarkView =
      (main 32 demoOptions demoEnv 0).map benchmarkView ∧
    ∃ r, main 32 demoOptions demoEnv 0 = some r ∧ chronoFollows r.trace := by
  have hs : (main 32 demoOptions demoEnv 0).isSome = true := by decide
  obtain ⟨r, hr⟩ := Option.isSome_iff_exists.mp hs
  exact ⟨(telemetry_is_swallowed 32 demoOptions demoEnv 0 _).1, r, hr,
    ((telemetry_is_swallowed 32 demoOptions demoEnv 0 demoEnv.chrono_env).2.1 r hr).1⟩

/-! ### Runs of well-formed configurations return -/

theorem sizeLoop_returns (e : Env) (myid p : Nat) :
    ∀ fuel k st, 1 ≤ st.size → 2 * st.options.max_message_size ≤ 2147483647 →
      (2 : Int) ^ k ≤ st.size → k ≤ 31 → 32 ≤ fuel + k →
      ∃ r, sizeLoop e myid p fuel st = some r := by
  intro fuel
  induction fuel with
  | zero => intro k st _ _ _ hk hf; omega
  | succ fuel ih =>
    intro k st h1 hmax hpow hk hf
    by_cases hle : st.size ≤ st.options.max_message_size
    · have hk30 : k < 30 := by
        by_contra hcon
        have : (2 : Int) ^ 30 ≤ 2 ^ k := pow_le_pow_right₀ (by norm_num) (by omega)
        norm_num at this
        omega
      have hwrap := wrapInt_double st.size _ h1 hle hmax
      have hpow2 : (2 : Int) ^ (k + 1) ≤ st.size * 2 := by rw [pow_succ]; omega
      by_cases hz : numElements st.size (e.mpi_type_size p) = 0
      · obtain ⟨r, hr⟩ := ih (k + 1) (nextSize st) (by simp [hwrap]; omega) hmax
          (by simpa [hwrap] using hpow2) (by omega) (by omega)
        exact ⟨_, by rw [sizeLoop_skip _ _ _ _ _ hle hz, hr]; rfl⟩
      · by_cases hfl : (sizeBody e myid p (numElements st.size (e.mpi_type_size p)) st).2.2
            = true
        · exact ⟨_, sizeLoop_break _ _ _ _ _ hle hz hfl⟩
        · have hfl2 : (sizeBody e myid p (numElements st.size (e.mpi_type_size p)) st).2.2
              = false := by simpa using hfl
          obtain ⟨r, hr⟩ := ih (k + 1)
            (nextSize (sizeBody e myid p (numElements st.size (e.mpi_type_size p)) st).1)
            (by simp [hwrap]; omega) (by simpa using hmax) (by simpa [hwrap] using hpow2)
            (by omega) (by omega)
          exact ⟨_, by rw [sizeLoop_next _ _ _ _ _ hle hz hfl2, hr]; rfl⟩
    · exact ⟨_, sizeLoop_done _ _ _ _ _ hle⟩

theorem derivedFrom_bounds (o1 o : Options) (h : o1.derivedFrom o) :
    o1.min_message_size = o.min_message_size ∧ o1.max_message_size = o.max_message_size := by
  rcases h with h | h <;> subst h <;> simp [Options.large]

theorem passLoop_returns (e : Env) (myid fuel : Nat) (o : Options)
    (hmin : 1 ≤ o.min_message_size) (hmax : 2 * o.max_message_size ≤ 2147483647)
    (hfuel : 32 ≤ fuel) :
    ∀ n p st, st.options.derivedFrom o → ∃ r, passLoop e myid fuel n p st = some r := by
  intro n
  induction n with
  | zero => intro p st _; exact ⟨_, rfl⟩
  | succ n ih =>
    intro p st hst
    obtain ⟨b1, b2⟩ := derivedFrom_bounds _ _ hst
    obtain ⟨a, ha⟩ := sizeLoop_returns e myid p fuel 0 (enterSweep st)
      (by simp [b1]; exact hmin) (by simp [b2]; exact hmax) (by simp [b1]; exact hmin)
      (by omega) (by omega)
    have hd := (sizeLoop_events e myid p o (fun _ => True) (fun _ _ _ _ => trivial)
      (fun _ _ => trivial) fuel _ a (by simpa using hst) ha).1
    obtain ⟨b, hb⟩ := ih (p + 1) a.1 hd
    refine ⟨(b.1, (if myid = 0 then [Event.print_datatype p] else []) ++
      [Event.print_only_header] ++ a.2 ++ [Event.sweep_left p a.1.size] ++ b.2), ?_⟩
    simp only [passLoop, ha, hb]

/-- A run of `main` returns for every configuration with `min >= 1` and
`2 * max` representable as an `int`, whatever the environment: fuel 32 is
enough for every size loop. -/
theorem main_returns (fuel : Nat) (o : Options) (e : Env) (myid : Nat)
    (hmin : 1 ≤ o.min_message_size) (hmax : 2 * o.max_message_size ≤ 2147483647)
    (hfuel : 32 ≤ fuel) : ∃ r, main fuel o e myid = some r := by
  by_cases hreach : reachesSweep o e
  · obtain ⟨_, _, _, _, _, _, _, _, _, c10, c11⟩ := cudaBufNum_fields e o
    obtain ⟨pr, hpr⟩ := passLoop_returns e myid fuel (cudaBufNum e o)
      (by rw [c10]; exact hmin) (by rw [c11]; exact hmax) hfuel
      (cudaBufNum e o).omb_dtype_itr 0 (initState (cudaBufNum e o)) (derivedFrom_refl _)
    rw [main_of_reachesSweep _ _ _ _ hreach]
    exact mainSweep_isSome fuel o e myid _ pr hpr
  · obtain ⟨r, h, _⟩ := main_of_not_reachesSweep fuel o e myid hreach
    exact ⟨r, h⟩

/-! ### Invariants of the variables of `main` -/

theorem sizeLoop_inv (e : Env) (myid p : Nat) (I : State → Prop) (Q : Event → Prop)
    (hbody : ∀ st, I st →
      I (sizeBody e myid p (numElements st.size (e.mpi_type_size p)) st).1 ∧
      ∀ ev ∈ (sizeBody e myid p (numElements st.size (e.mpi_type_size p)) st).2.1, Q ev)
    (hnext : ∀ st, I st → I (nextSize st))
    (hnum : ∀ s n, Q (Event.num_elements s n)) :
    ∀ fuel st r, I st → sizeLoop e myid p fuel st = some r → I r.1 ∧ ∀ ev ∈ r.2, Q ev := by
  intro fuel
  induction fuel with
  | zero => intro st r _ h; simp [sizeLoop] at h
  | succ fuel ih =>
    intro st r hst h
    by_cases hle : st.size ≤ st.options.max_message_size
    · by_cases hz : numElements st.size (e.mpi_type_size p) = 0
      · rw [sizeLoop_skip _ _ _ _ _ hle hz] at h
        rcases Option.map_eq_some'.mp h with ⟨r1, hr, rfl⟩
        obtain ⟨h1, h2⟩ := ih (nextSize st) r1 (hnext st hst) hr
        refine ⟨h1, fun ev hev => ?_⟩
        rcases List.mem_cons.mp hev with hev | hev
        · rw [hev]; exact hnum _ _
        · exact h2 ev hev
      · obtain ⟨hI, hb⟩ := hbody st hst
        by_cases hf : (sizeBody e myid p (numElements st.size (e.mpi_type_size p)) st).2.2 = true
        · rw [sizeLoop_break _ _ _ _ _ hle hz hf] at h
          cases Option.some.inj h
          refine ⟨hI, fun ev hev => ?_⟩
          rcases List.mem_cons.mp hev with hev | hev
          · rw [hev]; exact hnum _ _
          · exact hb ev hev
        · rw [sizeLoop_next _ _ _ _ _ hle hz (by simpa using hf)] at h
          rcases Option.map_eq_some'.mp h with ⟨r1, hr, rfl⟩
          obtain ⟨h1, h2⟩ := ih _ r1 (hnext _ hI) hr
          refine ⟨h1, fun ev hev => ?_⟩
          rcases List.mem_cons.mp hev with hev | hev
          · rw [hev]; exact hnum _ _
          · rcases List.mem_append.mp hev with hev | hev
            · exact hb ev hev
            · exact h2 ev hev
    · rw [sizeLoop_done _ _ _ _ _ hle] at h
      cases Option.some.inj h
      exact ⟨hst, by simp⟩

theorem passLoop_inv (e : Env) (myid fuel : Nat) (I : State → Prop) (Q : Event → Prop)
    (hbody : ∀ p st, I st →
      I (sizeBody e myid p (numElements st.size (e.mpi_type_size p)) st).1 ∧
      ∀ ev ∈ (sizeBody e myid p (numElements st.size (e.mpi_type_size p)) st).2.1, Q ev)
    (hnext : ∀ st, I st → I (nextSize st))
    (henter : ∀ st, I st → I (enterSweep st))
    (hnum : ∀ s n, Q (Event.num_elements s n))
    (hsweep : ∀ p s, Q (Event.sweep_left p s))
    (hdatatype : ∀ p, Q (Event.print_datatype p))
    (hheader : Q Event.print_only_header) :
    ∀ n p st r, I st → passLoop e myid fuel n p st = some r → I r.1 ∧ ∀ ev ∈ r.2, Q ev := by
  intro n
  induction n with
  | zero =>
    intro p st r hst h
    simp only [passLoop, Option.some.injEq] at h
    subst h
    exact ⟨hst, by simp⟩
  | succ n ih =>
    intro p st r hst h
    simp only [passLoop] at h
    cases ha : sizeLoop e myid p fuel (enterSweep st) with
    | none => simp [ha] at h
    | some a =>
      simp only [ha] at h
      cases hb : passLoop e myid fuel n (p + 1) a.1 with
      | none => simp [hb] at h
      | some b =>
        simp only [hb, Option.some.injEq] at h
        subst h
        obtain ⟨h1, h2⟩ := sizeLoop_inv e myid p I Q (hbody p) hnext hnum fuel _ a
          (henter st hst) ha
        obtain ⟨h3, h4⟩ := ih (p + 1) a.1 b h1 hb
        refine ⟨h3, fun ev hev => ?_⟩
        simp only [List.mem_append, List.mem_singleton] at hev
        rcases hev with (((hev | hev) | hev) | hev) | hev
        · split at hev
          · simp at hev; subst hev; exact hdatatype p
          · simp at hev
        · subst hev; exact hheader
        · exact h2 ev hev
        · subst hev; exact hsweep _ _
        · exact h4 ev hev

theorem main_inv (fuel : Nat) (o : Options) (e : Env) (myid : Nat) (I : State → Prop)
    (Q : Event → Prop) (hinit : ∀ o1, I (initState o1))
    (hbody : ∀ p st, I st →
      I (sizeBody e myid p (numElements st.size (e.mpi_type_size p)) st).1 ∧
      ∀ ev ∈ (sizeBody e myid p (numElements st.size (e.mpi_type_size p)) st).2.1, Q ev)
    (hnext : ∀ st, I st → I (nextSize st))
    (henter : ∀ st, I st → I (enterSweep st))
    (hnum : ∀ s n, Q (Event.num_elements s n))
    (hsweep : ∀ p s, Q (Event.sweep_left p s))
    (houter : ∀ ev, ev.isOuter = true → Q ev) (r : Outcome)
    (h : main fuel o e myid = some r) : I r.final ∧ ∀ ev ∈ r.trace, Q ev := by
  by_cases hreach : reachesSweep o e
  · rw [main_of_reachesSweep _ _ _ _ hreach] at h
    classical
    have hf : ∀ ev, ev.isOuter = true → (if Q ev then none else some ev) = none :=
      fun ev hev => if_pos (houter ev hev)
    have hpre : ∀ ev ∈ earlyMallocs o ++ [Event.mpi_init], ev.isOuter = true := by
      intro ev hev
      rcases List.mem_append.mp hev with hev | hev
      · exact earlyMallocs_isOuter o ev hev
      · rw [List.mem_singleton.mp hev]; rfl
    obtain ⟨pr, hpr, htr, hfin⟩ := mainSweep_filterMap
      (fun ev => if Q ev then none else some ev) hf fuel o e myid _ hpre r h
    obtain ⟨h1, h2⟩ := passLoop_inv e myid fuel I Q hbody hnext henter hnum hsweep
      (fun _ => houter _ rfl) (houter _ rfl) _ _ _ pr (hinit _) hpr
    refine ⟨by rw [hfin]; exact h1, fun ev hev => ?_⟩
    have hnil : pr.2.filterMap (fun ev => if Q ev then none else some ev) = [] :=
      filterMap_nil_of_forall _ Q (fun ev hq => if_pos hq) _ h2
    rw [hnil, List.filterMap_eq_nil_iff] at htr
    by_contra hq
    have := htr ev hev
    rw [if_neg hq] at this
    exact Option.noConfusion this
  · obtain ⟨r1, hr1, hall, hfin⟩ := main_of_not_reachesSweep fuel o e myid hreach
    rw [hr1] at h
    cases Option.some.inj h
    exact ⟨by rw [hfin]; exact hinit o, fun ev hev => houter ev (hall ev hev)⟩

/-! ### The elapsed time without the kernel-launch overhead -/

theorem calculate_total_zero (o : Options) (t_start t_end : ℚ) (window_size : Nat) :
    calculate_total o t_start t_end 0 window_size = t_end - t_start := by
  unfold calculate_total
  split_ifs <;> simp

theorem sizeTlo_off (e : Env) (st : State) (h : e.enable_cuda_kernel = false) :
    sizeTlo e st = st.t_lo := by
  simp [sizeTlo, h]

theorem kPass_elapsed (o : Options) (e : Env) (myid p : Nat) (size : Int) (ne tr : Nat)
    (i k : Nat) (t : ℚ) (i1 k1 : Nat) (el tt : ℚ)
    (h : Event.accumulate i1 k1 el tt ∈ (kPass o e myid p size ne tr 0 i k t).2) :
    i1 = i ∧ el = e.wtime p size i true - e.wtime p size i false := by
  have hx : Event.accumulate i1 k1 el tt ∉ exchange o myid ne :=
    fun hm => Bool.false_ne_true (exchange_isTransfer o myid ne _ hm)
  have hc : ∀ c u, Event.accumulate i1 k1 el tt ∉ chrono c u :=
    fun c u hm => Bool.false_ne_true (chrono_isTelemetry c u _ hm)
  simp only [kPass] at h
  split at h
  · split at h
    · simp only [List.mem_append, List.mem_cons, List.mem_singleton, List.not_mem_nil,
        or_false] at h
      rcases h with (((h | h) | h) | h) | h
      · exact Event.noConfusion h
      · exact absurd h hx
      · rcases h with h | h
        · injection h with h1 _ h3 _
          exact ⟨h1, by rw [h3, calculate_total_zero]⟩
        · exact Event.noConfusion h
      · exact absurd h (hc _ _)
      · split at h
        · rw [List.mem_singleton] at h; exact Event.noConfusion h
        · simp at h
    · exact absurd h hx
  · exact absurd h hx

theorem sizeIter_elapsed (e : Env) (myid p ne : Nat) (st : State) (h0 : sizeTlo e st = 0)
    (i k : Nat) (el tt : ℚ) (h : Event.accumulate i k el tt ∈ (sizeIter e myid p ne st).2) :
    el = e.wtime p st.size i true - e.wtime p st.size i false := by
  unfold sizeIter iterLoop at h
  rw [h0] at h
  refine forLoopBreak_mem _
    (fun ev => ∀ i k el tt, ev = Event.accumulate i k el tt →
      el = e.wtime p st.size i true - e.wtime p st.size i false) ?_ _ _ _ _ h i k el tt rfl
  intro j s ev hev i1 k1 el1 tt1 heq
  subst heq
  have hset : Event.accumulate i1 k1 el1 tt1 ∉
      setValidation (largeSwitch e st.size st.options) st.size j :=
    fun hm => Bool.false_ne_true (setValidation_isValidation _ _ _ _ hm)
  have hval : Event.accumulate i1 k1 el1 tt1 ∉
      (validatePass (largeSwitch e st.size st.options) e p st.size j s.errors).2 :=
    fun hm => Bool.false_ne_true (validatePass_isValidation _ _ _ _ _ _ _ hm)
  have hk : Event.accumulate i1 k1 el1 tt1 ∈
      (forLoop (kPass (largeSwitch e st.size st.options) e myid p st.size
        (e.omb_ddt_get_size ne) (sizeTransmit e p ne) 0 j)
        ((largeSwitch e st.size st.options).warmup_validation + 1) 0 s.t_total).2 →
      el1 = e.wtime p st.size i1 true - e.wtime p st.size i1 false := by
    intro hm
    refine forLoop_mem _
      (fun ev => ∀ i k el tt, ev = Event.accumulate i k el tt →
        el = e.wtime p st.size i true - e.wtime p st.size i false) ?_ _ _ _ _ hm _ _ _ _ rfl
    intro k2 t2 ev2 hev2 i3 k3 el3 tt3 heq
    subst heq
    obtain ⟨h1, h2⟩ := kPass_elapsed _ _ _ _ _ _ _ _ _ _ _ _ _ _ hev2
    rw [h1]; exact h2
  simp only [iterBody] at hev
  split at hev
  · simp only [List.mem_append] at hev
    rcases hev with (hev | hev) | hev
    · exact absurd hev hset
    · exact hk hev
    · exact absurd hev hval
  · simp only [List.mem_append] at hev
    rcases hev with hev | hev
    · exact absurd hev hset
    · exact hk hev

theorem sizeBody_elapsed (e : Env) (myid p ne : Nat) (st : State) (h0 : sizeTlo e st = 0)
    (i k : Nat) (el tt : ℚ) (h : Event.accumulate i k el tt ∈ (sizeBody e myid p ne st).2.1) :
    el = e.wtime p st.size i true - e.wtime p st.size i false := by
  rcases sizeBody_mem e myid p ne st _ h with h | h | h | h | h | h | h
  · exact Event.noConfusion h
  · exact absurd (sizeAlloc_isBufferCall st _ h) Bool.false_ne_true
  · exact Event.noConfusion h
  · exact sizeIter_elapsed e myid p ne st h0 i k el tt h
  · simp only [sizeRow] at h
    split at h
    · rw [List.mem_singleton] at h; exact Event.noConfusion h
    · simp at h
  · exact absurd (sizeFree_isBufferCall st _ h) Bool.false_ne_true
  · exact Event.noConfusion h.2

/-- C11: `calculate_total` returns `(t_end - t_start) - 2 * t_lo * window_size`
when both the source and the destination are managed buffers placed on the
device, `(t_end - t_start) - t_lo * window_size` when exactly one of them is,
and `t_end - t_start` otherwise; for `t_lo = 0` it returns `t_end - t_start`
whatever the options are. In a build without `_ENABLE_CUDA_KERNEL_` no step of
`main` changes `t_lo` (lines 234-239 leave it as it is, and so do the body of
a size, the step `size *= 2` and the start of a sweep), which starts at 0: at
the end of every run `t_lo` is 0, and every addition to `t_total` adds the
plain difference of the two clock readings of its iteration. Stated over the
rationals. -/
theorem calculate_total_cases (fuel : Nat) (o : Options) (e : Env) (myid : Nat)
    (r : Outcome) (hbuild : e.enable_cuda_kernel = false)
    (hrun : main fuel o e myid = some r) :
    (∀ (c : Options) (t_start t_end t_lo : ℚ) (window_size : Nat),
      (c.deviceSrc ∧ c.deviceDst →
        calculate_total c t_start t_end t_lo window_size =
          (t_end - t_start) - 2 * t_lo * window_size) ∧
      ((c.deviceSrc ∧ ¬ c.deviceDst) ∨ (¬ c.deviceSrc ∧ c.deviceDst) →
        calculate_total c t_start t_end t_lo window_size =
          (t_end - t_start) - t_lo * window_size) ∧
      (¬ c.deviceSrc ∧ ¬ c.deviceDst →
        calculate_total c t_start t_end t_lo window_size = t_end - t_start) ∧
      calculate_total c t_start t_end 0 window_size = t_end - t_start) ∧
    (∀ c, (initState c).t_lo = 0) ∧
    (∀ p ne st, sizeTlo e st = st.t_lo ∧ (sizeBody e myid p ne st).1.t_lo = st.t_lo ∧
      (nextSize st).t_lo = st.t_lo ∧ (enterSweep st).t_lo = st.t_lo) ∧
    r.final.t_lo = 0 ∧
    (∀ i k el tt, Event.accumulate i k el tt ∈ r.trace →
      ∃ p s, el = e.wtime p s i true - e.wtime p s i false) := by
  have hstep : ∀ p ne st, sizeTlo e st = st.t_lo ∧ (sizeBody e myid p ne st).1.t_lo = st.t_lo ∧
      (nextSize st).t_lo = st.t_lo ∧ (enterSweep st).t_lo = st.t_lo :=
    fun p ne st => ⟨sizeTlo_off e st hbuild, sizeTlo_off e st hbuild, rfl, rfl⟩
  have hinv := main_inv fuel o e myid (fun st => st.t_lo = 0)
    (fun ev => ∀ i k el tt, ev = Event.accumulate i k el tt →
      ∃ p s, el = e.wtime p s i true - e.wtime p s i false)
    (fun _ => rfl)
    (fun p st hst => ⟨((hstep p _ st).2.1).trans hst,
      fun ev hev i k el tt heq => ⟨p, st.size, by
        subst heq
        exact sizeBody_elapsed e myid p _ st (((hstep p 0 st).1).trans hst) i k el tt hev⟩⟩)
    (fun st hst => hst) (fun st hst => hst)
    (fun s n i k el tt heq => Event.noConfusion heq)
    (fun p s i k el tt heq => Event.noConfusion heq)
    (fun ev hev i k el tt heq => by subst heq; exact absurd hev Bool.false_ne_true)
    r hrun
  refine ⟨?_, fun _ => rfl, hstep, hinv.1, fun i k el tt hmem => hinv.2 _ hmem i k el tt rfl⟩
  intro c t_start t_end t_lo window_size
  refine ⟨?_, ?_, ?_, calculate_total_zero c t_start t_end window_size⟩
  · intro h
    simp only [Options.deviceSrc, Options.deviceDst] at h
    simp [calculate_total, h.1.1, h.1.2, h.2.1, h.2.2]
  · intro h
    simp only [Options.deviceSrc, Options.deviceDst] at h
    unfold calculate_total
    rcases h with ⟨h1, h2⟩ | ⟨h1, h2⟩
    · rw [if_neg (fun hc => h2 hc.2), if_pos (Or.inl h1)]
    · rw [if_neg (fun hc => h1 hc.1), if_pos (Or.inr h2)]
  · intro h
    simp only [Options.deviceSrc, Options.deviceDst] at h
    unfold calculate_total
    rw [if_neg (fun hc => h.1 hc.1), if_neg (fun hc => hc.elim h.1 h.2)]

/-- Witness for C11: a run of rank 0 with managed device buffers on both
sides, in a build without the kernel path. It makes six additions to
`t_total`, each of the plain clock difference, and ends with `t_lo = 0`. -/
theorem calculate_total_cases_witness :
    demoEnv.enable_cuda_kernel = false ∧
    (managedOptions.deviceSrc ∧ managedOptions.deviceDst) ∧
    (main 32 managedOptions demoEnv 0).map (fun r => accumulations r.trace) =
      some [(0, 0), (1, 0), (0, 0), (1, 0), (0, 0), (1, 0)] ∧
    ∃ r, main 32 managedOptions demoEnv 0 = some r ∧ r.final.t_lo = 0 ∧
      (∀ i k el tt, Event.accumulate i k el tt ∈ r.trace →
        ∃ p s, el = demoEnv.wtime p s i true - demoEnv.wtime p s i false) := by
  have hs : (main 32 managedOptions demoEnv 0).isSome = true := by decide
  obtain ⟨r, hr⟩ := Option.isSome_iff_exists.mp hs
  exact ⟨rfl, by decide, by decide, r, hr,
    (calculate_total_cases 32 managedOptions demoEnv 0 r rfl hr).2.2.2.1,
    (calculate_total_cases 32 managedOptions demoEnv 0 r rfl hr).2.2.2.2⟩


/-! ### The stores into the latency series -/

theorem forLoopBreak_prefix {σ : Type} (body : Nat → σ → σ × List Event × Bool) :
    ∀ n k s, ∃ m, m ≤ n ∧ ∀ (α : Type) (f : Event → Option α) (g : Nat → List α),
      (∀ k s, (body k s).2.1.filterMap f = g k) →
      (forLoopBreak body n k s).2.filterMap f =
        (List.range m).flatMap (fun j => g (k + j)) := by
  intro n
  induction n with
  | zero => intro k s; exact ⟨0, le_refl _, fun _ _ _ _ => rfl⟩
  | succ n ih =>
    intro k s
    by_cases hb : (body k s).2.2 = true
    · refine ⟨1, by omega, fun α f g hg => ?_⟩
      simp [forLoopBreak, hb, hg, List.range_succ]
    · obtain ⟨m, hm, hrest⟩ := ih (k + 1) (body k s).1
      refine ⟨m + 1, by omega, fun α f g hg => ?_⟩
      simp only [forLoopBreak, hb, Bool.false_eq_true, if_false, List.filterMap_append, hg,
        hrest α f g hg]
      rw [List.range_succ_eq_map, List.flatMap_cons, List.flatMap_map]
      simp [Nat.add_assoc, Nat.add_comm 1]

theorem flatMap_range_upto {α : Type} (a m : Nat) (h : Nat → α) :
    (List.range m).flatMap (fun i => if a ≤ i then [h i] else []) =
      (List.range (m - a)).map (fun t => h (a + t)) := by
  by_cases ham : a ≤ m
  · have := flatMap_range_from a (m - a) h
    rwa [Nat.sub_add_cancel ham] at this
  · have h0 : m - a = 0 := by omega
    rw [h0, List.range_zero, List.map_nil, List.flatMap_eq_nil_iff]
    intro j hj
    have := List.mem_range.mp hj
    rw [if_neg (by omega)]

theorem latWrites_append (l1 l2 : List Event) :
    latWrites (l1 ++ l2) = latWrites l1 ++ latWrites l2 :=
  List.filterMap_append _ _ _

theorem latWrites_nil_of_isTransfer (l : List Event)
    (h : ∀ ev ∈ l, ev.isTransfer = true) : latWrites l = [] :=
  filterMap_nil_of_forall _ _
    (by intro ev hev; cases ev <;> first | rfl | simp [Event.isTransfer] at hev) l h

theorem latWrites_nil_of_isTelemetry (l : List Event)
    (h : ∀ ev ∈ l, ev.isTelemetry = true) : latWrites l = [] :=
  filterMap_nil_of_forall _ _
    (by intro ev hev; cases ev <;> first | rfl | simp [Event.isTelemetry] at hev) l h

theorem latWrites_nil_of_isValidation (l : List Event)
    (h : ∀ ev ∈ l, ev.isValidation = true) : latWrites l = [] :=
  filterMap_nil_of_forall _ _
    (by intro ev hev; cases ev <;> first | rfl | simp [Event.isValidation] at hev) l h

theorem kPass_latWrites (o : Options) (e : Env) (myid p : Nat) (size : Int)
    (ne tr : Nat) (t_lo : ℚ) (i k : Nat) (t : ℚ) :
    latWrites (kPass o e myid p size ne tr t_lo i k t).2 =
      if k = o.warmup_validation then
        (if myid = 0 ∧ o.skip ≤ i ∧ o.omb_tail_lat = true then [(i : Int) - (o.skip : Int)]
          else [])
      else [] := by
  have hx := latWrites_nil_of_isTransfer _ (exchange_isTransfer o myid ne)
  simp only [kPass]
  split
  · rename_i h1
    split
    · rename_i h2
      simp only [latWrites_append, hx,
        latWrites_nil_of_isTelemetry _ (chrono_isTelemetry _ _)]
      by_cases h3 : o.omb_tail_lat = true <;> simp [latWrites, h1, h2, h3]
    · rename_i h2
      simp only [hx]
      split
      · rename_i h3
        simp only [h3, and_true, true_and, h1] at h2 ⊢
        simp [h2]
      · rfl
  · rename_i h1
    simp [hx, h1]

theorem iterBody_latWrites (o : Options) (e : Env) (myid p : Nat) (size : Int)
    (ne tr : Nat) (t_lo : ℚ) (i : Nat) (s : IterSt) :
    latWrites (iterBody o e myid p size ne tr t_lo i s).2.1 =
      if myid = 0 ∧ o.skip ≤ i ∧ o.omb_tail_lat = true then [(i : Int) - (o.skip : Int)]
      else [] := by
  have hset := latWrites_nil_of_isValidation _ (setValidation_isValidation o size i)
  have hval := latWrites_nil_of_isValidation _
    (validatePass_isValidation o e p size i s.errors)
  have hk : latWrites (forLoop (kPass o e myid p size ne tr t_lo i)
      (o.warmup_validation + 1) 0 s.t_total).2 =
      if myid = 0 ∧ o.skip ≤ i ∧ o.omb_tail_lat = true then [(i : Int) - (o.skip : Int)]
      else [] := by
    unfold latWrites
    rw [forLoop_filterMap _ _
      (fun k => if k = o.warmup_validation then
        (if myid = 0 ∧ o.skip ≤ i ∧ o.omb_tail_lat = true then [(i : Int) - (o.skip : Int)]
          else []) else [])
      (fun k s => kPass_latWrites o e myid p size ne tr t_lo i k s)]
    simp only [Nat.zero_add]
    exact flatMap_range_last _ _
  simp only [iterBody]
  split
  · simp only [latWrites_append, hset, hval, hk]; simp
  · simp only [latWrites_append, hset, hk]; simp

/-- The timed iterations the loop of one size runs, `m` of them, and the
index each of them stores at: the `t`-th timed iteration is iteration
`skip + t` and stores at index `t`. -/
theorem iterLoop_timed (o : Options) (e : Env) (myid p : Nat) (size : Int)
    (ne tr : Nat) (t_lo : ℚ) (errors : Nat) :
    ∃ m, m ≤ o.iterations ∧
      accumulations (iterLoop o e myid p size ne tr t_lo errors).2 =
        (if myid = 0 then
          (List.range m).map (fun t => (o.skip + t, o.warmup_validation)) else []) ∧
      latWrites (iterLoop o e myid p size ne tr t_lo errors).2 =
        (if myid = 0 ∧ o.omb_tail_lat = true then (List.range m).map (fun (t : Nat) => (t : Int))
          else []) := by
  obtain ⟨m, hm, hpre⟩ := forLoopBreak_prefix
    (iterBody o e myid p size ne tr t_lo) (o.iterations + o.skip) 0
    { errors := errors, t_total := 0 }
  have hacc := hpre _ _ _ (fun k s => iterBody_accumulations o e myid p size ne tr t_lo k s)
  have hlat := hpre _ _ _ (fun k s => iterBody_latWrites o e myid p size ne tr t_lo k s)
  simp only [Nat.zero_add] at hacc hlat
  refine ⟨m - o.skip, by omega, ?_, ?_⟩
  · unfold iterLoop accumulations
    rw [hacc]
    by_cases hid : myid = 0
    · simp only [hid, true_and, if_true]
      exact flatMap_range_upto o.skip m (fun i => (i, o.warmup_validation))
    · simp [hid]
  · unfold iterLoop latWrites
    rw [hlat]
    by_cases hc : myid = 0 ∧ o.omb_tail_lat = true
    · simp only [hc.1, hc.2, true_and, and_true, if_true]
      rw [flatMap_range_upto o.skip m (fun i => (i : Int) - (o.skip : Int))]
      refine List.map_congr_left (fun t _ => ?_)
      push_cast
      ring
    · have : ∀ i, ¬ (myid = 0 ∧ o.skip ≤ i ∧ o.omb_tail_lat = true) :=
        fun i h => hc ⟨h.1, h.2.2⟩
      simp [hc, this]

theorem sizeBody_latWrites (e : Env) (myid p ne : Nat) (st : State) :
    latWrites (sizeBody e myid p ne st).2.1 = latWrites (sizeIter e myid p ne st).2 := by
  have hbuf : ∀ l : List Event, (∀ ev ∈ l, ev.isBufferCall = true) → latWrites l = [] :=
    fun l hl => filterMap_nil_of_forall _ _
      (by intro ev hev; cases ev <;> first | rfl | simp [Event.isBufferCall] at hev) l hl
  have h1 := hbuf _ (sizeAlloc_isBufferCall st)
  have h2 := hbuf _ (sizeFree_isBufferCall st)
  have h3 : latWrites (sizeRow e myid p ne st) = [] := by
    unfold sizeRow
    split <;> rfl
  have h4 : latWrites (if st.options.validate = true then
      [Event.bcast (sizeErrors e myid p ne st)] else []) = [] := by
    split <;> rfl
  have h5 : latWrites [Event.omb_ddt_assign st.size ne] = [] := rfl
  have h6 : latWrites [Event.barrier] = [] := rfl
  simp only [sizeBody, latWrites_append, h1, h2, h3, h4, h5, h6, List.append_nil,
    List.nil_append]

theorem sizeIter_timed (e : Env) (myid p ne : Nat) (st : State) (c : Options)
    (hst : st.options.derivedFrom c) (hlarge : c.iterations_large ≤ c.iterations) :
    ∃ m, m ≤ (largeSwitch e st.size st.options).iterations ∧ m ≤ c.iterations ∧
      accumulations (sizeIter e myid p ne st).2 =
        (if myid = 0 then
          (List.range m).map (fun t => ((largeSwitch e st.size st.options).skip + t,
            (largeSwitch e st.size st.options).warmup_validation)) else []) ∧
      latWrites (sizeIter e myid p ne st).2 =
        (if myid = 0 ∧ c.omb_tail_lat = true then
          (List.range m).map (fun (t : Nat) => (t : Int)) else []) := by
  obtain ⟨m, hm, h1, h2⟩ := iterLoop_timed (largeSwitch e st.size st.options) e myid p st.size
    (e.omb_ddt_get_size ne) (sizeTransmit e p ne) (sizeTlo e st) st.errors
  obtain ⟨_, _, _, _, htl, _, _, hit⟩ :=
    derivedFrom_fields _ _ (derivedFrom_largeSwitch e st.size _ _ hst)
  refine ⟨m, hm, ?_, h1, ?_⟩
  · rcases hit with ⟨hi, _⟩ | ⟨hi, _⟩ <;> omega
  · rw [← htl]; exact h2

theorem passLoop_latAllocations (e : Env) (myid fuel n p : Nat) (st : State)
    (r : State × List Event) (h : passLoop e myid fuel n p st = some r) :
    latAllocations r.2 = [] := by
  refine filterMap_nil_of_forall _ (fun ev => ∀ n, ev ≠ Event.malloc_lat_arr n)
    (by intro ev hev; cases ev <;> first | rfl | exact absurd rfl (hev _)) _
    (passLoop_inv e myid fuel (fun _ => True) _ ?_ (fun _ _ => trivial)
      (fun _ _ => trivial) (fun _ _ _ heq => Event.noConfusion heq)
      (fun _ _ _ heq => Event.noConfusion heq) (fun _ _ heq => Event.noConfusion heq)
      (fun _ heq => Event.noConfusion heq) n p st r trivial h).2
  intro q s _
  refine ⟨trivial, fun ev hev k heq => ?_⟩
  subst heq
  rcases sizeBody_mem e myid q _ s _ hev with h | h | h | h | h | h | h
  · exact Event.noConfusion h
  · exact absurd (sizeAlloc_isBufferCall s _ h) Bool.false_ne_true
  · exact Event.noConfusion h
  · exact absurd (iterLoop_inIteration _ _ _ _ _ _ _ _ _ _ h) Bool.false_ne_true
  · simp only [sizeRow] at h
    split at h
    · rw [List.mem_singleton] at h; exact Event.noConfusion h
    · simp at h
  · exact absurd (sizeFree_isBufferCall s _ h) Bool.false_ne_true
  · exact Event.noConfusion h.2

theorem mainSweep_latAllocations (fuel : Nat) (o : Options) (e : Env) (myid : Nat)
    (pre : List Event) (r : Outcome) (h : mainSweep fuel o e myid pre = some r) :
    ∃ rest, r.trace = pre ++ rest ∧ latAllocations rest = [] := by
  simp only [mainSweep] at h
  cases hp : passLoop e myid fuel (cudaBufNum e o).omb_dtype_itr 0
      (initState (cudaBufNum e o)) with
  | none => simp [hp] at h
  | some pr =>
    simp only [hp] at h
    have h2 := passLoop_latAllocations e myid fuel _ _ _ pr hp
    have hif : ∀ (c : Prop) [Decidable c] (x : Event), latAllocations [x] = [] →
        latAllocations (if c then [x] else []) = [] := by
      intro c _ x hx
      split
      · exact hx
      · rfl
    have happ : ∀ l1 l2, latAllocations (l1 ++ l2) = latAllocations l1 ++ latAllocations l2 :=
      fun l1 l2 => List.filterMap_append _ _ _
    have hmid : latAllocations
        ((if (cudaBufNum e o).buf_num = BufNum.SINGLE then [Event.allocate_memory_pt2pt]
          else []) ++ [Event.print_preamble] ++ pr.2 ++
        (if pr.1.options.buf_num = BufNum.SINGLE then [Event.free_memory 0] else []) ++
        [Event.mpi_finalize]) = [] := by
      simp only [happ, h2, hif _ _ (show latAllocations [Event.allocate_memory_pt2pt] = []
        from rfl), hif _ _ (show latAllocations [Event.free_memory 0] = [] from rfl),
        List.append_nil]
      rfl
    have hsplit : ∀ tail : List Event, latAllocations tail = [] →
        ∃ rest, pre ++
          (if (cudaBufNum e o).buf_num = BufNum.SINGLE then [Event.allocate_memory_pt2pt]
            else []) ++ [Event.print_preamble] ++ pr.2 ++
          (if pr.1.options.buf_num = BufNum.SINGLE then [Event.free_memory 0] else []) ++
          [Event.mpi_finalize] ++ tail = pre ++ rest ∧ latAllocations rest = [] := by
      intro tail htail
      refine ⟨((if (cudaBufNum e o).buf_num = BufNum.SINGLE then [Event.allocate_memory_pt2pt]
          else []) ++ [Event.print_preamble] ++ pr.2 ++
        (if pr.1.options.buf_num = BufNum.SINGLE then [Event.free_memory 0] else []) ++
        [Event.mpi_finalize]) ++ tail, by simp only [List.append_assoc], ?_⟩
      rw [happ, hmid, htail]
      rfl
    split at h
    · simp only [Option.some.injEq] at h
      subst h
      exact hsplit _ rfl
    · split at h
      · simp only [Option.some.injEq] at h
        subst h
        exact hsplit _ rfl
      · simp only [Option.some.injEq] at h
        subst h
        exact hsplit _ rfl

/-- C12: with tail latency on, a run of `main` that reaches the sweep
allocates `omb_lat_arr` exactly once, among the calls of lines 95-106 that
precede everything else, with `options.iterations` entries as configured at
start; no store into the series precedes the allocation and no later call
allocates it again. When `iterations_large` does not exceed the configured
iteration count, every index `i - skip` stored at (line 330) during the run
satisfies `0 <= i - skip < options.iterations` of the start, whatever `skip`
and `skip_large` are. In the iteration loop of each size the `t`-th timed
iteration of rank 0 (iteration `skip + t`) stores at index `t`, so the
indices stored at during a size are `0, 1, ..., m - 1` for the `m` timed
iterations run, `m` at most the iteration count in force: pairwise distinct.
A rank other than 0 stores nothing. -/
theorem lat_series_in_bounds (fuel : Nat) (o : Options) (e : Env) (myid : Nat)
    (r : Outcome) (htail : o.omb_tail_lat = true)
    (hlarge : o.iterations_large ≤ o.iterations)
    (hrun : main fuel o e myid = some r) :
    (reachesSweep o e → ∃ rest, r.trace = earlyMallocs o ++ rest ∧
      latAllocations (earlyMallocs o) = [o.iterations] ∧ latWrites (earlyMallocs o) = [] ∧
      latAllocations rest = []) ∧
    (∀ idx ∈ latWrites r.trace, 0 ≤ idx ∧ idx < (o.iterations : Int)) ∧
    (∀ p ne st, st.options.derivedFrom (cudaBufNum e o) →
      ∃ m, m ≤ (largeSwitch e st.size st.options).iterations ∧ m ≤ o.iterations ∧
        accumulations (sizeIter e 0 p ne st).2 =
          (List.range m).map (fun t => ((largeSwitch e st.size st.options).skip + t,
            (largeSwitch e st.size st.options).warmup_validation)) ∧
        latWrites (sizeIter e 0 p ne st).2 =
          (List.range m).map (fun (t : Nat) => (t : Int)) ∧
        (latWrites (sizeIter e 0 p ne st).2).Nodup ∧
        latWrites (sizeBody e 0 p ne st).2.1 = latWrites (sizeIter e 0 p ne st).2) ∧
    (myid ≠ 0 → latWrites r.trace = []) := by
  obtain ⟨_, _, _, c4, c5, _, c7, _⟩ := cudaBufNum_fields e o
  have hlarge2 : (cudaBufNum e o).iterations_large ≤ (cudaBufNum e o).iterations := by
    rw [c5, c7]; exact hlarge
  have hev : ∀ ev ∈ r.trace, ∀ idx v, ev = Event.lat_write idx v →
      myid = 0 ∧ 0 ≤ idx ∧ idx < (o.iterations : Int) := by
    refine main_events fuel o e myid _ ?_ (fun _ _ _ _ heq => Event.noConfusion heq)
      (fun _ _ _ _ heq => Event.noConfusion heq)
      (fun ev hout idx v heq => by subst heq; exact absurd hout Bool.false_ne_true) r hrun
    intro p st hst ev hmem idx v heq
    subst heq
    have hin : idx ∈ latWrites (sizeBody e myid p
        (numElements st.size (e.mpi_type_size p)) st).2.1 :=
      List.mem_filterMap.mpr ⟨_, hmem, rfl⟩
    rw [sizeBody_latWrites] at hin
    obtain ⟨m, _, hm, _, hw⟩ := sizeIter_timed e myid p
      (numElements st.size (e.mpi_type_size p)) st _ hst hlarge2
    rw [hw] at hin
    split at hin
    · rename_i hc
      obtain ⟨t, ht, rfl⟩ := List.mem_map.mp hin
      have := List.mem_range.mp ht
      rw [c5] at hm
      exact ⟨hc.1, by omega, by omega⟩
    · simp at hin
  refine ⟨?_, ?_, ?_, ?_⟩
  · intro hreach
    rw [main_of_reachesSweep _ _ _ _ hreach] at hrun
    obtain ⟨rest, h1, h2⟩ := mainSweep_latAllocations fuel o e myid _ r hrun
    refine ⟨[Event.mpi_init] ++ rest, by rw [h1, List.append_assoc], ?_, ?_, ?_⟩
    · unfold earlyMallocs
      rw [if_pos htail]
      split <;> rfl
    · unfold earlyMallocs
      rw [if_pos htail]
      split <;> rfl
    · have : latAllocations ([Event.mpi_init] ++ rest) =
          latAllocations [Event.mpi_init] ++ latAllocations rest :=
        List.filterMap_append _ _ _
      rw [this, h2]
      rfl
  · intro idx hidx
    obtain ⟨ev, hmem, hf⟩ := List.mem_filterMap.mp hidx
    cases ev with
    | lat_write i v =>
      cases Option.some.inj hf
      exact (hev _ hmem _ _ rfl).2
    | _ => exact Option.noConfusion hf
  · intro p ne st hst
    obtain ⟨m, hm1, hm2, ha, hw⟩ := sizeIter_timed e 0 p ne st _ hst hlarge2
    rw [c5] at hm2
    rw [if_pos rfl] at ha
    rw [if_pos ⟨rfl, c4.trans htail⟩] at hw
    refine ⟨m, hm1, hm2, ha, hw, ?_, sizeBody_latWrites e 0 p ne st⟩
    rw [hw]
    exact (List.nodup_range m).map (fun a b hab => Int.ofNat.inj hab)
  · intro hid
    rw [latWrites, List.filterMap_eq_nil_iff]
    intro ev hmem
    cases ev with
    | lat_write i v => exact absurd (hev _ hmem _ _ rfl).1 hid
    | _ => rfl

/-- Witness for C12: two datatype passes of rank 0 over the sizes 8192 and
16384 with one warm-up iteration (three for large messages), two timed
iterations configured and one for large messages. The series is allocated
once with two entries; the stores are at indices 0 and 1 for the first size
and at index 0 for each of the other three. -/
theorem lat_series_in_bounds_witness :
    tailTwoPass.omb_tail_lat = true ∧ tailTwoPass.iterations_large ≤ tailTwoPass.iterations ∧
    (main 32 tailTwoPass demoEnv 0).map
        (fun r => (latAllocations r.trace, latWrites r.trace)) =
      some ([2], [0, 1, 0, 0, 0]) ∧
    ∃ r, main 32 tailTwoPass demoEnv 0 = some r ∧
      ∀ idx ∈ latWrites r.trace, 0 ≤ idx ∧ idx < (tailTwoPass.iterations : Int) := by
  have hs : (main 32 tailTwoPass demoEnv 0).isSome = true := by decide
  obtain ⟨r, hr⟩ := Option.isSome_iff_exists.mp hs
  exact ⟨rfl, by decide, by decide, r, hr,
    (lat_series_in_bounds 32 tailTwoPass demoEnv 0 r rfl (by decide) hr).2.1⟩

/-- The bound on the stored indices needs `iterations_large <= iterations`:
with one timed iteration configured and two for large messages, the series is
allocated with one entry and rank 0 stores at index 1 from size 16384 on. -/
theorem lat_series_large_count :
    (main 32 tailLargeOptions demoEnv 0).map
        (fun r => (latAllocations r.trace, latWrites r.trace)) =
      some ([1], [0, 0, 1, 0, 1, 0, 1]) := by
  decide


/-! ### The byte total and the divisor of a row -/

theorem rendezvous_self (l : List Sync) : ∀ matched, rendezvous l l matched = Joint.completes := by
  induction l with
  | nil => intro matched; rfl
  | cons a l ih =>
    intro matched
    simp only [rendezvous, if_true]
    exact ih _

theorem rendezvous_completes (l0 : List Sync) :
    ∀ l1 matched, rendezvous l0 l1 matched = Joint.completes → l0 = l1 := by
  induction l0 with
  | nil =>
    intro l1 matched h
    cases l1 with
    | nil => rfl
    | cons b l1 => exact Joint.noConfusion h
  | cons a l0 ih =>
    intro l1 matched h
    cases l1 with
    | nil => exact Joint.noConfusion h
    | cons b l1 =>
      simp only [rendezvous] at h
      split at h
      · rename_i hab
        rw [hab, ih l1 _ h]
      · exact Joint.noConfusion h

theorem exchange_sync (o : Options) (myid n : Nat) :
    (exchange o myid n).filterMap Event.sync = [Sync.exchange o.window_size] := by
  have h1 : ∀ peer tag, (postIrecv o n peer tag).filterMap Event.sync = [] := by
    intro peer tag
    refine filterMap_nil_of_forall _ (fun ev => ∃ a b c d g, ev = Event.irecv a b c d g) ?_ _ ?_
    · rintro ev ⟨a, b, c, d, g, rfl⟩; rfl
    · intro ev hev
      simp only [postIrecv, List.mem_map] at hev
      obtain ⟨j, _, h⟩ := hev
      split at h <;> exact ⟨_, _, _, _, _, h.symm⟩
  have h2 : ∀ peer tag, (postIsend o n peer tag).filterMap Event.sync = [] := by
    intro peer tag
    refine filterMap_nil_of_forall _ (fun ev => ∃ a b c d g, ev = Event.isend a b c d g) ?_ _ ?_
    · rintro ev ⟨a, b, c, d, g, rfl⟩; rfl
    · intro ev hev
      simp only [postIsend, List.mem_map] at hev
      obtain ⟨j, _, h⟩ := hev
      split at h <;> exact ⟨_, _, _, _, _, h.symm⟩
  unfold exchange
  split <;> simp only [List.filterMap_append, h1, h2] <;> rfl

theorem sync_nil_of_isTelemetry (l : List Event) (h : ∀ ev ∈ l, ev.isTelemetry = true) :
    l.filterMap Event.sync = [] :=
  filterMap_nil_of_forall _ (fun ev => ev.isTelemetry = true)
    (by intro ev hev; cases ev <;> first | rfl | simp [Event.isTelemetry] at hev) l h

theorem kPass_sync (o : Options) (e : Env) (myid p : Nat) (size : Int)
    (ne tr : Nat) (t_lo : ℚ) (i k : Nat) (t : ℚ) :
    (kPass o e myid p size ne tr t_lo i k t).2.filterMap Event.sync =
      [Sync.exchange o.window_size] := by
  have hx := exchange_sync o myid ne
  simp only [kPass]
  split
  · split
    · simp only [List.filterMap_append, hx,
        sync_nil_of_isTelemetry _ (chrono_isTelemetry _ _)]
      split <;> rfl
    · exact hx
  · exact hx

theorem validatePass_sync (o : Options) (e : Env) (p : Nat) (size : Int) (i errors : Nat) :
    (validatePass o e p size i errors).2.filterMap Event.sync = [] := by
  unfold validatePass
  split
  · rfl
  · rw [forLoop_filterMap _ _ (fun _ => []) (by intro k s; rfl)]
    simp

/-- The blocking calls of one iteration: the barrier of line 262 when
validation is on, then one exchange for each pass of the loop over `k`; the
same for both ranks. -/
theorem iterBody_sync (o : Options) (e : Env) (myid p : Nat) (size : Int)
    (ne tr : Nat) (t_lo : ℚ) (i : Nat) (s : IterSt) :
    (iterBody o e myid p size ne tr t_lo i s).2.1.filterMap Event.sync =
      (setValidation o size i).filterMap Event.sync ++
        (List.range (o.warmup_validation + 1)).flatMap
          (fun _ => [Sync.exchange o.window_size]) := by
  have hval := validatePass_sync o e p size i s.errors
  have hk := forLoop_filterMap (kPass o e myid p size ne tr t_lo i) Event.sync
    (fun _ => [Sync.exchange o.window_size])
    (fun k s => kPass_sync o e myid p size ne tr t_lo i k s)
    (o.warmup_validation + 1) 0 s.t_total
  simp only [iterBody]
  split
  · simp only [List.filterMap_append, hval, hk, List.append_nil]
  · simp only [List.filterMap_append, hk]

/-- The two ranks make the same blocking calls in the iteration loop of a size
when they see the same `validate_data` results and enter with the same error
counter. -/
theorem iterLoop_ranks_sync (o : Options) (e0 e1 : Env) (id0 id1 p : Nat) (size : Int)
    (ne tr : Nat) (t0 t1 : ℚ) (errors : Nat) (hv : e1.validate_data = e0.validate_data) :
    (iterLoop o e0 id0 p size ne tr t0 errors).2.filterMap Event.sync =
      (iterLoop o e1 id1 p size ne tr t1 errors).2.filterMap Event.sync := by
  refine (forLoopBreak_sim _ _ (fun (s0 s1 : IterSt) => s0.errors = s1.errors) Event.sync ?_
    _ _ _ _ rfl).2
  intro k s0 s1 hr
  obtain ⟨a0, b0⟩ := iterBody_errors_flag o e0 id0 p size ne tr t0 k s0
  obtain ⟨a1, b1⟩ := iterBody_errors_flag o e1 id1 p size ne tr t1 k s1
  refine ⟨?_, ?_, ?_⟩
  · show (iterBody o e0 id0 p size ne tr t0 k s0).1.errors =
      (iterBody o e1 id1 p size ne tr t1 k s1).1.errors
    rw [a0, a1, hr, hv]
  · rw [b0, b1, hr, hv]
  · rw [iterBody_sync, iterBody_sync]

theorem sizeBody_sync (e : Env) (myid p ne : Nat) (st : State) :
    (sizeBody e myid p ne st).2.1.filterMap Event.sync =
      Sync.barrier :: ((sizeIter e myid p ne st).2.filterMap Event.sync ++
        (if st.options.validate = true then [Sync.bcast] else [])) := by
  have hbuf : ∀ l : List Event, (∀ ev ∈ l, ev.isBufferCall = true) →
      l.filterMap Event.sync = [] :=
    fun l hl => filterMap_nil_of_forall _ _
      (by intro ev hev; cases ev <;> first | rfl | simp [Event.isBufferCall] at hev) l hl
  have h1 := hbuf _ (sizeAlloc_isBufferCall st)
  have h2 := hbuf _ (sizeFree_isBufferCall st)
  have h3 : (sizeRow e myid p ne st).filterMap Event.sync = [] := by
    unfold sizeRow
    split <;> rfl
  have h4 : (if st.options.validate = true then
      [Event.bcast (sizeErrors e myid p ne st)] else []).filterMap Event.sync =
      (if st.options.validate = true then [Sync.bcast] else []) := by
    split <;> rfl
  have h5 : [Event.omb_ddt_assign st.size ne].filterMap Event.sync = [] := rfl
  have h6 : [Event.barrier].filterMap Event.sync = [Sync.barrier] := rfl
  simp only [sizeBody, List.filterMap_append, h1, h2, h3, h4, h5, h6, List.append_nil,
    List.nil_append]
  rfl

theorem sizeBody_sync_pair (e0 : Env) (v1 : Nat → Int → Nat → Nat → Nat) (T : List Event)
    (p ne : Nat) (st0 st1 : State) (hs : sameControl st0 st1) (hv : v1 = e0.validate_data) :
    (sizeBody (responderEnv e0 v1 T) 1 p ne st1).2.1.filterMap Event.sync =
      (sizeBody e0 0 p ne st0).2.1.filterMap Event.sync := by
  obtain ⟨h1, h2, h3, h4, h5⟩ := hs
  have hopt : largeSwitch (responderEnv e0 v1 T) st1.size st1.options =
      largeSwitch e0 st0.size st0.options := by
    rw [← h1, ← h2]; rfl
  have htlo : sizeTlo (responderEnv e0 v1 T) st1 = sizeTlo e0 st0 := by
    unfold sizeTlo
    rw [← h1, ← h2, ← h5]; rfl
  rw [sizeBody_sync, sizeBody_sync, ← h1]
  congr 2
  unfold sizeIter
  rw [hopt, htlo, ← h2, ← h3]
  exact (iterLoop_ranks_sync _ e0 (responderEnv e0 v1 T) 0 1 p st0.size _ _ _ _ st0.errors
    (by rw [← hv]; rfl)).symm

/-! ### The exchanges of a job that completes -/

theorem setValidation_sync (o : Options) (size : Int) (i : Nat) :
    (setValidation o size i).filterMap Event.sync =
      if o.validate = true then [Sync.barrier] else [] := by
  unfold setValidation
  split
  · have h1 : ((List.range o.window_size).map fun l =>
        Event.set_buffer_validation i l size (i + l)).filterMap Event.sync = [] := by
      refine filterMap_nil_of_forall _
        (fun ev => ∃ a b c d, ev = Event.set_buffer_validation a b c d) ?_ _ ?_
      · rintro ev ⟨a, b, c, d, rfl⟩; rfl
      · intro ev hev
        obtain ⟨l, _, h⟩ := List.mem_map.mp hev
        exact ⟨_, _, _, _, h.symm⟩
    rw [List.filterMap_append]
    split
    · rw [h1]; rfl
    · rfl
  · rfl

/-- The blocking calls of one iteration under the options `o`: the barrier of
line 262 when validation is on, then one exchange for each pass of the loop
over `k`. -/
theorem iterBody_sync_unit (o : Options) (e : Env) (myid p : Nat) (size : Int)
    (ne tr : Nat) (t_lo : ℚ) (i : Nat) (s : IterSt) :
    (iterBody o e myid p size ne tr t_lo i s).2.1.filterMap Event.sync =
      (if o.validate = true then [Sync.barrier] else []) ++
        (List.range (o.warmup_validation + 1)).flatMap
          (fun _ => [Sync.exchange o.window_size]) := by
  rw [iterBody_sync, setValidation_sync]

theorem flatMap_const_length {α : Type} (u : List α) (m : Nat) :
    ((List.range m).flatMap (fun _ => u)).length = m * u.length := by
  induction m with
  | zero => simp
  | succ m ih =>
    rw [List.range_succ, List.flatMap_append, List.length_append, ih]
    simp [Nat.succ_mul]

theorem append_cons_split {α : Type} (c : α) :
    ∀ (p1 p0 x1 x0 : List α), c ∉ p1 → c ∉ p0 → p1 ++ c :: x1 = p0 ++ c :: x0 →
      p1 = p0 ∧ x1 = x0 := by
  intro p1
  induction p1 with
  | nil =>
    intro p0 x1 x0 _ h0 h
    cases p0 with
    | nil => exact ⟨rfl, (List.cons.inj h).2⟩
    | cons b p0 =>
      have hb := (List.cons.inj h).1
      exact absurd (hb ▸ List.mem_cons_self _ _) h0
  | cons a p1 ih =>
    intro p0 x1 x0 h1 h0 h
    cases p0 with
    | nil =>
      have ha := (List.cons.inj h).1
      exact absurd (ha ▸ List.mem_cons_self _ _) h1
    | cons b p0 =>
      obtain ⟨hab, ht⟩ := List.cons.inj h
      obtain ⟨hp, hx⟩ := ih p0 x1 x0 (fun hm => h1 (List.mem_cons_of_mem _ hm))
        (fun hm => h0 (List.mem_cons_of_mem _ hm)) ht
      exact ⟨by rw [hab, hp], hx⟩

/-- The iteration loop of a size runs `m` iterations for some `m`: its
blocking calls and its exchanges are those of `m` iterations. -/
theorem iterLoop_shape (o : Options) (e : Env) (myid p : Nat) (size : Int)
    (ne tr : Nat) (t_lo : ℚ) (errors : Nat) :
    ∃ m, (iterLoop o e myid p size ne tr t_lo errors).2.filterMap Event.sync =
        (List.range m).flatMap (fun _ =>
          (if o.validate = true then [Sync.barrier] else []) ++
            (List.range (o.warmup_validation + 1)).flatMap
              (fun _ => [Sync.exchange o.window_size])) ∧
      (iterLoop o e myid p size ne tr t_lo errors).2.filterMap Event.mark =
        (List.range m).flatMap (fun _ =>
          (List.range (o.warmup_validation + 1)).flatMap (fun _ => [Mark.exchange])) := by
  obtain ⟨m, _, hpre⟩ := forLoopBreak_prefix
    (iterBody o e myid p size ne tr t_lo) (o.iterations + o.skip) 0
    { errors := errors, t_total := 0 }
  exact ⟨m, hpre _ _ _ (fun k s => iterBody_sync_unit o e myid p size ne tr t_lo k s),
    hpre _ _ _ (fun k s => iterBody_marks o e myid p size ne tr t_lo k s)⟩

/-- Without validation the iteration loop is never left early: the two ranks
make the same blocking calls and run the same exchanges, whatever they see. -/
theorem iterLoop_ranks_novalidate (o : Options) (e0 e1 : Env) (id0 id1 p : Nat)
    (size : Int) (ne tr : Nat) (t0 t1 : ℚ) (err0 err1 : Nat) (hval : o.validate = false) :
    (iterLoop o e0 id0 p size ne tr t0 err0).2.filterMap Event.sync =
        (iterLoop o e1 id1 p size ne tr t1 err1).2.filterMap Event.sync ∧
      (iterLoop o e0 id0 p size ne tr t0 err0).2.filterMap Event.mark =
        (iterLoop o e1 id1 p size ne tr t1 err1).2.filterMap Event.mark := by
  have hflag : ∀ (e : Env) (myid : Nat) (t : ℚ) k (s : IterSt),
      (iterBody o e myid p size ne tr t k s).2.2 = false := by
    intro e myid t k s
    rw [(iterBody_errors_flag o e myid p size ne tr t k s).2]
    simp [hval]
  constructor
  · refine (forLoopBreak_sim _ _ (fun (_ _ : IterSt) => True) Event.sync ?_ _ _ _ _
      trivial).2
    intro k s0 s1 _
    exact ⟨trivial, by rw [hflag, hflag], by rw [iterBody_sync, iterBody_sync]⟩
  · refine (forLoopBreak_sim _ _ (fun (_ _ : IterSt) => True) Event.mark ?_ _ _ _ _
      trivial).2
    intro k s0 s1 _
    exact ⟨trivial, by rw [hflag, hflag], by rw [iterBody_marks, iterBody_marks]⟩

/-- One size on the two ranks: if the blocking calls of the two ranks for the
size, each followed by whatever comes next, agree, then the ranks run the same
exchanges for the size and what comes next agrees too. -/
theorem sizeBody_split_pair (e0 : Env) (v1 : Nat → Int → Nat → Nat → Nat) (T : List Event)
    (p ne : Nat) (st0 st1 : State) (hs : sameControl st0 st1) (x1 x0 : List Sync)
    (h : (sizeBody (responderEnv e0 v1 T) 1 p ne st1).2.1.filterMap Event.sync ++ x1 =
      (sizeBody e0 0 p ne st0).2.1.filterMap Event.sync ++ x0) :
    (sizeBody (responderEnv e0 v1 T) 1 p ne st1).2.1.filterMap Event.mark =
        (sizeBody e0 0 p ne st0).2.1.filterMap Event.mark ∧ x1 = x0 := by
  obtain ⟨h1, h2, h3, h4, h5⟩ := hs
  have hopt : largeSwitch (responderEnv e0 v1 T) st1.size st1.options =
      largeSwitch e0 st0.size st0.options := by
    rw [← h1, ← h2]; rfl
  have hvl : (largeSwitch e0 st0.size st0.options).validate = st0.options.validate :=
    largeSwitch_validate _ _ _
  rw [sizeBody_sync, sizeBody_sync, ← h1] at h
  rw [sizeBody_marks, sizeBody_marks, ← h2]
  unfold sizeIter at h ⊢
  rw [hopt] at h ⊢
  simp only [List.cons_append, List.cons.injEq, true_and, List.append_assoc] at h
  by_cases hval : st0.options.validate = true
  · obtain ⟨m1, hs1, hm1⟩ := iterLoop_shape (largeSwitch e0 st0.size st0.options)
      (responderEnv e0 v1 T) 1 p st1.size ((responderEnv e0 v1 T).omb_ddt_get_size ne)
      (sizeTransmit (responderEnv e0 v1 T) p ne) (sizeTlo (responderEnv e0 v1 T) st1)
      st1.errors
    obtain ⟨m0, hs0, hm0⟩ := iterLoop_shape (largeSwitch e0 st0.size st0.options)
      e0 0 p st0.size (e0.omb_ddt_get_size ne) (sizeTransmit e0 p ne) (sizeTlo e0 st0)
      st0.errors
    rw [hs1, hs0] at h
    rw [hm1, hm0]
    simp only [hval, if_true, List.singleton_append] at h
    have hno : ∀ m, Sync.bcast ∉ (List.range m).flatMap (fun _ =>
        ((if (largeSwitch e0 st0.size st0.options).validate = true then [Sync.barrier]
          else []) ++
          (List.range ((largeSwitch e0 st0.size st0.options).warmup_validation + 1)).flatMap
            (fun _ => [Sync.exchange (largeSwitch e0 st0.size st0.options).window_size]))) := by
      intro m hmem
      simp only [List.mem_flatMap, List.mem_append, List.mem_range] at hmem
      obtain ⟨_, _, hmem | ⟨_, _, hmem⟩⟩ := hmem
      · split at hmem <;> simp at hmem
      · simp at hmem
    obtain ⟨hu, hx⟩ := append_cons_split Sync.bcast _ _ _ _ (hno m1) (hno m0) h
    have hlen := congrArg List.length hu
    rw [flatMap_const_length, flatMap_const_length] at hlen
    have hpos : 0 < ((if (largeSwitch e0 st0.size st0.options).validate = true then
        [Sync.barrier] else []) ++
        (List.range ((largeSwitch e0 st0.size st0.options).warmup_validation + 1)).flatMap
          (fun _ => [Sync.exchange
            (largeSwitch e0 st0.size st0.options).window_size])).length := by
      rw [List.length_append, flatMap_const_length]
      simp
    have hm : m1 = m0 := Nat.eq_of_mul_eq_mul_right hpos hlen
    exact ⟨by rw [hm], hx⟩
  · have hval2 : (largeSwitch e0 st0.size st0.options).validate = false := by
      rw [hvl]; simpa using hval
    obtain ⟨q1, q2⟩ := iterLoop_ranks_novalidate (largeSwitch e0 st0.size st0.options)
      (responderEnv e0 v1 T) e0 1 0 p st1.size ((responderEnv e0 v1 T).omb_ddt_get_size ne)
      (sizeTransmit (responderEnv e0 v1 T) p ne) (sizeTlo (responderEnv e0 v1 T) st1)
      (sizeTlo e0 st0) st1.errors st0.errors hval2
    rw [← h2] at q1 q2
    have q1' : (iterLoop (largeSwitch e0 st0.size st0.options) (responderEnv e0 v1 T) 1 p
        st0.size ((responderEnv e0 v1 T).omb_ddt_get_size ne)
        (sizeTransmit (responderEnv e0 v1 T) p ne) (sizeTlo (responderEnv e0 v1 T) st1)
        st1.errors).2.filterMap Event.sync =
        (iterLoop (largeSwitch e0 st0.size st0.options) e0 0 p st0.size
          (e0.omb_ddt_get_size ne) (sizeTransmit e0 p ne) (sizeTlo e0 st0)
          st0.errors).2.filterMap Event.sync := q1
    rw [← h2] at h
    rw [q1'] at h
    exact ⟨by rw [← h2, q2]; rfl, List.append_cancel_left (List.append_cancel_left h)⟩

/-- C7 (as stated, refuted): validation on, window 1, sizes 1, 2 and 4, and a
Responder that records a mismatch in every `validate_data` call while the
Initiator records none. With two iterations for each size the job is stuck in
the first size: after the barrier of line 243, the barrier of line 262 and
one exchange, the Responder has left the iteration loop and waits in the
`MPI_Bcast` of line 492, while the Initiator has gone on to the next
iteration and waits in the `MPI_Barrier` of line 262; the peers never leave
the sweep: the Responder cannot leave `MPI_Bcast` before the Initiator, its
root, enters it, and the Initiator cannot leave `MPI_Barrier` before the
Responder enters it. With one iteration for each size the job completes: the
Responder records a failure at each of the sizes 1, 2 and 4, every broadcast
delivers the 0 of the Initiator, neither peer aborts the sweep (both leave it
at size 8, past the maximum) and both exit with `EXIT_SUCCESS`. -/
theorem peers_diverge_on_one_sided_failure :
    (jointRun 32 validatingOptions demoEnv corruptEnv.validate_data).map (fun j => j.joint) =
      some (Joint.stuck [Sync.barrier, Sync.barrier, Sync.exchange 1]
        (some Sync.barrier) (some Sync.bcast)) ∧
    (jointRun 32 singleValidating demoEnv corruptEnv.validate_data).map
        (fun j => (j.joint, recordedFailures j.rank0.trace, recordedFailures j.rank1.trace)) =
      some (Joint.completes, [], [1, 2, 4]) ∧
    (jointRun 32 singleValidating demoEnv corruptEnv.validate_data).map
        (fun j => (bcastValues j.rank1.trace, sweepsLeft j.rank0.trace,
          sweepsLeft j.rank1.trace)) =
      some ([0, 0, 0], [(0, 8)], [(0, 8)]) ∧
    (jointRun 32 singleValidating demoEnv corruptEnv.validate_data).map
        (fun j => (j.rank0.status, j.rank1.status, j.rank1.final.errors)) =
      some (EXIT_SUCCESS, EXIT_SUCCESS, 0) := by
  decide

/-- C7 (amended): the two ranks of a job, rank 1 receiving the broadcasts of
rank 0. The job completes exactly when the two ranks make the same blocking
calls in the same order, and it does so when they see the same
`validate_data` results. Whenever the job completes, the two ranks run the
same number of exchanges for each message size and have the same control
skeleton: they visit the same sizes, enter the same transfer bodies, hold
after every broadcast the error count of rank 0 and leave the size sweep of
every datatype at the same size, and they end with the same `size` and error
counter. The `break` of line 494 is taken exactly when validation is on and
the count of rank 0 is non-zero. -/
theorem peers_leave_sweep_together (fuel : Nat) (o : Options) (e0 : Env)
    (v1 : Nat → Int → Nat → Nat → Nat) (r0 : Outcome) (h : main fuel o e0 0 = some r0) :
    ∃ j, jointRun fuel o e0 v1 = some j ∧ j.rank0 = r0 ∧
      (v1 = e0.validate_data → j.joint = Joint.completes) ∧
      (j.joint = Joint.completes ↔ syncTrace j.rank1.trace = syncTrace r0.trace) ∧
      (j.joint = Joint.completes →
        exchangeCounts j.rank1.trace = exchangeCounts r0.trace ∧
        controlTrace j.rank1.trace = controlTrace r0.trace ∧
        sweepsLeft j.rank1.trace = sweepsLeft r0.trace ∧
        bcastValues j.rank1.trace = bcastValues r0.trace ∧
        visitedSizes j.rank1.trace = visitedSizes r0.trace ∧
        transferSizes j.rank1.trace = transferSizes r0.trace ∧
        j.rank1.final.size = r0.final.size ∧ j.rank1.final.errors = r0.final.errors) ∧
      (∀ p ne st, (sizeBody e0 0 p ne st).2.2 = true ↔
        (st.options.validate = true ∧ (sizeIter e0 0 p ne st).1.errors ≠ 0)) := by
  have hflag : ∀ p ne st, (sizeBody e0 0 p ne st).2.2 = true ↔
      (st.options.validate = true ∧ (sizeIter e0 0 p ne st).1.errors ≠ 0) := by
    intro p ne st
    simp [sizeBody, sizeErrors_root]
  have hobs : ∀ (r1 : Outcome), controlTrace r1.trace = controlTrace r0.trace →
      sweepsLeft r1.trace = sweepsLeft r0.trace ∧ bcastValues r1.trace = bcastValues r0.trace ∧
      visitedSizes r1.trace = visitedSizes r0.trace ∧
      transferSizes r1.trace = transferSizes r0.trace := by
    intro r1 hc
    have e1 : ∀ tr, sweepsLeft tr = sweepsLeft (controlTrace tr) := by
      intro tr
      simp only [sweepsLeft, controlTrace, List.filterMap_filterMap]
      congr 1; funext ev; cases ev <;> rfl
    have e2 : ∀ tr, bcastValues tr = bcastValues (controlTrace tr) := by
      intro tr
      simp only [bcastValues, controlTrace, List.filterMap_filterMap]
      congr 1; funext ev; cases ev <;> rfl
    have e3 : ∀ tr, visitedSizes tr = visitedSizes (controlTrace tr) := by
      intro tr
      simp only [visitedSizes, controlTrace, List.filterMap_filterMap]
      congr 1; funext ev; cases ev <;> rfl
    have e4 : ∀ tr, transferSizes tr = transferSizes (controlTrace tr) := by
      intro tr
      simp only [transferSizes, controlTrace, List.filterMap_filterMap]
      congr 1; funext ev; cases ev <;> rfl
    exact ⟨by rw [e1, hc, ← e1], by rw [e2, hc, ← e2], by rw [e3, hc, ← e3],
      by rw [e4, hc, ← e4]⟩
  have hjoint : ∀ r1 : Outcome,
      rendezvous (syncTrace r0.trace) (syncTrace r1.trace) [] = Joint.completes ↔
        syncTrace r1.trace = syncTrace r0.trace := by
    intro r1
    constructor
    · intro hc; exact (rendezvous_completes _ _ _ hc).symm
    · intro heq; rw [heq]; exact rendezvous_self _ _
  have hctl : ∀ ev, ev.isOuter = true → Event.control ev = none := by
    intro ev hev; cases ev <;> first | rfl | simp [Event.isOuter] at hev
  have hmrk : ∀ ev, ev.isOuter = true → Event.mark ev = none := by
    intro ev hev; cases ev <;> first | rfl | simp [Event.isOuter] at hev
  have hsyn : ∀ ev, ev.isOuter = true → Event.sync ev = none := by
    intro ev hev; cases ev <;> first | rfl | simp [Event.isOuter] at hev
  have hbc : ∀ ev, ev.isOuter = true → (match ev with
      | Event.bcast v => some v
      | _ => none) = none := by
    intro ev hev; cases ev <;> first | rfl | simp [Event.isOuter] at hev
  by_cases hreach : reachesSweep o e0
  · have hreach1 : reachesSweep o (responderEnv e0 v1 r0.trace) := hreach
    have h0 := h
    rw [main_of_reachesSweep _ _ _ _ hreach] at h
    have hpre : ∀ ev ∈ earlyMallocs o ++ [Event.mpi_init], ev.isOuter = true := by
      intro ev hev
      simp only [List.mem_append, List.mem_singleton] at hev
      rcases hev with hev | hev
      · exact earlyMallocs_isOuter o ev hev
      · subst hev; rfl
    obtain ⟨pr0, hp0, hc0, hfin0⟩ := mainSweep_filterMap Event.control hctl _ _ _ _ _ hpre r0 h
    obtain ⟨_, hp0', hm0, _⟩ := mainSweep_filterMap Event.mark hmrk _ _ _ _ _ hpre r0 h
    obtain ⟨_, hp0'', hb0, _⟩ := mainSweep_filterMap _ hbc _ _ _ _ _ hpre r0 h
    obtain ⟨_, hp0s, hs0, _⟩ := mainSweep_filterMap Event.sync hsyn _ _ _ _ _ hpre r0 h
    rw [hp0] at hp0' hp0'' hp0s
    simp only [Option.some.injEq] at hp0' hp0'' hp0s
    subst hp0' hp0'' hp0s
    have hbin : ∀ j, j < (bcastValues pr0.2).length →
        (responderEnv e0 v1 r0.trace).bcast_in
          ((initState (cudaBufNum e0 o)).nbcast + j) = (bcastValues pr0.2).getD j 0 := by
      intro j _
      show (bcastValues r0.trace).getD (0 + j) 0 = _
      rw [Nat.zero_add]
      congr 1
    obtain ⟨pr1, k1, k2, k3, k4, _⟩ := passLoop_pair
      (fun l1 l0 => ∀ x1 x0 : List Sync,
        l1.filterMap Event.sync ++ x1 = l0.filterMap Event.sync ++ x0 →
          l1.filterMap Event.mark = l0.filterMap Event.mark ∧ x1 = x0)
      (fun _ _ hx => ⟨rfl, hx⟩)
      (fun a1 a0 b1 b0 ha hb x1 x0 hx => by
        rw [List.filterMap_append, List.filterMap_append, List.append_assoc,
          List.append_assoc] at hx
        obtain ⟨m1, hx1⟩ := ha _ _ hx
        obtain ⟨m2, hx2⟩ := hb _ _ hx1
        exact ⟨by rw [List.filterMap_append, List.filterMap_append, m1, m2], hx2⟩)
      (fun _ _ _ hx => ⟨rfl, List.append_cancel_left hx⟩)
      e0 v1 r0.trace fuel
      (fun p ne st0 st1 hs _ x1 x0 hx =>
        sizeBody_split_pair e0 v1 r0.trace p ne st0 st1 hs x1 x0 hx)
      (fun _ _ _ hx => ⟨rfl, hx⟩) _ 0
      (initState (cudaBufNum e0 o)) (initState (cudaBufNum e0 o)) pr0
      ⟨rfl, rfl, rfl, rfl, rfl⟩ hp0 hbin
    obtain ⟨pr1s, k1s, _, _, k4s, _⟩ := passLoop_pair
      (fun l1 l0 => v1 = e0.validate_data →
        l1.filterMap Event.sync = l0.filterMap Event.sync)
      (fun _ => rfl)
      (fun a1 a0 b1 b0 ha hb hv => by
        rw [List.filterMap_append, List.filterMap_append, ha hv, hb hv])
      (fun _ _ => rfl)
      e0 v1 r0.trace fuel
      (fun p ne st0 st1 hs _ hv => sizeBody_sync_pair e0 v1 r0.trace p ne st0 st1 hs hv)
      (fun _ _ => rfl) _ 0
      (initState (cudaBufNum e0 o)) (initState (cudaBufNum e0 o)) pr0
      ⟨rfl, rfl, rfl, rfl, rfl⟩ hp0 hbin
    rw [k1] at k1s
    simp only [Option.some.injEq] at k1s
    subst k1s
    obtain ⟨r1, hr1⟩ := mainSweep_isSome fuel o (responderEnv e0 v1 r0.trace) 1
      (earlyMallocs o ++ [Event.mpi_init]) pr1 k1
    obtain ⟨_, hp1, hc1, hfin1⟩ := mainSweep_filterMap Event.control hctl _ _ _ _ _ hpre r1 hr1
    obtain ⟨_, hp1', hm1, _⟩ := mainSweep_filterMap Event.mark hmrk _ _ _ _ _ hpre r1 hr1
    obtain ⟨_, hp1s, hs1, _⟩ := mainSweep_filterMap Event.sync hsyn _ _ _ _ _ hpre r1 hr1
    have hq : passLoop (responderEnv e0 v1 r0.trace) 1 fuel
        (cudaBufNum (responderEnv e0 v1 r0.trace) o).omb_dtype_itr 0
        (initState (cudaBufNum (responderEnv e0 v1 r0.trace) o)) = some pr1 := k1
    rw [hq] at hp1 hp1' hp1s
    simp only [Option.some.injEq] at hp1 hp1' hp1s
    subst hp1 hp1' hp1s
    have hctrl : controlTrace r1.trace = controlTrace r0.trace := by
      unfold controlTrace
      rw [hc1, hc0]; exact k3
    have hmain1 : main fuel o (responderEnv e0 v1 r0.trace) 1 = some r1 := by
      rw [main_of_reachesSweep _ _ _ _ hreach1]; exact hr1
    refine ⟨{ rank0 := r0, rank1 := r1,
              joint := rendezvous (syncTrace r0.trace) (syncTrace r1.trace) [] },
      by simp only [jointRun, h0, hmain1], rfl, ?_, hjoint r1, ?_, hflag⟩
    · intro hv
      refine (hjoint r1).mpr ?_
      unfold syncTrace
      rw [hs1, hs0, k4s hv]
    · intro hcomp
      have hsync : syncTrace r1.trace = syncTrace r0.trace := (hjoint r1).mp hcomp
      unfold syncTrace at hsync
      rw [hs1, hs0] at hsync
      have hmarks := (k4 [] [] (by rw [List.append_nil, List.append_nil]; exact hsync)).1
      refine ⟨?_, hctrl, (hobs r1 hctrl).1, (hobs r1 hctrl).2.1, (hobs r1 hctrl).2.2.1,
        (hobs r1 hctrl).2.2.2, ?_, ?_⟩
      · show exchangeCounts r1.trace = exchangeCounts r0.trace
        unfold exchangeCounts
        rw [hm1, hm0, hmarks]
      · show r1.final.size = r0.final.size
        rw [hfin1, hfin0]; exact k2.2.1.symm
      · show r1.final.errors = r0.final.errors
        rw [hfin1, hfin0]; exact k2.2.2.1.symm
  · have hreach1 : ¬ reachesSweep o (responderEnv e0 v1 r0.trace) := hreach
    obtain ⟨r0', a1, a2, a3⟩ := main_of_not_reachesSweep fuel o e0 0 hreach
    obtain ⟨r1, b1, b2, b3⟩ := main_of_not_reachesSweep fuel o
      (responderEnv e0 v1 r0.trace) 1 hreach1
    have h0 := h
    rw [h] at a1
    simp only [Option.some.injEq] at a1
    subst a1
    have c0 : controlTrace r0.trace = [] := filterMap_nil_of_forall _ _ hctl _ a2
    have c1 : controlTrace r1.trace = [] := filterMap_nil_of_forall _ _ hctl _ b2
    have m0 : r0.trace.filterMap Event.mark = [] := filterMap_nil_of_forall _ _ hmrk _ a2
    have m1 : r1.trace.filterMap Event.mark = [] := filterMap_nil_of_forall _ _ hmrk _ b2
    have s0 : syncTrace r0.trace = [] := filterMap_nil_of_forall _ _ hsyn _ a2
    have s1 : syncTrace r1.trace = [] := filterMap_nil_of_forall _ _ hsyn _ b2
    have hctrl : controlTrace r1.trace = controlTrace r0.trace := by rw [c0, c1]
    refine ⟨{ rank0 := r0, rank1 := r1,
              joint := rendezvous (syncTrace r0.trace) (syncTrace r1.trace) [] },
      by simp only [jointRun, h0, b1], rfl, ?_, hjoint r1, ?_, hflag⟩
    · intro _
      exact (hjoint r1).mpr (by rw [s0, s1])
    · intro _
      refine ⟨?_, hctrl, (hobs r1 hctrl).1, (hobs r1 hctrl).2.1, (hobs r1 hctrl).2.2.1,
        (hobs r1 hctrl).2.2.2, by show r1.final.size = r0.final.size; rw [a3, b3],
        by show r1.final.errors = r0.final.errors; rw [a3, b3]⟩
      show exchangeCounts r1.trace = exchangeCounts r0.trace
      unfold exchangeCounts
      rw [m0, m1]

/-- Witness for C7: in the validating configuration with a transport that
corrupts every message for both ranks alike, the job completes; both ranks run
one exchange at size 1 and leave the sweep there, holding the count 1 after
the broadcast. With one iteration for each size and a transport that corrupts
the messages of rank 1 only, the job completes as well, and both ranks run one
exchange for each of the sizes 1, 2 and 4. -/
theorem peers_leave_sweep_together_witness :
    (jointRun 32 validatingOptions corruptEnv corruptEnv.validate_data).map
        (fun j => (j.joint, exchangeCounts j.rank0.trace, exchangeCounts j.rank1.trace)) =
      some (Joint.completes, [(1, 1)], [(1, 1)]) ∧
    (jointRun 32 validatingOptions corruptEnv corruptEnv.validate_data).map
        (fun j => (sweepsLeft j.rank0.trace, sweepsLeft j.rank1.trace,
          bcastValues j.rank1.trace)) =
      some ([(0, 1)], [(0, 1)], [1]) ∧
    (jointRun 32 singleValidating demoEnv corruptEnv.validate_data).map
        (fun j => (j.joint, exchangeCounts j.rank0.trace, exchangeCounts j.rank1.trace)) =
      some (Joint.completes, [(1, 1), (2, 1), (4, 1)], [(1, 1), (2, 1), (4, 1)]) ∧
    ∃ r0 j, main 32 validatingOptions corruptEnv 0 = some r0 ∧
      jointRun 32 validatingOptions corruptEnv corruptEnv.validate_data = some j ∧
      j.joint = Joint.completes ∧
      exchangeCounts j.rank1.trace = exchangeCounts r0.trace ∧
      sweepsLeft j.rank1.trace = sweepsLeft r0.trace := by
  have hs : (main 32 validatingOptions corruptEnv 0).isSome = true := by decide
  obtain ⟨r0, hr0⟩ := Option.isSome_iff_exists.mp hs
  obtain ⟨j, h1, _, h3, _, h5, _⟩ :=
    peers_leave_sweep_together 32 validatingOptions corruptEnv corruptEnv.validate_data r0 hr0
  exact ⟨by decide, by decide, by decide, r0, j, hr0, h1, h3 rfl, (h5 (h3 rfl)).1,
    (h5 (h3 rfl)).2.2.1⟩

end OsuBibw
